import Mathlib

/-!
# SimpleAllocator: a shallow embedding

The fixed-size-object pool allocator of `src/Simple Allocator/SimpleAllocator.cpp`,
embedded over a flat byte memory.  Addresses are natural numbers, a byte is a
natural number below 256 and a pointer occupies `PTR_BYTES = 8` bytes, stored
little-endian.  Every operation returns the outcome of the call (a value or the
exception thrown) together with the allocator state the call leaves behind.
-/

/-- Byte-addressed memory. -/
abbrev Mem := Nat → Nat

/-- Width of a pointer in bytes: the literal `8` of the constructor and the
`sizeof(char*)` of `allocateNewPage`. -/
def PTR_BYTES : Nat := 8

/-- The library routine `memset(a, v, n)`: `n` bytes from `a` are set to `v`
converted to `unsigned char`. -/
def memset (m : Mem) (a v n : Nat) : Mem :=
  fun x => if a ≤ x ∧ x < a + n then v % 256 else m x

/-- Store of one byte (`*p = v` through a `char*`). -/
def writeByte (m : Mem) (a v : Nat) : Mem :=
  fun x => if x = a then v % 256 else m x

/-- Store of an `unsigned short` (two bytes, little-endian). -/
def writeU16 (m : Mem) (a v : Nat) : Mem :=
  fun x => if x = a then v % 256 else if x = a + 1 then (v / 256) % 256 else m x

/-- Store of a pointer (eight bytes, little-endian). -/
def writePtr (m : Mem) (a v : Nat) : Mem :=
  fun x => if a ≤ x ∧ x < a + 8 then (v / 256 ^ (x - a)) % 256 else m x

/-- Load of a pointer (eight bytes, little-endian). -/
def readPtr (m : Mem) (a : Nat) : Nat :=
  m a + 256 * (m (a + 1) + 256 * (m (a + 2) + 256 * (m (a + 3) + 256 * (m (a + 4)
    + 256 * (m (a + 5) + 256 * (m (a + 6) + 256 * m (a + 7)))))))

/-- What `SimpleAllocator.h` declares and the sources only use: the four fill
patterns and the width in bits of the `unsigned` statistics counters.  The
header is not among the sources, so these are parameters of the embedding. -/
structure Decls where
  UNALLOCATED_PATTERN : Nat
  ALLOCATED_PATTERN : Nat
  FREED_PATTERN : Nat
  PAD_PATTERN : Nat
  counterBits : Nat

/-- Increment of an unsigned counter (`x++`). -/
def Decls.incr (d : Decls) (x : Nat) : Nat := (x + 1) % 2 ^ d.counterBits

/-- Decrement of an unsigned counter (`x--`), wrapping below zero. -/
def Decls.decr (d : Decls) (x : Nat) : Nat := (x + (2 ^ d.counterBits - 1)) % 2 ^ d.counterBits

/-- Compound addition on an unsigned counter (`x += n`). -/
def Decls.plus (d : Decls) (x n : Nat) : Nat := (x + n) % 2 ^ d.counterBits

/-- The header schemes of `config_.headerBlockInfo.type`. -/
inductive HeaderType where
  | NO_HEADER
  | BASIC_HEADER
  | EXTENDED_HEADER
  | EXTERNAL_HEADER
  deriving DecidableEq, Repr

/-- The configuration record `SimpleAllocatorConfig`; `headerType` and
`headerSize` are `headerBlockInfo.type` and `headerBlockInfo.size`. -/
structure SimpleAllocatorConfig where
  useCPPMemManager : Bool
  objectsPerPage : Nat
  maxPages : Nat
  isDebug : Bool
  padBytesSize : Nat
  headerType : HeaderType
  headerSize : Nat
  leftAlignBytesSize : Nat
  interAlignBytesSize : Nat

/-- The statistics record `SimpleAllocatorStats`. -/
structure SimpleAllocatorStats where
  objectSize : Nat
  blockSize : Nat
  pageSize : Nat
  allocations : Nat
  deallocations : Nat
  objectsInUse : Nat
  pagesInUse : Nat
  freeObjects : Nat
  mostObjects : Nat

/-- The out-of-line record of the external header scheme. -/
structure MemBlockInfo where
  inUse : Bool
  allocNum : Nat
  pLabel : Option String

/-- The memory backend (`new` / `malloc`): the address handed out by the k-th
request for a page and by the k-th request for a `MemBlockInfo`; `0` is a
failed request. -/
structure Backend where
  rawPage : Nat → Nat
  rawInfo : Nat → Nat

/-- Which guard zone `corruptionCheck` found damaged. -/
inductive Side where
  | before
  | after
  deriving DecidableEq, Repr

/-- The ways a call ends other than by returning: the four codes of
`SimpleAllocatorException` that the sources throw, `std::bad_alloc` from a
failed `new`, and `undefined` for a dereference the language leaves undefined
(a null free-list head, a header slot that references no record, a null label). -/
inductive Exn where
  | E_NO_MEMORY
  | E_NO_PAGE
  | E_BAD_BOUNDARY
  | E_CORRUPTED_BLOCK (side : Side)
  | bad_alloc
  | undefined
  deriving DecidableEq, Repr

/-- The allocator object: its data members, the memory it works on, the table
of live `MemBlockInfo` records and the backend with the number of requests
served so far. -/
structure SimpleAllocator where
  config_ : SimpleAllocatorConfig
  stats_ : SimpleAllocatorStats
  pFreeList_ : Nat
  pPageList_ : Nat
  mem : Mem
  infos : Nat → Option MemBlockInfo
  backend : Backend
  pageReqs : Nat
  infoReqs : Nat

namespace SimpleAllocator

/-- `SimpleAllocator::corruptionCheck`: with pad bytes configured, the
`padBytesSize` bytes before the block are compared with `PAD_PATTERN` first,
then the `padBytesSize` bytes after the object; the first mismatch throws. -/
def corruptionCheck (d : Decls) (s : SimpleAllocator) (blockStart : Nat) : Except Exn Unit :=
  if s.config_.padBytesSize > 0 then
    if (List.range s.config_.padBytesSize).any
        (fun i => s.mem (blockStart - s.config_.padBytesSize + i) != d.PAD_PATTERN) then
      .error (.E_CORRUPTED_BLOCK .before)
    else if (List.range s.config_.padBytesSize).any
        (fun i => s.mem (blockStart + s.stats_.objectSize + i) != d.PAD_PATTERN) then
      .error (.E_CORRUPTED_BLOCK .after)
    else .ok ()
  else .ok ()

/-- One pass of the seeding loop of `allocateNewPage` for block `i` at
`currentBlock`, followed by the remaining `n` passes.  Returns the memory and
the local `current` when the loop ends. -/
def seedLoop (d : Decls) (s : SimpleAllocator) :
    Nat → Nat → Nat → Nat → Nat → Mem → Mem × Nat
  | 0, _, _, _, current, m => (m, current)
  | n + 1, i, currentBlock, previous, _, m =>
    let m1 := if s.config_.padBytesSize > 0 then
        memset (memset m (currentBlock - s.config_.padBytesSize) d.PAD_PATTERN s.config_.padBytesSize)
          (currentBlock + s.stats_.objectSize) d.PAD_PATTERN s.config_.padBytesSize
      else m
    let m2 := memset m1 currentBlock d.UNALLOCATED_PATTERN s.stats_.objectSize
    let m3 := writePtr m2 currentBlock (if i = 0 then s.pFreeList_ else previous)
    seedLoop d s n (i + 1) (currentBlock + s.stats_.blockSize) currentBlock currentBlock m3

/-- `SimpleAllocator::allocateNewPage`. -/
def allocateNewPage (d : Decls) (s : SimpleAllocator) : Except Exn Unit × SimpleAllocator :=
  if s.stats_.pagesInUse ≥ s.config_.maxPages then
    (.error .E_NO_PAGE, s)
  else
    let newPage := s.backend.rawPage s.pageReqs
    let s1 := { s with pageReqs := s.pageReqs + 1 }
    if newPage = 0 then
      (.error (if s.config_.useCPPMemManager then .bad_alloc else .E_NO_MEMORY), s1)
    else
      let mp := writePtr (writePtr s.mem newPage newPage) newPage s.pPageList_
      let incr := s.config_.interAlignBytesSize + s.config_.headerSize
        + s.config_.padBytesSize + PTR_BYTES
      let r := seedLoop d s s.config_.objectsPerPage 0 (newPage + incr) 0 0 mp
      (.ok (), { s1 with
        mem := r.1
        pPageList_ := newPage
        pFreeList_ := r.2
        stats_ := { s.stats_ with
          pagesInUse := d.incr s.stats_.pagesInUse
          freeObjects := d.plus s.stats_.freeObjects s.config_.objectsPerPage } })

/-- `SimpleAllocator::SimpleAllocator`: the object before the constructor body
calls `allocateNewPage`.  The sizes are computed in the types of the operands:
the fields of the configuration are `unsigned`, `counterBits` wide, so the
products `padBytesSize * 2`, `interAlignBytesSize * (objectsPerPage - 1)` and
`padBytesSize * maxPages`, the difference `objectsPerPage - 1` and the sum
`8 + leftAlignBytesSize` wrap at that width; `objectSize` is a `size_t`, as wide
as a pointer, and the sums and the product with `blockSize` are formed and
stored at that width. -/
def init (d : Decls) (b : Backend) (m : Mem) (objectSize : Nat)
    (config : SimpleAllocatorConfig) : SimpleAllocator :=
  let blockSize := (objectSize + (config.padBytesSize * 2) % 2 ^ d.counterBits
    + config.headerSize) % 2 ^ (8 * PTR_BYTES)
  { config_ := config
    stats_ :=
      { objectSize := objectSize
        blockSize := blockSize
        pageSize := ((8 + config.leftAlignBytesSize) % 2 ^ d.counterBits
          + (blockSize * config.objectsPerPage) % 2 ^ (8 * PTR_BYTES)
          + (config.interAlignBytesSize * d.decr config.objectsPerPage) % 2 ^ d.counterBits
          + (config.padBytesSize * config.maxPages) % 2 ^ d.counterBits) % 2 ^ (8 * PTR_BYTES)
        allocations := 0
        deallocations := 0
        objectsInUse := 0
        pagesInUse := 0
        freeObjects := 0
        mostObjects := 0 }
    pFreeList_ := 0
    pPageList_ := 0
    mem := m
    infos := fun _ => none
    backend := b
    pageReqs := 0
    infoReqs := 0 }

/-- `SimpleAllocator::SimpleAllocator`: the whole constructor; an exception of
`allocateNewPage` leaves it, and no object exists then. -/
def construct (d : Decls) (b : Backend) (m : Mem) (objectSize : Nat)
    (config : SimpleAllocatorConfig) : Except Exn SimpleAllocator :=
  match allocateNewPage d (init d b m objectSize config) with
  | (.ok _, s) => .ok s
  | (.error e, _) => .error e

/-- Store through a `MemBlockInfo*`: the record at address `a` becomes `r`. -/
def setInfo (infos : Nat → Option MemBlockInfo) (a : Nat) (r : MemBlockInfo) :
    Nat → Option MemBlockInfo :=
  fun x => if x = a then some r else infos x

/-- The part of `allocate` after the block has left the free list: statistics,
fill pattern and the header scheme. -/
def stamp (d : Decls) (s : SimpleAllocator) (allocatedBlock : Nat) (pLabel : Option String) :
    Except Exn Nat × SimpleAllocator :=
  let allocations := d.incr s.stats_.allocations
  let stats := { s.stats_ with
    allocations := allocations
    objectsInUse := d.incr s.stats_.objectsInUse
    freeObjects := d.decr s.stats_.freeObjects }
  let header := allocatedBlock - s.config_.padBytesSize - s.config_.headerSize
  let value := s.mem (allocatedBlock + 8)
  let m1 := memset s.mem allocatedBlock d.ALLOCATED_PATTERN s.stats_.objectSize
  let s1 := { s with stats_ := stats, mem := m1 }
  if s.config_.headerType = .EXTENDED_HEADER then
    let m2 := writeByte m1 header (m1 header + 1)
    let m3 := writeU16 m2 (header + 2) allocations
    let flag := allocatedBlock - s.config_.padBytesSize - 1
    (.ok allocatedBlock, { s1 with mem := writeByte m3 flag 1 })
  else if s.config_.headerType = .EXTERNAL_HEADER then
    let fresh := value == d.UNALLOCATED_PATTERN
    let made := s.backend.rawInfo s.infoReqs
    if fresh && made == 0 && s.config_.useCPPMemManager then
      (.error .bad_alloc, { s1 with infoReqs := s.infoReqs + 1 })
    else
      let pInfo := if fresh then made else readPtr m1 header
      let s2 := { s1 with
        mem := if fresh then writePtr m1 header made else m1
        infoReqs := if fresh then s.infoReqs + 1 else s.infoReqs }
      if pInfo == 0 || (!fresh && (s.infos pInfo).isNone) then
        (.error .undefined, s2)
      else
        match pLabel with
        | none =>
          let r : MemBlockInfo := ⟨true, allocations, (s.infos pInfo).bind (fun r => r.pLabel)⟩
          (.error .undefined, { s2 with infos := setInfo s.infos pInfo r })
        | some l =>
          let r : MemBlockInfo := ⟨true, allocations, some l⟩
          (.ok allocatedBlock, { s2 with infos := setInfo s.infos pInfo r })
  else
    let m2 := writeByte m1 header allocations
    let flag := allocatedBlock - s.config_.padBytesSize - 1
    (.ok allocatedBlock, { s1 with mem := writeByte m2 flag 1 })

/-- The part of `allocate` from "Remove a block from the free list" on: the
head is checked for corruption, unlinked and stamped. -/
def takeHead (d : Decls) (s : SimpleAllocator) (pLabel : Option String) :
    Except Exn Nat × SimpleAllocator :=
  let allocatedBlock := s.pFreeList_
  if allocatedBlock = 0 then (.error .undefined, s)
  else
    match corruptionCheck d s allocatedBlock with
    | .error e => (.error e, s)
    | .ok _ =>
      stamp d { s with pFreeList_ := readPtr s.mem allocatedBlock } allocatedBlock pLabel

/-- `SimpleAllocator::allocate`. -/
def allocate (d : Decls) (s : SimpleAllocator) (pLabel : Option String) :
    Except Exn Nat × SimpleAllocator :=
  let r := if s.pFreeList_ = 0 then allocateNewPage d s else (.ok (), s)
  match r with
  | (.error e, s1) => (.error e, s1)
  | (.ok _, s1) => takeHead d s1 pLabel

/-- `SimpleAllocator::free`. -/
def free (d : Decls) (s : SimpleAllocator) (pObj : Nat) : Except Exn Unit × SimpleAllocator :=
  if pObj = 0 then (.error .E_BAD_BOUNDARY, s)
  else if s.stats_.objectsInUse = 0 then (.error .E_BAD_BOUNDARY, s)
  else
    match corruptionCheck d s pObj with
    | .error e => (.error e, s)
    | .ok _ =>
      let m1 := memset s.mem pObj d.FREED_PATTERN s.stats_.objectSize
      let m2 := writePtr m1 pObj s.pFreeList_
      let flag := if s.config_.padBytesSize > 0 then pObj - 1 - s.config_.padBytesSize
        else pObj - 1
      let stats := { s.stats_ with
        deallocations := d.incr s.stats_.deallocations
        objectsInUse := d.decr s.stats_.objectsInUse
        freeObjects := d.incr s.stats_.freeObjects }
      let header := pObj - s.config_.padBytesSize - s.config_.headerSize
      let s1 := { s with mem := m2, pFreeList_ := pObj, stats_ := stats }
      if s.config_.headerType = .EXTENDED_HEADER then
        (.ok (), { s1 with mem := writeByte (writeU16 m2 (header + 2) 0) flag 0 })
      else if s.config_.headerType = .EXTERNAL_HEADER then
        let pInfo := readPtr m2 header
        match s.infos pInfo with
        | none => (.error .undefined, s1)
        | some r => (.ok (), { s1 with infos := setInfo s.infos pInfo ⟨false, r.allocNum, none⟩ })
      else
        (.ok (), { s1 with mem := writeByte (writeByte m2 header 0) flag 0 })

end SimpleAllocator

/-- A client's store of one byte into memory between two calls. -/
def poke (s : SimpleAllocator) (a v : Nat) : SimpleAllocator :=
  { s with mem := writeByte s.mem a v }

/-- What a client does between construction and teardown: a call of `allocate`,
a call of `free`, or a store of one byte somewhere in memory. -/
inductive Op where
  | allocate (pLabel : Option String)
  | free (pObj : Nat)
  | store (a v : Nat)

/-- The allocator state one client action leaves behind, whether the call
returns or throws. -/
def step (d : Decls) (s : SimpleAllocator) : Op → SimpleAllocator
  | .allocate pLabel => (SimpleAllocator.allocate d s pLabel).2
  | .free pObj => (SimpleAllocator.free d s pObj).2
  | .store a v => poke s a v

/-- The allocator state after a sequence of client actions, first one first. -/
def run (d : Decls) (s : SimpleAllocator) (ops : List Op) : SimpleAllocator :=
  ops.foldl (step d) s

/-- The outcome of `n` consecutive `allocate` calls with no label, oldest first,
and the state they leave. -/
def allocateN (d : Decls) : Nat → SimpleAllocator → List (Except Exn Nat) × SimpleAllocator
  | 0, s => ([], s)
  | n + 1, s =>
    let r := SimpleAllocator.allocate d s none
    let q := allocateN d n r.2
    (r.1 :: q.1, q.2)

/-- The declarations used for concrete runs: the customary debug patterns and
32-bit counters. -/
def stdDecls : Decls :=
  { UNALLOCATED_PATTERN := 0xAA, ALLOCATED_PATTERN := 0xBB, FREED_PATTERN := 0xCC,
    PAD_PATTERN := 0xDD, counterBits := 32 }

/-- A backend for concrete runs: pages 4096 bytes apart from address 4096,
records 64 bytes apart from address 1000000. -/
def stdBackend : Backend :=
  { rawPage := fun k => 4096 * (k + 1), rawInfo := fun k => 1000000 + 64 * k }

/-- Memory that holds zero everywhere. -/
def zeroMem : Mem := fun _ => 0

/-- A configuration for concrete runs: four objects per page, two pages, two
pad bytes on each side and a one-byte basic header. -/
def paddedConfig : SimpleAllocatorConfig :=
  { useCPPMemManager := true, objectsPerPage := 4, maxPages := 2, isDebug := false,
    padBytesSize := 2, headerType := .BASIC_HEADER, headerSize := 1,
    leftAlignBytesSize := 0, interAlignBytesSize := 0 }

/-- The allocator built from `paddedConfig` for 16-byte objects. -/
def paddedStart : SimpleAllocator :=
  (SimpleAllocator.allocateNewPage stdDecls
    (SimpleAllocator.init stdDecls stdBackend zeroMem 16 paddedConfig)).2


/-- The padded allocator after one `allocate`. -/
def paddedOne : SimpleAllocator :=
  (SimpleAllocator.allocate stdDecls paddedStart none).2

/-- The accounting relations between the counters, in the arithmetic of the
`counterBits`-wide unsigned counters, together with the counters' range. -/
def Accounting (d : Decls) (s : SimpleAllocator) : Prop :=
  s.stats_.allocations ≡ s.stats_.deallocations + s.stats_.objectsInUse [MOD 2 ^ d.counterBits] ∧
  s.stats_.freeObjects + s.stats_.objectsInUse
    ≡ s.stats_.pagesInUse * s.config_.objectsPerPage [MOD 2 ^ d.counterBits] ∧
  s.stats_.deallocations < 2 ^ d.counterBits ∧
  s.stats_.objectsInUse < 2 ^ d.counterBits

/-- A sequence of client actions for concrete runs: two allocations, a store
into the first block handed out, a free of that block, the same free again,
and a free of the null pointer. -/
def sampleOps : List Op :=
  [.allocate none, .allocate none, .store 4171 7, .free 4170, .free 4170, .free 0]

/-- The free list is not empty whenever a block is too small to hold its link
beside configured pad bytes. -/
def HeadSet (s : SimpleAllocator) : Prop :=
  0 < s.config_.padBytesSize → s.stats_.objectSize < 8 → 1 ≤ s.config_.objectsPerPage →
    s.pFreeList_ ≠ 0

/-- The failures the specification names: PageLimitExceeded, CorruptedBlock and
InvalidFree. -/
def Exn.named : Exn → Bool
  | .E_NO_PAGE => true
  | .E_CORRUPTED_BLOCK _ => true
  | .E_BAD_BOUNDARY => true
  | _ => false

/-- Eight `allocate` calls in a row. -/
def eightAllocs : List Op := List.replicate 8 (.allocate none)

/-- The configuration of the end-to-end scenario: four objects per page, two
pages, no pad bytes, no header (an empty header region). -/
def scenarioConfig : SimpleAllocatorConfig :=
  { useCPPMemManager := true, objectsPerPage := 4, maxPages := 2, isDebug := false,
    padBytesSize := 0, headerType := .NO_HEADER, headerSize := 0,
    leftAlignBytesSize := 0, interAlignBytesSize := 0 }

/-- The allocator built from `scenarioConfig` for 8-byte objects; its first
page is at 4096 and holds the blocks 4104, 4112, 4120 and 4128. -/
def scenarioStart : SimpleAllocator :=
  (SimpleAllocator.allocateNewPage stdDecls
    (SimpleAllocator.init stdDecls stdBackend zeroMem 8 scenarioConfig)).2

/-- A configuration with one guard byte on each side and no header: two objects
per page, one page. -/
def guardedConfig : SimpleAllocatorConfig :=
  { useCPPMemManager := true, objectsPerPage := 2, maxPages := 1, isDebug := false,
    padBytesSize := 1, headerType := .NO_HEADER, headerSize := 0,
    leftAlignBytesSize := 0, interAlignBytesSize := 0 }

/-- The allocator built from `guardedConfig` for 8-byte objects; its page is at
4096 and holds the blocks 4105 and 4115. -/
def guardedStart : SimpleAllocator :=
  (SimpleAllocator.allocateNewPage stdDecls
    (SimpleAllocator.init stdDecls stdBackend zeroMem 8 guardedConfig)).2

/-- A configuration with one guard byte on each side and no header: one object
per page, 221 pages. -/
def singleConfig : SimpleAllocatorConfig :=
  { useCPPMemManager := true, objectsPerPage := 1, maxPages := 221, isDebug := false,
    padBytesSize := 1, headerType := .NO_HEADER, headerSize := 0,
    leftAlignBytesSize := 0, interAlignBytesSize := 0 }

/-- The allocator built from `singleConfig` for 8-byte objects. -/
def singleStart : SimpleAllocator :=
  (SimpleAllocator.allocateNewPage stdDecls
    (SimpleAllocator.init stdDecls stdBackend zeroMem 8 singleConfig)).2

/-- The blocks of a free list: the addresses met from `p` by following the link
in the first word of each, up to the null pointer or `fuel` blocks. -/
def freeListFrom (m : Mem) : Nat → Nat → List Nat
  | 0, _ => []
  | fuel + 1, p => if p = 0 then [] else p :: freeListFrom m fuel (readPtr m p)

/-- Address of the object region of the `k`-th block of the page at `page`:
`allocateNewPage` starts at `page + incr` and advances by `blockSize`. -/
def blockAt (s : SimpleAllocator) (page k : Nat) : Nat :=
  page + (s.config_.interAlignBytesSize + s.config_.headerSize + s.config_.padBytesSize
    + PTR_BYTES) + k * s.stats_.blockSize

/-- A configuration for 4-byte objects: three objects per page, four left-align
bytes, no pad bytes and no header. -/
def smallConfig : SimpleAllocatorConfig :=
  { useCPPMemManager := true, objectsPerPage := 3, maxPages := 2, isDebug := false,
    padBytesSize := 0, headerType := .NO_HEADER, headerSize := 0,
    leftAlignBytesSize := 4, interAlignBytesSize := 0 }

/-- The object the constructor has initialised for `paddedConfig` and 16-byte
objects, before its first page is acquired. -/
def paddedInit : SimpleAllocator :=
  SimpleAllocator.init stdDecls stdBackend zeroMem 16 paddedConfig

/-- The object the constructor has initialised for `smallConfig` and 4-byte
objects, before its first page is acquired. -/
def smallInit : SimpleAllocator :=
  SimpleAllocator.init stdDecls stdBackend zeroMem 4 smallConfig

/-- A configuration with four left-align bytes: two 16-byte objects per page,
two pad bytes on each side and a five-byte basic header. -/
def leftAlignedConfig : SimpleAllocatorConfig :=
  { useCPPMemManager := true, objectsPerPage := 2, maxPages := 1, isDebug := false,
    padBytesSize := 2, headerType := .BASIC_HEADER, headerSize := 5,
    leftAlignBytesSize := 4, interAlignBytesSize := 0 }

/-- The allocator built from `leftAlignedConfig` for 16-byte objects. -/
def leftAlignedStart : SimpleAllocator :=
  (SimpleAllocator.allocateNewPage stdDecls
    (SimpleAllocator.init stdDecls stdBackend zeroMem 16 leftAlignedConfig)).2

/-- A configuration with four inter-block alignment bytes: three 16-byte objects
per page, two pad bytes on each side and a five-byte basic header. -/
def interAlignedConfig : SimpleAllocatorConfig :=
  { useCPPMemManager := true, objectsPerPage := 3, maxPages := 1, isDebug := false,
    padBytesSize := 2, headerType := .BASIC_HEADER, headerSize := 5,
    leftAlignBytesSize := 0, interAlignBytesSize := 4 }

/-- The allocator built from `interAlignedConfig` for 16-byte objects. -/
def interAlignedStart : SimpleAllocator :=
  (SimpleAllocator.allocateNewPage stdDecls
    (SimpleAllocator.init stdDecls stdBackend zeroMem 16 interAlignedConfig)).2

/-- Four `allocate` calls in a row. -/
def fourAllocs : List Op := List.replicate 4 (.allocate none)

/-- The state in which `allocate` takes a block from the free list: the state
it is called in or, when the free list was empty, the state after the page
acquisition. -/
def beforePop (d : Decls) (s : SimpleAllocator) : SimpleAllocator :=
  if s.pFreeList_ = 0 then (SimpleAllocator.allocateNewPage d s).2 else s

/-- A configuration with a five-byte basic header: four objects per page, two
pages, two pad bytes on each side. -/
def basicConfig : SimpleAllocatorConfig :=
  { useCPPMemManager := true, objectsPerPage := 4, maxPages := 2, isDebug := false,
    padBytesSize := 2, headerType := .BASIC_HEADER, headerSize := 5,
    leftAlignBytesSize := 0, interAlignBytesSize := 0 }

/-- The allocator built from `basicConfig` for 16-byte objects; its first page
is at 4096 and holds the blocks 4111, 4136, 4161 and 4186. -/
def basicStart : SimpleAllocator :=
  (SimpleAllocator.allocateNewPage stdDecls
    (SimpleAllocator.init stdDecls stdBackend zeroMem 16 basicConfig)).2

/-- A configuration with a seven-byte extended header: four objects per page,
two pages, two pad bytes on each side. -/
def extendedConfig : SimpleAllocatorConfig :=
  { useCPPMemManager := true, objectsPerPage := 4, maxPages := 2, isDebug := false,
    padBytesSize := 2, headerType := .EXTENDED_HEADER, headerSize := 7,
    leftAlignBytesSize := 0, interAlignBytesSize := 0 }

/-- The allocator built from `extendedConfig` for 16-byte objects; its first
page is at 4096 and holds the blocks 4113, 4140, 4167 and 4194. -/
def extendedStart : SimpleAllocator :=
  (SimpleAllocator.allocateNewPage stdDecls
    (SimpleAllocator.init stdDecls stdBackend zeroMem 16 extendedConfig)).2

/-- A configuration with a four-byte extended header. -/
def extendedShortConfig : SimpleAllocatorConfig :=
  { useCPPMemManager := true, objectsPerPage := 4, maxPages := 2, isDebug := false,
    padBytesSize := 2, headerType := .EXTENDED_HEADER, headerSize := 4,
    leftAlignBytesSize := 0, interAlignBytesSize := 0 }

/-- The allocator built from `extendedShortConfig` for 16-byte objects. -/
def extendedShortStart : SimpleAllocator :=
  (SimpleAllocator.allocateNewPage stdDecls
    (SimpleAllocator.init stdDecls stdBackend zeroMem 16 extendedShortConfig)).2

/-- A configuration with an eight-byte external header: four objects per page,
two pages, two pad bytes on each side. -/
def externalConfig : SimpleAllocatorConfig :=
  { useCPPMemManager := true, objectsPerPage := 4, maxPages := 2, isDebug := false,
    padBytesSize := 2, headerType := .EXTERNAL_HEADER, headerSize := 8,
    leftAlignBytesSize := 0, interAlignBytesSize := 0 }

/-- Memory that holds 0xFF everywhere. -/
def onesMem : Mem := fun _ => 0xFF

/-- The allocator built from `externalConfig` for 16-byte objects in memory
that held 0xFF everywhere; its first page is at 4096 and holds the blocks
4114, 4142, 4170 and 4198. -/
def externalStart : SimpleAllocator :=
  (SimpleAllocator.allocateNewPage stdDecls
    (SimpleAllocator.init stdDecls stdBackend onesMem 16 externalConfig)).2

/-- The allocator built from `externalConfig` for 8-byte objects. -/
def externalWordStart : SimpleAllocator :=
  (SimpleAllocator.allocateNewPage stdDecls
    (SimpleAllocator.init stdDecls stdBackend onesMem 8 externalConfig)).2

/-- The object the constructor has initialised for `externalConfig` and 16-byte
objects, before its first page is acquired. -/
def externalInit : SimpleAllocator :=
  SimpleAllocator.init stdDecls stdBackend onesMem 16 externalConfig

/-- The external-header allocator after `allocate("a")`, which returns 4198. -/
def externalOne : SimpleAllocator :=
  (SimpleAllocator.allocate stdDecls externalStart (some "a")).2

/-- The external-header allocator after `allocate("a")` and `free(4198)`. -/
def externalFreed : SimpleAllocator :=
  (SimpleAllocator.free stdDecls externalOne 4198).2

/-- The basic-header allocator after two `allocate` calls, which return 4186
and 4161. -/
def basicTwo : SimpleAllocator :=
  (allocateN stdDecls 2 basicStart).2

/-!
# Search trees

The trees of `src/BST/BST.cpp`, `src/AVL/BST.cpp` and `src/AVL/AVL.cpp`.  A
`BinTree` pointer is a value of an inductive type: the null pointer is `nil`,
and a node carries the address of the block it occupies next to its fields.
The fields of a node are read from the tree value: the bytes of a node are not
stored into the memory of the allocator, so `mem` of the allocator of a tree
is memory as the stores of the allocator leave it, and a store of the
allocator into a node, or a block it hands out over a node, does not show in
the tree value.  What `add` and `remove` do is therefore stated for calls in
which the allocator loads and stores no byte of a node that stays in the tree
(`BST.AllocateClear`, `BST.FreeClear`, with `SimpleAllocator.window` and
`SimpleAllocator.pageReach` for the bytes a call touches); runs in which it
does are shown on concrete trees.  `count` and the `int` index of `operator[]`
are unbounded integers.
-/

/-- The codes of `BSTException` the sources throw. -/
inductive BSTCode where
  | E_OUT_BOUNDS
  | E_DUPLICATE
  | E_NO_MEMORY
  | E_NOT_FOUND
  deriving DecidableEq, Repr

/-- The ways a tree operation ends other than by returning: a `BSTException`
with its code and message, a `SimpleAllocatorException` that leaves the
allocator and passes through the tree, and `undefined` for a dereference of a
null node pointer. -/
inductive TreeExn where
  | bst (code : BSTCode) (message : String)
  | allocator (e : Exn)
  | undefined
  deriving DecidableEq

/-- The pointer type `BinTree`: null, or the node it points to with the fields
`left`, `data`, `right`, `count`, `balanceFactor` and the address of the node. -/
inductive BinTree (T : Type) where
  | nil : BinTree T
  | node (l : BinTree T) (data : T) (r : BinTree T) (count : Nat) (balanceFactor : Int)
      (addr : Nat) : BinTree T
  deriving DecidableEq, Repr

/-- What `BST.h` and `SimpleAllocator.h` declare and the sources only use: the
size of a node, the `count` and `balanceFactor` the constructor
`BinTreeNode(value)` gives a node, and the default-constructed
`SimpleAllocatorConfig`.  The headers are not among the sources, so these are
parameters of the embedding. -/
structure TreeDecls where
  nodeSize : Nat
  count : Nat
  balanceFactor : Int
  config : SimpleAllocatorConfig

/-- The data members of a `BST` object; `allocator_` is `none` for a null
allocator pointer. -/
structure BST (T : Type) where
  allocator_ : Option SimpleAllocator
  isOwnAllocator_ : Bool
  root_ : BinTree T

/-- The in-order sequence of the values of a tree. -/
def BinTree.inorder {T : Type} : BinTree T → List T
  | .nil => []
  | .node l x r _ _ _ => l.inorder ++ x :: r.inorder

/-- The addresses of the nodes of a tree, in order. -/
def BinTree.addrs {T : Type} : BinTree T → List Nat
  | .nil => []
  | .node l _ r _ _ p => l.addrs ++ p :: r.addrs

/-- The field `data` of the node a pointer refers to, if it refers to one. -/
def BinTree.data? {T : Type} : BinTree T → Option T
  | .nil => none
  | .node _ x _ _ _ _ => some x

/-- The store `tree->count = c` through a pointer that is not null. -/
def BinTree.setCount {T : Type} (c : Nat) : BinTree T → BinTree T
  | .nil => .nil
  | .node l x r _ b p => .node l x r c b p

namespace BST

variable {T : Type}

/-- `BST::makeNode`, the same in both `BST.cpp`: without an allocator the call
throws before anything else happens; otherwise the node is built in the block
`allocate` returns.  The node value records the address of the block and the
fields the constructor sets; the bytes the constructor stores into the block
are not recorded in `mem`. -/
def makeNode (d : Decls) (td : TreeDecls) (a : Option SimpleAllocator) (value : T) :
    Except TreeExn (BinTree T) × Option SimpleAllocator :=
  match a with
  | none => (.error (.bst .E_NO_MEMORY "Allocator is not set"), none)
  | some s =>
    match SimpleAllocator.allocate d s (some "NodeLabel") with
    | (.error e, s1) => (.error (.allocator e), some s1)
    | (.ok node, s1) =>
      if node = 0 then
        (.error (.bst .E_NO_MEMORY "Failed to allocate memory for a new node"), some s1)
      else (.ok (.node .nil value .nil td.count td.balanceFactor node), some s1)

/-- `BST::freeNode`, the same in both `BST.cpp`, for the node at address `node`. -/
def freeNode (d : Decls) (a : Option SimpleAllocator) (node : Nat) :
    Except TreeExn Unit × Option SimpleAllocator :=
  match a with
  | none => (.error (.bst .E_NO_MEMORY "Allocator is not set"), none)
  | some s =>
    match SimpleAllocator.free d s node with
    | (.error e, s1) => (.error (.allocator e), some s1)
    | (.ok _, s1) => (.ok (), some s1)

/-- The loop of `findPredecessor`: the last node on the right spine. -/
def rightmost : BinTree T → BinTree T
  | .nil => .nil
  | .node l x .nil c b p => .node l x .nil c b p
  | .node _ _ (.node rl y rr c2 b2 p2) _ _ _ => rightmost (.node rl y rr c2 b2 p2)

/-- `BST::findPredecessor`, the same in both `BST.cpp`: the value left in
`predecessor`. -/
def findPredecessor : BinTree T → BinTree T
  | .nil => .nil
  | .node .nil _ _ _ _ _ => .nil
  | .node (.node ll y lr c2 b2 p2) _ _ _ _ _ => rightmost (.node ll y lr c2 b2 p2)

/-- `BST::isLeaf`. -/
def isLeaf : BinTree T → Bool
  | .node .nil _ .nil _ _ _ => true
  | _ => false

/-- `BST::size_` of `src/BST/BST.cpp`: the cached `count`. -/
def size_ : BinTree T → Nat
  | .nil => 0
  | .node _ _ _ c _ _ => c

end BST

namespace BST

variable {T : Type}

/-- `BST::getNode_` of `src/BST/BST.cpp`: the node returned, or the exception. -/
def getNode_ : BinTree T → Int → Except TreeExn (BinTree T)
  | .nil, _ => .error (.bst .E_OUT_BOUNDS "Index out of bounds")
  | .node l x r c b p, index =>
    if index < (size_ l : Int) then getNode_ l index
    else if index = (size_ l : Int) then .ok (.node l x r c b p)
    else getNode_ r (index - (size_ l : Int) - 1)

end BST

namespace BST

variable {T : Type} [LinearOrder T]

/-- `BST::add_` of `src/BST/BST.cpp`: the outcome of the call, the pointer it
leaves in `tree` and the allocator it leaves behind. -/
def add_ (d : Decls) (td : TreeDecls) (a : Option SimpleAllocator) :
    BinTree T → T → Except TreeExn Unit × BinTree T × Option SimpleAllocator
  | .nil, value =>
    match makeNode d td a value with
    | (.error e, a1) => (.error e, .nil, a1)
    | (.ok node, a1) => (.ok (), node.setCount 1, a1)
  | .node l x r c b p, value =>
    if value < x then
      match add_ d td a l value with
      | (.error e, l1, a1) => (.error e, .node l1 x r c b p, a1)
      | (.ok _, l1, a1) => (.ok (), .node l1 x r (size_ l1 + size_ r + 1) b p, a1)
    else if value > x then
      match add_ d td a r value with
      | (.error e, r1, a1) => (.error e, .node l x r1 c b p, a1)
      | (.ok _, r1, a1) => (.ok (), .node l x r1 (size_ l + size_ r1 + 1) b p, a1)
    else (.error (.bst .E_DUPLICATE "Duplicate value not allowed"), .node l x r c b p, a)

/-- The closing statement of `remove_` in `src/BST/BST.cpp`: a pointer that is
not null has its `count` recomputed from the counts of its children. -/
def recount : BinTree T → BinTree T
  | .nil => .nil
  | .node l x r _ b p => .node l x r (size_ l + size_ r + 1) b p

/-- `BST::remove_` of `src/BST/BST.cpp`. -/
def remove_ (d : Decls) (a : Option SimpleAllocator) :
    BinTree T → T → Except TreeExn Unit × BinTree T × Option SimpleAllocator
  | .nil, _ => (.error (.bst .E_NOT_FOUND "Value to remove not found in the tree"), .nil, a)
  | .node l x r c b p, value =>
    if value < x then
      match remove_ d a l value with
      | (.error e, l1, a1) => (.error e, .node l1 x r c b p, a1)
      | (.ok _, l1, a1) => (.ok (), recount (.node l1 x r c b p), a1)
    else if value > x then
      match remove_ d a r value with
      | (.error e, r1, a1) => (.error e, .node l x r1 c b p, a1)
      | (.ok _, r1, a1) => (.ok (), recount (.node l x r1 c b p), a1)
    else
      match l, r with
      | .nil, r =>
        match freeNode d a p with
        | (.error e, a1) => (.error e, .node .nil x r c b p, a1)
        | (.ok _, a1) => (.ok (), recount r, a1)
      | .node ll y lr c2 b2 p2, .nil =>
        match freeNode d a p with
        | (.error e, a1) => (.error e, .node (.node ll y lr c2 b2 p2) x .nil c b p, a1)
        | (.ok _, a1) => (.ok (), recount (.node ll y lr c2 b2 p2), a1)
      | .node ll y lr c2 b2 p2, .node rl z rr c3 b3 p3 =>
        match (findPredecessor
          (.node (.node ll y lr c2 b2 p2) x (.node rl z rr c3 b3 p3) c b p)).data? with
        | none =>
          (.error .undefined, .node (.node ll y lr c2 b2 p2) x (.node rl z rr c3 b3 p3) c b p, a)
        | some pd =>
          match remove_ d a (.node ll y lr c2 b2 p2) pd with
          | (.error e, l1, a1) => (.error e, .node l1 pd (.node rl z rr c3 b3 p3) c b p, a1)
          | (.ok _, l1, a1) => (.ok (), recount (.node l1 pd (.node rl z rr c3 b3 p3) c b p), a1)

end BST
namespace AVL.BST

variable {T : Type}

/-- `BST::size_` of `src/AVL/BST.cpp`: the nodes are counted. -/
def size_ : BinTree T → Nat
  | .nil => 0
  | .node l _ r _ _ _ => 1 + size_ l + size_ r

/-- `BST::treeHeight` of `src/AVL/BST.cpp`. -/
def treeHeight : BinTree T → Int
  | .nil => -1
  | .node l _ r _ _ _ => 1 + max (treeHeight l) (treeHeight r)

/-- `BST::getNode_` of `src/AVL/BST.cpp`: the node returned, or the exception. -/
def getNode_ : BinTree T → Int → Except TreeExn (BinTree T)
  | .nil, _ => .error (.bst .E_OUT_BOUNDS "Index out of bounds")
  | .node l x r c b p, index =>
    if index < (size_ l : Int) then getNode_ l index
    else if index = (size_ l : Int) then .ok (.node l x r c b p)
    else getNode_ r (index - (size_ l : Int) - 1)

end AVL.BST

namespace AVL.BST

variable {T : Type} [LinearOrder T]

/-- `BST::add_` of `src/AVL/BST.cpp`. -/
def add_ (d : Decls) (td : TreeDecls) (a : Option SimpleAllocator) :
    BinTree T → T → Except TreeExn Unit × BinTree T × Option SimpleAllocator
  | .nil, value =>
    match BST.makeNode d td a value with
    | (.error e, a1) => (.error e, .nil, a1)
    | (.ok node, a1) => (.ok (), node.setCount 1, a1)
  | .node l x r c b p, value =>
    if value < x then
      match add_ d td a l value with
      | (.error e, l1, a1) => (.error e, .node l1 x r c b p, a1)
      | (.ok _, l1, a1) => (.ok (), .node l1 x r (size_ l1 + size_ r + 1) b p, a1)
    else if value > x then
      match add_ d td a r value with
      | (.error e, r1, a1) => (.error e, .node l x r1 c b p, a1)
      | (.ok _, r1, a1) => (.ok (), .node l x r1 (size_ l + size_ r1 + 1) b p, a1)
    else (.error (.bst .E_DUPLICATE "Duplicate value not allowed"), .node l x r c b p, a)

/-- `BST::remove_` of `src/AVL/BST.cpp`. -/
def remove_ (d : Decls) (a : Option SimpleAllocator) :
    BinTree T → T → Except TreeExn Unit × BinTree T × Option SimpleAllocator
  | .nil, _ => (.error (.bst .E_NOT_FOUND "Value to remove not found in the tree"), .nil, a)
  | .node l x r c b p, value =>
    if value < x then
      match remove_ d a l value with
      | (res, l1, a1) => (res, .node l1 x r c b p, a1)
    else if value > x then
      match remove_ d a r value with
      | (res, r1, a1) => (res, .node l x r1 c b p, a1)
    else
      match l, r with
      | .nil, .nil =>
        match BST.freeNode d a p with
        | (.error e, a1) => (.error e, .node .nil x .nil c b p, a1)
        | (.ok _, a1) => (.ok (), .nil, a1)
      | .nil, .node rl z rr c3 b3 p3 =>
        match BST.freeNode d a p with
        | (res, a1) => (res, .node rl z rr c3 b3 p3, a1)
      | .node ll y lr c2 b2 p2, .nil =>
        match BST.freeNode d a p with
        | (res, a1) => (res, .node ll y lr c2 b2 p2, a1)
      | .node ll y lr c2 b2 p2, .node rl z rr c3 b3 p3 =>
        match (BST.findPredecessor
          (.node (.node ll y lr c2 b2 p2) x (.node rl z rr c3 b3 p3) c b p)).data? with
        | none =>
          (.error .undefined, .node (.node ll y lr c2 b2 p2) x (.node rl z rr c3 b3 p3) c b p, a)
        | some pd =>
          match remove_ d a (.node ll y lr c2 b2 p2) pd with
          | (res, l1, a1) => (res, .node l1 pd (.node rl z rr c3 b3 p3) c b p, a1)

end AVL.BST
namespace BST

variable {T : Type}

/-- `BST::BST(SimpleAllocator*)` of `src/BST/BST.cpp`: without an allocator the
tree makes its own from the default configuration with `useCPPMemManager` set
and 100 objects per page, and owns it; `isOwnAllocator_` is taken to be `false`
otherwise.  An exception of the allocator's constructor leaves the call and no
tree exists then. -/
def construct (d : Decls) (td : TreeDecls) (b : Backend) (m : Mem)
    (allocator : Option SimpleAllocator) : Except TreeExn (BST T) :=
  match allocator with
  | some s => .ok ⟨some s, false, .nil⟩
  | none =>
    match SimpleAllocator.construct d b m td.nodeSize
      { td.config with useCPPMemManager := true, objectsPerPage := 100 } with
    | .error e => .error (.allocator e)
    | .ok s => .ok ⟨some s, true, .nil⟩

/-- `BST::size` of `src/BST/BST.cpp`. -/
def size (t : BST T) : Nat := size_ t.root_

variable [LinearOrder T]

/-- `BST::add` of `src/BST/BST.cpp`: the outcome and the object after the call. -/
def add (d : Decls) (td : TreeDecls) (t : BST T) (value : T) : Except TreeExn Unit × BST T :=
  match add_ d td t.allocator_ t.root_ value with
  | (res, root, a) => (res, { t with root_ := root, allocator_ := a })

/-- `BST::remove` of `src/BST/BST.cpp`: the outcome and the object after the call. -/
def remove (d : Decls) (t : BST T) (value : T) : Except TreeExn Unit × BST T :=
  match remove_ d t.allocator_ t.root_ value with
  | (res, root, a) => (res, { t with root_ := root, allocator_ := a })

end BST

namespace AVL.BST

variable {T : Type}

/-- `BST::BST(SimpleAllocator*)` of `src/AVL/BST.cpp`: without an allocator the
tree makes its own from the default configuration and owns it. -/
def construct (d : Decls) (td : TreeDecls) (b : Backend) (m : Mem)
    (allocator : Option SimpleAllocator) : Except TreeExn (BST T) :=
  match allocator with
  | some s => .ok ⟨some s, false, .nil⟩
  | none =>
    match SimpleAllocator.construct d b m td.nodeSize td.config with
    | .error e => .error (.allocator e)
    | .ok s => .ok ⟨some s, true, .nil⟩

/-- `BST::size` of `src/AVL/BST.cpp`. -/
def size (t : BST T) : Nat := size_ t.root_

variable [LinearOrder T]

/-- `BST::add` of `src/AVL/BST.cpp`: the outcome and the object after the call. -/
def add (d : Decls) (td : TreeDecls) (t : BST T) (value : T) : Except TreeExn Unit × BST T :=
  match add_ d td t.allocator_ t.root_ value with
  | (res, root, a) => (res, { t with root_ := root, allocator_ := a })

/-- `BST::remove` of `src/AVL/BST.cpp`: the outcome and the object after the call. -/
def remove (d : Decls) (t : BST T) (value : T) : Except TreeExn Unit × BST T :=
  match remove_ d t.allocator_ t.root_ value with
  | (res, root, a) => (res, { t with root_ := root, allocator_ := a })

end AVL.BST

/-- The default configuration used for concrete trees: three pages of four
objects, no header, no padding, no alignment. -/
def stdTreeConfig : SimpleAllocatorConfig :=
  { useCPPMemManager := false, objectsPerPage := 4, maxPages := 3, isDebug := false,
    padBytesSize := 0, headerType := .NO_HEADER, headerSize := 0, leftAlignBytesSize := 0,
    interAlignBytesSize := 0 }

/-- The declarations used for concrete trees: 32-byte nodes that start with
count 0 and balance factor 0, and `stdTreeConfig`. -/
def stdTreeDecls : TreeDecls :=
  { nodeSize := 32, count := 0, balanceFactor := 0, config := stdTreeConfig }
/-- A binary search tree: at every node the values of the left subtree are
smaller and the values of the right subtree are larger than the value of the
node. -/
def BinTree.IsBST {T : Type} [LinearOrder T] : BinTree T → Prop
  | .nil => True
  | .node l x r _ _ _ =>
    l.IsBST ∧ r.IsBST ∧ (∀ y ∈ l.inorder, y < x) ∧ (∀ y ∈ r.inorder, x < y)

/-- Every cached `count` is the number of nodes of its subtree. -/
def BinTree.CountsOk {T : Type} : BinTree T → Prop
  | .nil => True
  | .node l _ r c _ _ =>
    l.CountsOk ∧ r.CountsOk ∧ c = l.inorder.length + r.inorder.length + 1

/-- Whether a tree is a binary search tree can be computed. -/
instance BinTree.decIsBST {T : Type} [LinearOrder T] : (t : BinTree T) → Decidable t.IsBST
  | .nil => isTrue trivial
  | .node l x r _ _ _ =>
    have := BinTree.decIsBST l
    have := BinTree.decIsBST r
    inferInstanceAs (Decidable
      (l.IsBST ∧ r.IsBST ∧ (∀ y ∈ l.inorder, y < x) ∧ (∀ y ∈ r.inorder, x < y)))

/-- Whether the cached counts of a tree are right can be computed. -/
instance BinTree.decCountsOk {T : Type} : (t : BinTree T) → Decidable t.CountsOk
  | .nil => isTrue trivial
  | .node l _ r c _ _ =>
    have := BinTree.decCountsOk l
    have := BinTree.decCountsOk r
    inferInstanceAs (Decidable
      (l.CountsOk ∧ r.CountsOk ∧ c = l.inorder.length + r.inorder.length + 1))

/-- A call a client makes on a tree: `add(value)` or `remove(value)`. -/
inductive TreeOp (T : Type) where
  | add (value : T)
  | remove (value : T)

namespace AVL.BST

variable {T : Type} [LinearOrder T]

/-- One client call on a tree of `src/AVL/BST.cpp`: its outcome and the object
it leaves. -/
def step (d : Decls) (td : TreeDecls) (t : BST T) : TreeOp T → Except TreeExn Unit × BST T
  | .add value => add d td t value
  | .remove value => remove d t value

/-- The outcomes of a sequence of client calls, first call first. -/
def outcomes (d : Decls) (td : TreeDecls) : BST T → List (TreeOp T) → List (Except TreeExn Unit)
  | _, [] => []
  | t, op :: ops => (step d td t op).1 :: outcomes d td (step d td t op).2 ops

end AVL.BST

namespace BST

variable {T : Type} [LinearOrder T]

/-- One client call on a tree of `src/BST/BST.cpp`: its outcome and the object
it leaves. -/
def step (d : Decls) (td : TreeDecls) (t : BST T) : TreeOp T → Except TreeExn Unit × BST T
  | .add value => add d td t value
  | .remove value => remove d t value

/-- The outcomes of a sequence of client calls, first call first. -/
def outcomes (d : Decls) (td : TreeDecls) : BST T → List (TreeOp T) → List (Except TreeExn Unit)
  | _, [] => []
  | t, op :: ops => (step d td t op).1 :: outcomes d td (step d td t op).2 ops

end BST

/-- A configuration for the nodes of concrete trees: two objects per page, one
page, two pad bytes on each side and a five-byte basic header. -/
def nodeConfig : SimpleAllocatorConfig :=
  { useCPPMemManager := false, objectsPerPage := 2, maxPages := 1, isDebug := false,
    padBytesSize := 2, headerType := .BASIC_HEADER, headerSize := 5,
    leftAlignBytesSize := 0, interAlignBytesSize := 0 }

/-- The allocator built from `nodeConfig` for 32-byte objects; its page is at
4096 and holds the blocks 4111 and 4152. -/
def nodeStart : SimpleAllocator :=
  (SimpleAllocator.allocateNewPage stdDecls
    (SimpleAllocator.init stdDecls stdBackend zeroMem 32 nodeConfig)).2

/-- The empty tree of natural numbers constructed over `nodeStart`. -/
def emptyTree : BST Nat := ⟨some nodeStart, false, .nil⟩

/-- The tree `emptyTree` after `add(5)`: one node, at 4152. -/
def oneTree : BST Nat := (AVL.BST.add stdDecls stdTreeDecls emptyTree 5).2

/-- The tree `oneTree` after `add(3)`: the root 5 at 4152 with the left child 3
at 4111. -/
def twoTree : BST Nat := (AVL.BST.add stdDecls stdTreeDecls oneTree 3).2

namespace BST

variable {T : Type} [LinearOrder T]

/-- The tree of `src/BST/BST.cpp` a sequence of client calls leaves, whatever
their outcomes. -/
def after (d : Decls) (td : TreeDecls) (t : BST T) (ops : List (TreeOp T)) : BST T :=
  ops.foldl (fun t op => (step d td t op).2) t

end BST

namespace AVL

variable {T : Type}

/-- `AVL::rotateLeft`. -/
def rotateLeft : BinTree T → BinTree T
  | .node l x (.node rl y rr c2 b2 p2) c b p => .node (.node l x rl c b p) y rr c2 b2 p2
  | tree => tree

/-- `AVL::rotateRight`. -/
def rotateRight : BinTree T → BinTree T
  | .node (.node ll y lr c2 b2 p2) x r c b p => .node ll y (.node lr x r c b p) c2 b2 p2
  | tree => tree

/-- `AVL::rotateLeftRight`. -/
def rotateLeftRight : BinTree T → BinTree T
  | .node (.node ll y lr c2 b2 p2) x r c b p =>
    rotateRight (.node (rotateLeft (.node ll y lr c2 b2 p2)) x r c b p)
  | tree => tree

/-- `AVL::rotateRightLeft`. -/
def rotateRightLeft : BinTree T → BinTree T
  | .node l x (.node rl y rr c2 b2 p2) c b p =>
    rotateLeft (.node l x (rotateRight (.node rl y rr c2 b2 p2)) c b p)
  | tree => tree

/-- `AVL::updateBalanceFactor`. -/
def updateBalanceFactor : BinTree T → BinTree T
  | .nil => .nil
  | .node l x r c _ p => .node l x r c (BST.treeHeight l - BST.treeHeight r) p

/-- The statements of `AVL::balance` before its two recursive calls: the balance
factor of the node is recomputed and, when it is beyond 1 or -1, the factor of
the heavy child is recomputed and decides between a single and a double
rotation.  A factor above 1 (below -1) means that the left (right) child is
not null, so the dereference of that child is never the dereference of a null
pointer; the tree is returned as it is there. -/
def balanceTop (tree : BinTree T) : BinTree T :=
  match updateBalanceFactor tree with
  | .nil => .nil
  | .node l x r c b p =>
    if b > 1 then
      match updateBalanceFactor l with
      | .nil => .node l x r c b p
      | .node ll y lr c2 b2 p2 =>
        if b2 ≥ 0 then rotateRight (.node (.node ll y lr c2 b2 p2) x r c b p)
        else rotateLeftRight (.node (.node ll y lr c2 b2 p2) x r c b p)
    else if b < -1 then
      match updateBalanceFactor r with
      | .nil => .node l x r c b p
      | .node rl y rr c2 b2 p2 =>
        if b2 ≤ 0 then rotateLeft (.node l x (.node rl y rr c2 b2 p2) c b p)
        else rotateRightLeft (.node l x (.node rl y rr c2 b2 p2) c b p)
    else .node l x r c b p

/-- `AVL::balance` with a bound on the depth of its recursion. -/
def balanceFuel : Nat → BinTree T → BinTree T
  | 0, tree => tree
  | n + 1, tree =>
    match balanceTop tree with
    | .nil => .nil
    | .node l x r c b p => .node (balanceFuel n l) x (balanceFuel n r) c b p

/-- `AVL::balance`: the recursion goes from a tree to its two subtrees, so the
number of nodes bounds its depth. -/
def balance (tree : BinTree T) : BinTree T :=
  balanceFuel (BST.size_ tree) tree

variable [LinearOrder T]

/-- `AVL::add_`; the stack `pathNodes` is only pushed to and is left out. -/
def add_ (d : Decls) (td : TreeDecls) (a : Option SimpleAllocator) :
    BinTree T → T → Except TreeExn Unit × BinTree T × Option SimpleAllocator
  | .nil, value =>
    match BST.makeNode d td a value with
    | (.error e, a1) => (.error e, .nil, a1)
    | (.ok node, a1) => (.ok (), balance node, a1)
  | .node l x r c b p, value =>
    if value < x then
      match add_ d td a l value with
      | (.error e, l1, a1) => (.error e, .node l1 x r c b p, a1)
      | (.ok _, l1, a1) => (.ok (), balance (.node l1 x r c b p), a1)
    else if value > x then
      match add_ d td a r value with
      | (.error e, r1, a1) => (.error e, .node l x r1 c b p, a1)
      | (.ok _, r1, a1) => (.ok (), balance (.node l x r1 c b p), a1)
    else (.error (.bst .E_NOT_FOUND "Duplicate value found."), .node l x r c b p, a)

/-- `AVL::remove_`; the stack `pathNodes` is only pushed to and is left out. -/
def remove_ (d : Decls) (a : Option SimpleAllocator) :
    BinTree T → T → Except TreeExn Unit × BinTree T × Option SimpleAllocator
  | .nil, _ => (.error (.bst .E_DUPLICATE "value does not exist in the tree."), .nil, a)
  | .node l x r c b p, value =>
    if value < x then
      match remove_ d a l value with
      | (.error e, l1, a1) => (.error e, .node l1 x r c b p, a1)
      | (.ok _, l1, a1) => (.ok (), balance (.node l1 x r c b p), a1)
    else if value > x then
      match remove_ d a r value with
      | (.error e, r1, a1) => (.error e, .node l x r1 c b p, a1)
      | (.ok _, r1, a1) => (.ok (), balance (.node l x r1 c b p), a1)
    else
      match l, r with
      | .nil, .nil =>
        match BST.freeNode d a p with
        | (.error e, a1) => (.error e, .node .nil x .nil c b p, a1)
        | (.ok _, a1) => (.ok (), balance .nil, a1)
      | .nil, .node rl z rr c3 b3 p3 =>
        match BST.freeNode d a p with
        | (.error e, a1) => (.error e, .node rl z rr c3 b3 p3, a1)
        | (.ok _, a1) => (.ok (), balance (.node rl z rr c3 b3 p3), a1)
      | .node ll y lr c2 b2 p2, .nil =>
        match BST.freeNode d a p with
        | (.error e, a1) => (.error e, .node ll y lr c2 b2 p2, a1)
        | (.ok _, a1) => (.ok (), balance (.node ll y lr c2 b2 p2), a1)
      | .node ll y lr c2 b2 p2, .node rl z rr c3 b3 p3 =>
        match (BST.findPredecessor
          (.node (.node ll y lr c2 b2 p2) x (.node rl z rr c3 b3 p3) c b p)).data? with
        | none =>
          (.error .undefined, .node (.node ll y lr c2 b2 p2) x (.node rl z rr c3 b3 p3) c b p, a)
        | some pd =>
          match remove_ d a (.node ll y lr c2 b2 p2) pd with
          | (.error e, l1, a1) => (.error e, .node l1 pd (.node rl z rr c3 b3 p3) c b p, a1)
          | (.ok _, l1, a1) => (.ok (), balance (.node l1 pd (.node rl z rr c3 b3 p3) c b p), a1)

/-- `AVL::add`: the outcome and the object after the call. -/
def add (d : Decls) (td : TreeDecls) (t : BST T) (value : T) : Except TreeExn Unit × BST T :=
  match add_ d td t.allocator_ t.root_ value with
  | (res, root, a) => (res, { t with root_ := root, allocator_ := a })

/-- `AVL::remove`: the outcome and the object after the call. -/
def remove (d : Decls) (t : BST T) (value : T) : Except TreeExn Unit × BST T :=
  match remove_ d t.allocator_ t.root_ value with
  | (res, root, a) => (res, { t with root_ := root, allocator_ := a })

/-- A height-balanced tree: at every node the heights of the two subtrees
differ by at most 1. -/
def Balanced : BinTree T → Prop
  | .nil => True
  | .node l _ r _ _ _ =>
    Balanced l ∧ Balanced r ∧ BST.treeHeight l ≤ BST.treeHeight r + 1 ∧
      BST.treeHeight r ≤ BST.treeHeight l + 1

end AVL
/-- Whether a tree is height-balanced can be computed. -/
instance AVL.decBalanced {T : Type} : (t : BinTree T) → Decidable (AVL.Balanced t)
  | .nil => isTrue trivial
  | .node l _ r _ _ _ =>
    have := AVL.decBalanced l
    have := AVL.decBalanced r
    inferInstanceAs (Decidable
      (AVL.Balanced l ∧ AVL.Balanced r ∧
        AVL.BST.treeHeight l ≤ AVL.BST.treeHeight r + 1 ∧
        AVL.BST.treeHeight r ≤ AVL.BST.treeHeight l + 1))

/-- The AVL tree `emptyTree` after `add(5)`: one node, at 4152. -/
def avlOne : BST Nat := (AVL.add stdDecls stdTreeDecls emptyTree 5).2

/-- The AVL tree `avlOne` after `add(3)`: the root 5 at 4152 with the left child
3 at 4111. -/
def avlTwo : BST Nat := (AVL.add stdDecls stdTreeDecls avlOne 3).2

/-- The record `AdjInfo`: the vertex an edge leads to and the weight of the edge. -/
structure AdjInfo where
  id : Nat
  weight : Nat
  deriving DecidableEq, Repr

/-- The data members of an `ALGraph` object. -/
structure ALGraph where
  size_ : Nat
  adjList_ : List (List AdjInfo)
  deriving DecidableEq, Repr

namespace ALGraph

/-- `ALGraph::ALGraph(size)`: `size` empty adjacency lists. -/
def construct (size : Nat) : ALGraph := ⟨size, List.replicate size []⟩

/-- The search and the insertion of `addDEdge`: the position moves past every
leading entry whose weight is at most the weight of the new edge, and the edge
is inserted there. -/
def insertEdge (edge : AdjInfo) : List AdjInfo → List AdjInfo
  | [] => [edge]
  | x :: xs => if x.weight ≤ edge.weight then x :: insertEdge edge xs else edge :: x :: xs

/-- `ALGraph::addDEdge`. -/
def addDEdge (g : ALGraph) (source destination weight : Nat) : ALGraph :=
  if source > 0 ∧ destination > 0 ∧ source ≤ g.size_ ∧ destination ≤ g.size_ then
    let edge : AdjInfo := ⟨destination, weight⟩
    let list := insertEdge edge (g.adjList_.getD (source - 1) [])
    { g with adjList_ := g.adjList_.set (source - 1) list }
  else g

/-- `ALGraph::addUEdge`. -/
def addUEdge (g : ALGraph) (node1 node2 weight : Nat) : ALGraph :=
  if node1 ≠ node2 then addDEdge (addDEdge g node1 node2 weight) node2 node1 weight
  else g

end ALGraph

/-- A call that builds a graph: `addDEdge` or `addUEdge`. -/
inductive GraphOp where
  | addDEdge (source destination weight : Nat)
  | addUEdge (node1 node2 weight : Nat)

/-- The graph one building call leaves. -/
def ALGraph.step (g : ALGraph) : GraphOp → ALGraph
  | .addDEdge source destination weight => g.addDEdge source destination weight
  | .addUEdge node1 node2 weight => g.addUEdge node1 node2 weight

/-- The graph of `size` vertices after a sequence of building calls, first call
first. -/
def ALGraph.build (size : Nat) (ops : List GraphOp) : ALGraph :=
  ops.foldl ALGraph.step (ALGraph.construct size)

/-- The record `DijkstraInfo`: the cost of the cheapest path found to a vertex
and the vertices of that path, first to last. -/
structure DijkstraInfo where
  cost : Nat
  path : List Nat
  deriving DecidableEq, Repr

/-- The variables of `ALGraph::dijkstra`: the vector `dijkstraInfoList` and the
contents of the priority queue `pq`, a multiset of pairs `{cost, node}`. -/
structure DijkstraState where
  dijkstraInfoList : List DijkstraInfo
  pq : List (Nat × Nat)
  deriving DecidableEq, Repr

namespace ALGraph

/-- The value `std::numeric_limits<unsigned>::max()`. -/
def UINT_MAX (d : Decls) : Nat := 2 ^ d.counterBits - 1

/-- The order `std::less` on `std::pair<unsigned, unsigned>`: lexicographic. -/
def pairLess (a b : Nat × Nat) : Bool :=
  a.1 < b.1 || (a.1 == b.1 && a.2 < b.2)

/-- `pq.top()`: a greatest pair of the queue, `none` when the queue is empty. -/
def top : List (Nat × Nat) → Option (Nat × Nat)
  | [] => none
  | x :: xs =>
    match top xs with
    | none => some x
    | some y => if pairLess x y then some y else some x

/-- The element `dijkstraInfoList[v - 1]`. -/
def at_ (l : List DijkstraInfo) (v : Nat) : DijkstraInfo := l.getD (v - 1) ⟨0, []⟩

/-- One pass of the loop over the neighbours of `currentNode`. -/
def visit (d : Decls) (currentNode : Nat) (st : DijkstraState) (neighbor : AdjInfo) :
    DijkstraState :=
  let newCost := ((at_ st.dijkstraInfoList currentNode).cost + neighbor.weight)
    % 2 ^ d.counterBits
  if newCost < (at_ st.dijkstraInfoList neighbor.id).cost then
    let entry : DijkstraInfo :=
      ⟨newCost, (at_ st.dijkstraInfoList currentNode).path ++ [neighbor.id]⟩
    { dijkstraInfoList := st.dijkstraInfoList.set (neighbor.id - 1) entry,
      pq := (newCost, neighbor.id) :: st.pq }
  else st

/-- The `while` loop of `dijkstra`, for at most `fuel` passes; `none` when the
queue is not empty after them. -/
def loop (d : Decls) (g : ALGraph) : Nat → DijkstraState → Option DijkstraState
  | 0, _ => none
  | fuel + 1, st =>
    match top st.pq with
    | none => some st
    | some t =>
      loop d g fuel
        ((g.adjList_.getD (t.2 - 1) []).foldl (visit d t.2) { st with pq := st.pq.erase t })

/-- `ALGraph::dijkstra`, with a bound on the number of passes of its loop. -/
def dijkstra (d : Decls) (g : ALGraph) (start fuel : Nat) : Option (List DijkstraInfo) :=
  let blank : DijkstraInfo := ⟨UINT_MAX d, []⟩
  let first : DijkstraInfo := ⟨0, [start]⟩
  (loop d g fuel ⟨(List.replicate g.size_ blank).set (start - 1) first, [(0, start)]⟩).map
    (fun st => st.dijkstraInfoList)

end ALGraph
namespace ALGraph

/-- The graph has an edge of weight `c` from vertex `x` to vertex `v`. -/
def Edge (g : ALGraph) (x v c : Nat) : Prop :=
  1 ≤ x ∧ (⟨v, c⟩ : AdjInfo) ∈ g.adjList_.getD (x - 1) []

/-- A directed path from `s`, written last vertex first, each vertex paired
with the total weight of the path up to it: the path starts at `s` with weight
0 and each further vertex is reached by an edge of the graph whose weight is
added. -/
def Trace (g : ALGraph) (s : Nat) : List (Nat × Nat) → Prop
  | [] => False
  | [(v, W)] => v = s ∧ W = 0
  | (v, W) :: (x, Wx) :: rest =>
    (∃ c, g.Edge x v c ∧ W = Wx + c) ∧ Trace g s ((x, Wx) :: rest)

/-- There is a directed path from `s` to `v` of total weight `W`. -/
def Walk (g : ALGraph) (s v W : Nat) : Prop :=
  ∃ rest, g.Trace s ((v, W) :: rest)

/-- No sum that a path can form overflows: a path from `start` that visits no
vertex twice, extended by an edge that leaves its last vertex, has a total
weight of at most the maximum unsigned value. -/
def NoOverflow (d : Decls) (g : ALGraph) (start : Nat) : Prop :=
  ∀ rest x W v c, g.Trace start ((x, W) :: rest) →
    (((x, W) :: rest).map Prod.fst).Nodup → g.Edge x v c → W + c ≤ UINT_MAX d

/-- The part of the loop invariant of `dijkstra` that concerns the vector: one
entry per vertex, no cost above the maximum, cost 0 at `start`; a vertex with a
cost below the maximum has as its path a path of the graph from `start` of that
weight, which visits no vertex twice and reaches no vertex more cheaply than
that vertex's own cost; a vertex with the maximum cost has the empty path; and
the queue names vertices with a cost below the maximum. -/
def Settled (d : Decls) (g : ALGraph) (start : Nat) (st : DijkstraState) : Prop :=
  st.dijkstraInfoList.length = g.size_ ∧
  (∀ v, 1 ≤ v → v ≤ g.size_ → (at_ st.dijkstraInfoList v).cost ≤ UINT_MAX d) ∧
  (at_ st.dijkstraInfoList start).cost = 0 ∧
  (∀ v, 1 ≤ v → v ≤ g.size_ → (at_ st.dijkstraInfoList v).cost < UINT_MAX d →
    ∃ rest, g.Trace start ((v, (at_ st.dijkstraInfoList v).cost) :: rest) ∧
      (at_ st.dijkstraInfoList v).path
        = (((v, (at_ st.dijkstraInfoList v).cost) :: rest).map Prod.fst).reverse ∧
      (((v, (at_ st.dijkstraInfoList v).cost) :: rest).map Prod.fst).Nodup ∧
      ∀ q ∈ (v, (at_ st.dijkstraInfoList v).cost) :: rest,
        (at_ st.dijkstraInfoList q.1).cost ≤ q.2) ∧
  (∀ v, 1 ≤ v → v ≤ g.size_ → (at_ st.dijkstraInfoList v).cost = UINT_MAX d →
    (at_ st.dijkstraInfoList v).path = []) ∧
  (∀ q ∈ st.pq, 1 ≤ q.2 ∧ q.2 ≤ g.size_ ∧ (at_ st.dijkstraInfoList q.2).cost < UINT_MAX d)

/-- Every edge that leaves `x` has been relaxed: its end costs at most the cost
of `x` plus the weight of the edge. -/
def Relaxed (g : ALGraph) (st : DijkstraState) (x : Nat) : Prop :=
  ∀ v c, g.Edge x v c →
    (at_ st.dijkstraInfoList v).cost ≤ (at_ st.dijkstraInfoList x).cost + c

/-- The invariant of the `while` loop of `dijkstra`: every vertex with a cost
below the maximum has its edges relaxed or is in the queue. -/
def LoopInv (d : Decls) (g : ALGraph) (start : Nat) (st : DijkstraState) : Prop :=
  Settled d g start st ∧
  ∀ x, 1 ≤ x → x ≤ g.size_ → (at_ st.dijkstraInfoList x).cost < UINT_MAX d →
    Relaxed g st x ∨ x ∈ st.pq.map Prod.snd

/-- The invariant of the loop over the neighbours of `u`: as `LoopInv` for the
other vertices, and the edges of `u` in `done` have been relaxed. -/
def VisitInv (d : Decls) (g : ALGraph) (start : Nat) (st : DijkstraState) (u : Nat)
    (done : List AdjInfo) : Prop :=
  Settled d g start st ∧
  (1 ≤ u ∧ u ≤ g.size_ ∧ (at_ st.dijkstraInfoList u).cost < UINT_MAX d) ∧
  (∀ x, 1 ≤ x → x ≤ g.size_ → x ≠ u → (at_ st.dijkstraInfoList x).cost < UINT_MAX d →
    Relaxed g st x ∨ x ∈ st.pq.map Prod.snd) ∧
  (∀ e ∈ done, (at_ st.dijkstraInfoList e.id).cost
    ≤ (at_ st.dijkstraInfoList u).cost + e.weight)

/-- The graph is well formed: one adjacency list per vertex and every edge
leads to a vertex of the graph. -/
def WellFormed (g : ALGraph) : Prop :=
  g.adjList_.length = g.size_ ∧
  ∀ L ∈ g.adjList_, ∀ e ∈ L, 1 ≤ e.id ∧ e.id ≤ g.size_

/-- The quantity that every pass of the `while` loop decreases: the sum of the
costs plus the number of queued pairs. -/
def measure (st : DijkstraState) : Nat :=
  (st.dijkstraInfoList.map (fun i => i.cost)).sum + st.pq.length

end ALGraph
/-- A graph of four vertices for concrete runs: the undirected edge 1 - 2 of
weight 7 and the directed edges 1 → 3 of weight 2, 3 → 2 of weight 3 and
2 → 4 of weight 1. -/
def sampleGraph : ALGraph :=
  ALGraph.build 4 [.addUEdge 1 2 7, .addDEdge 1 3 2, .addDEdge 3 2 3, .addDEdge 2 4 1]

/-- A graph of two vertices whose only edge, 1 → 2, has the maximum unsigned
weight. -/
def heavyGraph : ALGraph := ALGraph.build 2 [.addDEdge 1 2 4294967295]

/-- A graph of three vertices: the edges 1 → 2 and 3 → 2 of weight 2147483648
and the edge 2 → 3 of weight 0. -/
def wrapGraph : ALGraph :=
  ALGraph.build 3 [.addDEdge 1 2 2147483648, .addDEdge 2 3 0, .addDEdge 3 2 2147483648]

/-- A configuration with a single object per page and four inter-block
alignment bytes: one page, two pad bytes on each side and a five-byte basic
header. -/
def loneConfig : SimpleAllocatorConfig :=
  { useCPPMemManager := true, objectsPerPage := 1, maxPages := 1, isDebug := false,
    padBytesSize := 2, headerType := .BASIC_HEADER, headerSize := 5,
    leftAlignBytesSize := 0, interAlignBytesSize := 4 }

/-- The allocator built from `loneConfig` for 16-byte objects; its page is at
4096 and holds the block 4115. -/
def loneStart : SimpleAllocator :=
  (SimpleAllocator.allocateNewPage stdDecls
    (SimpleAllocator.init stdDecls stdBackend zeroMem 16 loneConfig)).2

/-- A configuration for 4-byte objects with nothing around them: three objects
per page, one page, no pad bytes, no header, no alignment bytes. -/
def tinyConfig : SimpleAllocatorConfig :=
  { useCPPMemManager := true, objectsPerPage := 3, maxPages := 1, isDebug := false,
    padBytesSize := 0, headerType := .NO_HEADER, headerSize := 0,
    leftAlignBytesSize := 0, interAlignBytesSize := 0 }

/-- The allocator built from `tinyConfig` for 4-byte objects in memory that held
0xFF everywhere; its page is at 4096 and holds the blocks 4104, 4108 and 4112. -/
def tinyStart : SimpleAllocator :=
  (SimpleAllocator.allocateNewPage stdDecls
    (SimpleAllocator.init stdDecls stdBackend onesMem 4 tinyConfig)).2
namespace ALGraph

/-- The variables of `dijkstra` when its `while` loop is entered: every cost at
the maximum and every path empty but for `start`, and `{0, start}` queued. -/
def initial (d : Decls) (g : ALGraph) (start : Nat) : DijkstraState :=
  let blank : DijkstraInfo := ⟨UINT_MAX d, []⟩
  let first : DijkstraInfo := ⟨0, [start]⟩
  ⟨(List.replicate g.size_ blank).set (start - 1) first, [(0, start)]⟩

/-- One pass of the `while` loop of `dijkstra`: the pair `pq.top()` leaves the
queue and the neighbours of its vertex are visited; `none` when the queue is
empty and the loop ends. -/
def pass (d : Decls) (g : ALGraph) (st : DijkstraState) : Option DijkstraState :=
  match top st.pq with
  | none => none
  | some t =>
    some ((g.adjList_.getD (t.2 - 1) []).foldl (visit d t.2) { st with pq := st.pq.erase t })

/-- The variables of `dijkstra` after `n` passes of its `while` loop, or after
the last pass when the loop ends before. -/
def passes (d : Decls) (g : ALGraph) : Nat → DijkstraState → DijkstraState
  | 0, st => st
  | n + 1, st =>
    match pass d g st with
    | none => st
    | some st1 => passes d g n st1

end ALGraph
/-- The test `tree == nullptr`. -/
def BinTree.isNull {T : Type} : BinTree T → Bool
  | .nil => true
  | .node _ _ _ _ _ _ => false

namespace BST

variable {T : Type}

/-- `BST::treeHeight` of `src/BST/BST.cpp`, called on the pointer `tree` in a
tree object whose member `root_` is `root_`. -/
def treeHeight (root_ : BinTree T) : BinTree T → Int
  | .nil =>
    if root_.isNull then -1 else 0
  | .node l _ r _ _ _ =>
    if root_.isNull then -1
    else if l.isNull && r.isNull then 0
    else
      let leftHeight := treeHeight root_ l
      let rightHeight := treeHeight root_ r
      1 + (if leftHeight > rightHeight then leftHeight else rightHeight)

/-- `BST::height_` of `src/BST/BST.cpp`. -/
def height_ (t : BST T) (tree : BinTree T) : Int := treeHeight t.root_ tree

/-- `BST::height` of `src/BST/BST.cpp`. -/
def height (t : BST T) : Int := height_ t t.root_

end BST

namespace AVL.BST

variable {T : Type}

/-- `BST::height_` of `src/AVL/BST.cpp`. -/
def height_ (tree : BinTree T) : Int := treeHeight tree

/-- `BST::height` of `src/AVL/BST.cpp`. -/
def height (t : BST T) : Int := height_ t.root_

end AVL.BST

/-- The root-to-leaf paths of a tree, each as the list of the addresses of its
nodes from the root down: a node without children is a leaf and ends a path. -/
def BinTree.rootToLeaf {T : Type} : BinTree T → List (List Nat)
  | .nil => []
  | .node l _ r _ _ p =>
    if l.isNull && r.isNull then [[p]]
    else (l.rootToLeaf ++ r.rootToLeaf).map (fun q => p :: q)

/-- The height of a tree in the words of the specification: -1 for the empty
tree and otherwise the number of edges of a longest root-to-leaf path, a path
of `n` nodes having `n - 1` edges. -/
def BinTree.edgeHeight {T : Type} (t : BinTree T) : Int :=
  if t.isNull then -1
  else (((t.rootToLeaf.map (fun q => q.length - 1)).foldr max 0 : Nat) : Int)

/-- A tree of natural numbers for concrete runs: the root 5 with the left
child 3, whose right child is 4, and the right child 8. -/
def tallTree : BST Nat :=
  ⟨none, false,
    .node (.node .nil 3 (.node .nil 4 .nil 1 0 4300) 2 0 4200) 5 (.node .nil 8 .nil 1 0 4400)
      4 0 4100⟩
/-- The header bytes that `allocate` and `free` write lie below the object: the
bytes between the start of the header and the object, `headerSize` and
`padBytesSize` of them, are at least the one byte of the allocation number,
the four bytes up to the 16-bit counter of the extended scheme, or the eight
bytes of the record pointer of the external scheme. -/
def HeaderRoom (c : SimpleAllocatorConfig) : Prop :=
  1 ≤ c.padBytesSize + c.headerSize ∧
  (c.headerType = .EXTENDED_HEADER → 4 ≤ c.padBytesSize + c.headerSize) ∧
  (c.headerType = .EXTERNAL_HEADER → 8 ≤ c.padBytesSize + c.headerSize)

/-- A configuration for 4-byte objects with guard bytes: two objects per page,
one page, two pad bytes on each side and a five-byte basic header. -/
def smallPaddedConfig : SimpleAllocatorConfig :=
  { useCPPMemManager := true, objectsPerPage := 2, maxPages := 1, isDebug := false,
    padBytesSize := 2, headerType := .BASIC_HEADER, headerSize := 5,
    leftAlignBytesSize := 0, interAlignBytesSize := 0 }

/-- The allocator built from `smallPaddedConfig` for 4-byte objects; its page
is at 4096 and holds the blocks 4111 and 4124. -/
def smallPaddedStart : SimpleAllocator :=
  (SimpleAllocator.allocateNewPage stdDecls
    (SimpleAllocator.init stdDecls stdBackend zeroMem 4 smallPaddedConfig)).2

/-- The object the constructor has initialised for `basicConfig` and 16-byte
objects, before its first page is acquired. -/
def basicInit : SimpleAllocator :=
  SimpleAllocator.init stdDecls stdBackend zeroMem 16 basicConfig

/-- The sizes of a configuration fit the types the constructor computes them
in: `objectsPerPage` is an `unsigned` value, none of the `unsigned` products
`padBytesSize * 2`, `interAlignBytesSize * (objectsPerPage - 1)` and
`padBytesSize * maxPages` and not the `unsigned` sum `8 + leftAlignBytesSize`
wraps, and the page size fits `size_t`. -/
def NoWrap (d : Decls) (objectSize : Nat) (config : SimpleAllocatorConfig) : Prop :=
  config.objectsPerPage < 2 ^ d.counterBits ∧
  config.padBytesSize * 2 < 2 ^ d.counterBits ∧
  8 + config.leftAlignBytesSize < 2 ^ d.counterBits ∧
  config.interAlignBytesSize * (config.objectsPerPage - 1) < 2 ^ d.counterBits ∧
  config.padBytesSize * config.maxPages < 2 ^ d.counterBits ∧
  8 + config.leftAlignBytesSize
    + (objectSize + config.padBytesSize * 2 + config.headerSize) * config.objectsPerPage
    + config.interAlignBytesSize * (config.objectsPerPage - 1)
    + config.padBytesSize * config.maxPages < 2 ^ (8 * PTR_BYTES)

/-- A configuration with 65536 pad bytes on each side and 65536 pages: one
object per page and a five-byte basic header. -/
def wideConfig : SimpleAllocatorConfig :=
  { useCPPMemManager := true, objectsPerPage := 1, maxPages := 65536, isDebug := false,
    padBytesSize := 65536, headerType := .BASIC_HEADER, headerSize := 5,
    leftAlignBytesSize := 0, interAlignBytesSize := 0 }

/-- The allocator built from `wideConfig` for 16-byte objects. -/
def wideStart : SimpleAllocator :=
  (SimpleAllocator.allocateNewPage stdDecls
    (SimpleAllocator.init stdDecls stdBackend zeroMem 16 wideConfig)).2

/-- A configuration with no object per page: two pages, two pad bytes on each
side and a one-byte basic header. -/
def noObjectConfig : SimpleAllocatorConfig :=
  { useCPPMemManager := true, objectsPerPage := 0, maxPages := 2, isDebug := false,
    padBytesSize := 2, headerType := .BASIC_HEADER, headerSize := 1,
    leftAlignBytesSize := 0, interAlignBytesSize := 0 }

/-- The allocator built from `noObjectConfig` for 16-byte objects. -/
def noObjectStart : SimpleAllocator :=
  (SimpleAllocator.allocateNewPage stdDecls
    (SimpleAllocator.init stdDecls stdBackend zeroMem 16 noObjectConfig)).2

namespace SimpleAllocator

/-- The bytes of memory that a call of `allocate` or `free` for the block at
`B` loads or stores, as the first address and the address behind the last:
from the flag byte or the first header byte, whichever is lower, to the end of
the object with its post-pad bytes or of the link word with the byte
`blockPtr[8]` behind it, whichever is higher. -/
def window (s : SimpleAllocator) (B : Nat) : Nat × Nat :=
  (B - s.config_.padBytesSize - max s.config_.headerSize 1,
    B + max (s.stats_.objectSize + s.config_.padBytesSize) 9)

/-- The bytes of memory that `allocateNewPage`, called in the state `s`,
stores, as the first address and the address behind the last: from the start of
the page the backend hands out to the end of what the seeding loop writes for
the last block. -/
def pageReach (s : SimpleAllocator) : Nat × Nat :=
  (s.backend.rawPage s.pageReqs,
    s.backend.rawPage s.pageReqs + (s.config_.interAlignBytesSize + s.config_.headerSize
      + s.config_.padBytesSize + PTR_BYTES)
      + (s.config_.objectsPerPage - 1) * s.stats_.blockSize
      + max (s.stats_.objectSize + s.config_.padBytesSize) 9)

end SimpleAllocator

/-- The `nodeSize` bytes of every node of the tree lie outside a range of
addresses, given by its first address and the address behind its last. -/
def BinTree.Outside {T : Type} (td : TreeDecls) (t : BinTree T) (range : Nat × Nat) : Prop :=
  ∀ q ∈ t.addrs, q + td.nodeSize ≤ range.1 ∨ range.2 ≤ q

namespace BST

variable {T : Type}

/-- The bytes of the nodes of a tree are out of the way of a call of `allocate`
in the state `s`: a node is no larger than the object of a block, and no byte
of a node is among the bytes the call loads or stores, which are the window of
the block at the head of the free list and, when the free list is empty, the
page the call acquires first. -/
def AllocateClear (d : Decls) (td : TreeDecls) (s : SimpleAllocator) (t : BinTree T) : Prop :=
  td.nodeSize ≤ s.stats_.objectSize ∧
  t.Outside td (s.window (beforePop d s).pFreeList_) ∧
  (s.pFreeList_ = 0 → t.Outside td s.pageReach)

variable [LinearOrder T]

end BST

/-- The allocator built from `stdTreeConfig` for 32-byte objects, with no header
and no padding; its first page is at 4096 and holds the blocks 4104, 4136,
4168 and 4200. -/
def plainStart : SimpleAllocator :=
  (SimpleAllocator.allocateNewPage stdDecls
    (SimpleAllocator.init stdDecls stdBackend zeroMem 32 stdTreeConfig)).2

/-- The calls that lead an allocator with no header and no padding to hand out
a block that overlaps a node: four values are added, two of them removed and
one added; the `add` that follows is given the overlapping block. -/
def overlapOps : List (TreeOp Nat) :=
  [.add 40, .add 30, .add 20, .add 10, .remove 20, .remove 30, .add 35]

/-- Equality of two outcomes can be computed. -/
instance Except.decEq {ε α : Type} [DecidableEq ε] [DecidableEq α] : DecidableEq (Except ε α)
  | .ok a, .ok b => if h : a = b then isTrue (by rw [h]) else isFalse (fun e => h (by injection e))
  | .error a, .error b =>
    if h : a = b then isTrue (by rw [h]) else isFalse (fun e => h (by injection e))
  | .ok _, .error _ => isFalse (fun e => by cases e)
  | .error _, .ok _ => isFalse (fun e => by cases e)

namespace AVL.BST

variable {T : Type} [LinearOrder T]

/-- The tree of `src/AVL/BST.cpp` a sequence of client calls leaves, whatever
their outcomes. -/
def after (d : Decls) (td : TreeDecls) (t : BST T) (ops : List (TreeOp T)) : BST T :=
  ops.foldl (fun t op => (step d td t op).2) t

end AVL.BST

namespace AVL

variable {T : Type} [LinearOrder T]

/-- One client call on an AVL tree: its outcome and the object it leaves. -/
def step (d : Decls) (td : TreeDecls) (t : BST T) : TreeOp T → Except TreeExn Unit × BST T
  | .add value => add d td t value
  | .remove value => remove d t value

/-- The outcomes of a sequence of client calls on an AVL tree, first call
first. -/
def outcomes (d : Decls) (td : TreeDecls) : BST T → List (TreeOp T) → List (Except TreeExn Unit)
  | _, [] => []
  | t, op :: ops => (step d td t op).1 :: outcomes d td (step d td t op).2 ops

/-- The AVL tree a sequence of client calls leaves, whatever their outcomes. -/
def after (d : Decls) (td : TreeDecls) (t : BST T) (ops : List (TreeOp T)) : BST T :=
  ops.foldl (fun t op => (step d td t op).2) t

end AVL

/-- The empty tree of natural numbers constructed over `plainStart`. -/
def plainTree : BST Nat := ⟨some plainStart, false, .nil⟩

/-- The allocator that the constructor of `src/BST/BST.cpp` makes for a tree
that is given none, with `stdTreeDecls`: 32-byte objects, 100 to a page, no
header and no padding; its first page is at 4096 and holds the blocks
4104, 4136, and so on up to 7272. -/
def ownStart : SimpleAllocator :=
  (SimpleAllocator.allocateNewPage stdDecls
    (SimpleAllocator.init stdDecls stdBackend zeroMem 32
      { stdTreeConfig with useCPPMemManager := true, objectsPerPage := 100 })).2

/-- The empty tree of natural numbers that the constructor of
`src/BST/BST.cpp` builds when it is given no allocator. -/
def ownTree : BST Nat := ⟨some ownStart, true, .nil⟩

/-- A configuration whose pad bytes wrap when doubled in a 32-bit `unsigned`:
2147483648 pad bytes on each side, two objects per page, one page, no header
and no alignment bytes. -/
def hugePadConfig : SimpleAllocatorConfig :=
  { useCPPMemManager := false, objectsPerPage := 2, maxPages := 1, isDebug := false,
    padBytesSize := 2147483648, headerType := .NO_HEADER, headerSize := 0,
    leftAlignBytesSize := 0, interAlignBytesSize := 0 }

/-- The allocator built from `hugePadConfig` for 16-byte objects. -/
def hugePadStart : SimpleAllocator :=
  (SimpleAllocator.allocateNewPage stdDecls
    (SimpleAllocator.init stdDecls stdBackend zeroMem 16 hugePadConfig)).2

/-! ## Properties -/

open SimpleAllocator

theorem allocateNewPage_config (d : Decls) (s : SimpleAllocator) :
    (allocateNewPage d s).2.config_ = s.config_ := by
  unfold allocateNewPage
  split
  · rfl
  · dsimp only
    split <;> rfl

theorem allocateNewPage_sizes (d : Decls) (s : SimpleAllocator) :
    (allocateNewPage d s).2.stats_.objectSize = s.stats_.objectSize ∧
    (allocateNewPage d s).2.stats_.blockSize = s.stats_.blockSize ∧
    (allocateNewPage d s).2.stats_.pageSize = s.stats_.pageSize := by
  unfold allocateNewPage
  split
  · exact ⟨rfl, rfl, rfl⟩
  · dsimp only
    split <;> exact ⟨rfl, rfl, rfl⟩

theorem construct_ok (d : Decls) (b : Backend) (m : Mem) (objectSize : Nat)
    (config : SimpleAllocatorConfig) (s : SimpleAllocator)
    (h : construct d b m objectSize config = .ok s) :
    s = (allocateNewPage d (init d b m objectSize config)).2 ∧
    (allocateNewPage d (init d b m objectSize config)).1 = .ok () := by
  unfold construct at h
  split at h
  · rename_i u s1 heq
    injection h with h
    rw [heq, ← h]
    exact ⟨rfl, rfl⟩
  · cases h

theorem decr_pred (d : Decls) (n : Nat) (h1 : 1 ≤ n) (h2 : n < 2 ^ d.counterBits) :
    d.decr n = n - 1 := by
  unfold Decls.decr
  have e : n + (2 ^ d.counterBits - 1) = (n - 1) + 2 ^ d.counterBits := by omega
  rw [e, Nat.add_mod_right, Nat.mod_eq_of_lt (by omega)]

theorem init_sizes (d : Decls) (b : Backend) (m : Mem) (objectSize : Nat)
    (config : SimpleAllocatorConfig) (hN : 1 ≤ config.objectsPerPage)
    (hfit : NoWrap d objectSize config) :
    (init d b m objectSize config).stats_.blockSize
      = objectSize + config.padBytesSize * 2 + config.headerSize ∧
    (init d b m objectSize config).stats_.pageSize
      = 8 + config.leftAlignBytesSize
        + (objectSize + config.padBytesSize * 2 + config.headerSize) * config.objectsPerPage
        + config.interAlignBytesSize * (config.objectsPerPage - 1)
        + config.padBytesSize * config.maxPages := by
  obtain ⟨h1, h2, h3, h4, h5, h6⟩ := hfit
  have hA : objectSize + config.padBytesSize * 2 + config.headerSize
      ≤ (objectSize + config.padBytesSize * 2 + config.headerSize) * config.objectsPerPage :=
    Nat.le_mul_of_pos_right _ hN
  have hb : (objectSize + (config.padBytesSize * 2) % 2 ^ d.counterBits + config.headerSize)
      % 2 ^ (8 * PTR_BYTES) = objectSize + config.padBytesSize * 2 + config.headerSize := by
    rw [Nat.mod_eq_of_lt h2, Nat.mod_eq_of_lt (by omega)]
  refine ⟨hb, ?_⟩
  show ((8 + config.leftAlignBytesSize) % 2 ^ d.counterBits
      + ((objectSize + (config.padBytesSize * 2) % 2 ^ d.counterBits + config.headerSize)
          % 2 ^ (8 * PTR_BYTES) * config.objectsPerPage) % 2 ^ (8 * PTR_BYTES)
      + (config.interAlignBytesSize * d.decr config.objectsPerPage) % 2 ^ d.counterBits
      + (config.padBytesSize * config.maxPages) % 2 ^ d.counterBits) % 2 ^ (8 * PTR_BYTES) = _
  rw [hb, decr_pred d _ hN h1, Nat.mod_eq_of_lt h3, Nat.mod_eq_of_lt h4, Nat.mod_eq_of_lt h5,
    Nat.mod_eq_of_lt (a := (objectSize + config.padBytesSize * 2 + config.headerSize)
      * config.objectsPerPage) (by omega), Nat.mod_eq_of_lt h6]

/-- C1 (as stated, refuted): with 65536 pad bytes and 65536 pages and 32-bit
`unsigned`, the product `padBytesSize * maxPages` is 2^32 and wraps to 0: the
constructor returns an allocator with blocks of 16 + 2 * 65536 + 5 = 131093
bytes whose `pageSize` is 8 + 131093 = 131101, not the 131101 + 4294967296 of
the closed form. -/
theorem layout_wraps :
    construct stdDecls stdBackend zeroMem 16 wideConfig = .ok wideStart ∧
    1 ≤ wideConfig.objectsPerPage ∧
    wideStart.stats_.blockSize = 16 + 2 * 65536 + 5 ∧
    wideStart.stats_.pageSize = 131101 ∧
    PTR_BYTES + wideConfig.leftAlignBytesSize
      + wideConfig.objectsPerPage * wideStart.stats_.blockSize
      + (wideConfig.objectsPerPage - 1) * wideConfig.interAlignBytesSize
      + wideConfig.padBytesSize * wideConfig.maxPages = 131101 + 4294967296 :=
  ⟨rfl, by decide, rfl, rfl, rfl⟩

/-- C1 (amended): for every object size and every configuration with at least
one object per page whose sizes fit the types they are computed in (no
`unsigned` product or sum of the constructor wraps and the page size fits
`size_t`), the statistics the constructor computes (before it acquires the
first page, and in the constructed allocator) satisfy, over the integers,
`blockSize = objectSize + 2*padBytes + headerSize` and
`pageSize = pointerSize + leftAlignBytes + objectsPerPage*blockSize +
(objectsPerPage-1)*interAlignBytes + padBytes*maxPages`, with `pointerSize = 8`. -/
theorem layout_closed_form (d : Decls) (b : Backend) (m : Mem) (objectSize : Nat)
    (config : SimpleAllocatorConfig) (s : SimpleAllocator)
    (hN : 1 ≤ config.objectsPerPage) (hfit : NoWrap d objectSize config)
    (h : s = init d b m objectSize config ∨ construct d b m objectSize config = .ok s) :
    (s.stats_.blockSize : Int) = objectSize + 2 * config.padBytesSize + config.headerSize ∧
    (s.stats_.pageSize : Int) = PTR_BYTES + config.leftAlignBytesSize
      + config.objectsPerPage * s.stats_.blockSize
      + ((config.objectsPerPage : Int) - 1) * config.interAlignBytesSize
      + config.padBytesSize * config.maxPages ∧
    PTR_BYTES = 8 := by
  have h2 : s.stats_.blockSize = (init d b m objectSize config).stats_.blockSize := by
    rcases h with h | h
    · rw [h]
    · rw [(construct_ok d b m objectSize config s h).1]
      exact (allocateNewPage_sizes d _).2.1
  have h3 : s.stats_.pageSize = (init d b m objectSize config).stats_.pageSize := by
    rcases h with h | h
    · rw [h]
    · rw [(construct_ok d b m objectSize config s h).1]
      exact (allocateNewPage_sizes d _).2.2
  obtain ⟨e1, e2⟩ := init_sizes d b m objectSize config hN hfit
  rw [h3, h2, e1, e2]
  refine ⟨?_, ?_, rfl⟩
  · push_cast
    ring
  · simp only [PTR_BYTES]
    rw [Nat.cast_add, Nat.cast_add, Nat.cast_add, Nat.cast_add, Nat.cast_mul, Nat.cast_mul,
      Nat.cast_mul, Nat.cast_sub hN]
    push_cast
    ring

/-- Witness for C1: the padded configuration with 16-byte objects has blocks of
21 bytes and pages of 96 bytes. -/
theorem layout_closed_form_witness :
    construct stdDecls stdBackend zeroMem 16 paddedConfig = .ok paddedStart ∧
    paddedStart.stats_.blockSize = 21 ∧ paddedStart.stats_.pageSize = 96 ∧
    (paddedStart.stats_.blockSize : Int) = (16 : Nat) + 2 * (2 : Nat) + (1 : Nat) ∧
    (paddedStart.stats_.pageSize : Int) = PTR_BYTES + (0 : Nat)
      + (4 : Nat) * paddedStart.stats_.blockSize
      + (((4 : Nat) : Int) - 1) * (0 : Nat) + (2 : Nat) * (2 : Nat) ∧
    PTR_BYTES = 8 :=
  ⟨rfl, rfl, rfl,
    layout_closed_form stdDecls stdBackend zeroMem 16 paddedConfig paddedStart (by decide)
      (by unfold NoWrap; decide) (Or.inr rfl)⟩

/-- C5: `free(nullptr)` throws `E_BAD_BOUNDARY` (InvalidFree) in every state, and
so does `free(p)` for every pointer `p` when `objectsInUse == 0`; in both cases
the whole allocator state (memory, lists, counters) is left as it was, whatever
the guard bytes of the block hold. -/
theorem free_invalid_rejected (d : Decls) (s : SimpleAllocator) :
    free d s 0 = (.error .E_BAD_BOUNDARY, s) ∧
    ∀ pObj : Nat, s.stats_.objectsInUse = 0 → free d s pObj = (.error .E_BAD_BOUNDARY, s) := by
  constructor
  · simp [free]
  · intro pObj h
    simp [free, h]

/-- Witness for C5: on the freshly built padded allocator nothing is in use,
and freeing the address 4107 is rejected. -/
theorem free_invalid_rejected_witness :
    paddedStart.stats_.objectsInUse = 0 ∧
    free stdDecls paddedStart 4107 = (.error .E_BAD_BOUNDARY, paddedStart) :=
  ⟨rfl, (free_invalid_rejected stdDecls paddedStart).2 4107 rfl⟩

theorem corruptionCheck_bad (d : Decls) (s : SimpleAllocator) (B i : Nat)
    (hi : i < s.config_.padBytesSize)
    (hbad : s.mem (B - s.config_.padBytesSize + i) ≠ d.PAD_PATTERN ∨
      s.mem (B + s.stats_.objectSize + i) ≠ d.PAD_PATTERN) :
    ∃ side, corruptionCheck d s B = .error (.E_CORRUPTED_BLOCK side) := by
  unfold corruptionCheck
  have hpad : s.config_.padBytesSize > 0 := by omega
  rw [if_pos hpad]
  split
  · exact ⟨_, rfl⟩
  · rename_i h1
    split
    · exact ⟨_, rfl⟩
    · rename_i h2
      exfalso
      rcases hbad with hb | hb
      · apply h1
        rw [List.any_eq_true]
        exact ⟨i, List.mem_range.mpr hi, by simpa using hb⟩
      · apply h2
        rw [List.any_eq_true]
        exact ⟨i, List.mem_range.mpr hi, by simpa using hb⟩

/-- C6: with pad bytes configured, once a client has overwritten one byte of a
block's pre-pad or post-pad region with a byte other than the guard pattern,
the next `allocate`, when the block is the one it would hand out (the free-list
head), throws `E_CORRUPTED_BLOCK`, and the next `free` of the block, when
objects are in use, throws `E_CORRUPTED_BLOCK`. -/
theorem corruption_detected (d : Decls) (s : SimpleAllocator) (B a v : Nat)
    (_hpad : 0 < s.config_.padBytesSize) (hB : B ≠ 0)
    (ha : (B - s.config_.padBytesSize ≤ a ∧ a < B) ∨
      (B + s.stats_.objectSize ≤ a ∧ a < B + s.stats_.objectSize + s.config_.padBytesSize))
    (hv : v < 256) (hne : v ≠ d.PAD_PATTERN) :
    (s.pFreeList_ = B → ∀ pLabel, ∃ side,
      (allocate d (poke s a v) pLabel).1 = .error (.E_CORRUPTED_BLOCK side)) ∧
    (s.stats_.objectsInUse ≠ 0 → ∃ side,
      (free d (poke s a v) B).1 = .error (.E_CORRUPTED_BLOCK side)) := by
  have hchk : ∃ side, corruptionCheck d (poke s a v) B = .error (.E_CORRUPTED_BLOCK side) := by
    rcases ha with ⟨h1, h2⟩ | ⟨h1, h2⟩
    · apply corruptionCheck_bad d (poke s a v) B (a - (B - s.config_.padBytesSize))
      · show _ < s.config_.padBytesSize
        omega
      · left
        show writeByte s.mem a v _ ≠ _
        have : B - s.config_.padBytesSize + (a - (B - s.config_.padBytesSize)) = a := by omega
        show writeByte s.mem a v (B - s.config_.padBytesSize + (a - (B - s.config_.padBytesSize))) ≠ _
        rw [this]
        simp [writeByte, Nat.mod_eq_of_lt hv, hne]
    · apply corruptionCheck_bad d (poke s a v) B (a - (B + s.stats_.objectSize))
      · show _ < s.config_.padBytesSize
        omega
      · right
        have : B + s.stats_.objectSize + (a - (B + s.stats_.objectSize)) = a := by omega
        show writeByte s.mem a v (B + s.stats_.objectSize + (a - (B + s.stats_.objectSize))) ≠ _
        rw [this]
        simp [writeByte, Nat.mod_eq_of_lt hv, hne]
  obtain ⟨side, hside⟩ := hchk
  constructor
  · intro hF pLabel
    refine ⟨side, ?_⟩
    have hF' : (poke s a v).pFreeList_ = B := hF
    unfold allocate takeHead
    simp only [hF', hB, if_false]
    rw [hside]
  · intro hU
    refine ⟨side, ?_⟩
    have hU' : (poke s a v).stats_.objectsInUse ≠ 0 := hU
    unfold free
    simp only [hB, hU', if_false]
    rw [hside]

/-- Witness for C6: on the padded allocator the head block 4170 with its last
pre-pad byte zeroed is refused by `allocate`; once handed out, the same block
with its first post-pad byte zeroed is refused by `free`. -/
theorem corruption_detected_witness :
    (∃ side, (allocate stdDecls (poke paddedStart 4169 0) none).1
      = .error (.E_CORRUPTED_BLOCK side)) ∧
    (∃ side, (free stdDecls (poke paddedOne 4186 0) 4170).1
      = .error (.E_CORRUPTED_BLOCK side)) :=
  ⟨(corruption_detected stdDecls paddedStart 4170 4169 0 (by decide) (by decide)
      (Or.inl ⟨by decide, by decide⟩) (by decide) (by decide)).1 rfl none,
   (corruption_detected stdDecls paddedOne 4170 4186 0 (by decide) (by decide)
      (Or.inr ⟨by decide, by decide⟩) (by decide) (by decide)).2 (by decide)⟩

theorem incr_modEq (d : Decls) (x : Nat) : d.incr x ≡ x + 1 [MOD 2 ^ d.counterBits] :=
  Nat.mod_modEq _ _

theorem plus_modEq (d : Decls) (x n : Nat) : d.plus x n ≡ x + n [MOD 2 ^ d.counterBits] :=
  Nat.mod_modEq _ _

theorem decr_modEq (d : Decls) (x : Nat) : d.decr x + 1 ≡ x [MOD 2 ^ d.counterBits] := by
  have hpos : 0 < 2 ^ d.counterBits := Nat.pow_pos (by decide)
  have h1 : d.decr x ≡ x + (2 ^ d.counterBits - 1) [MOD 2 ^ d.counterBits] := Nat.mod_modEq _ _
  have h2 : x + (2 ^ d.counterBits - 1) + 1 = x + 2 ^ d.counterBits := by omega
  calc d.decr x + 1 ≡ x + (2 ^ d.counterBits - 1) + 1 [MOD 2 ^ d.counterBits] := h1.add_right 1
    _ = x + 2 ^ d.counterBits := h2
    _ ≡ x [MOD 2 ^ d.counterBits] := by simp [Nat.ModEq]

theorem incr_lt (d : Decls) (x : Nat) : d.incr x < 2 ^ d.counterBits :=
  Nat.mod_lt _ (Nat.pow_pos (by decide))

theorem decr_lt (d : Decls) (x : Nat) : d.decr x < 2 ^ d.counterBits :=
  Nat.mod_lt _ (Nat.pow_pos (by decide))

theorem stamp_fields (d : Decls) (s : SimpleAllocator) (B : Nat) (pLabel : Option String) :
    (stamp d s B pLabel).2.stats_ = { s.stats_ with
      allocations := d.incr s.stats_.allocations
      objectsInUse := d.incr s.stats_.objectsInUse
      freeObjects := d.decr s.stats_.freeObjects } ∧
    (stamp d s B pLabel).2.config_ = s.config_ ∧
    (stamp d s B pLabel).2.pFreeList_ = s.pFreeList_ := by
  unfold stamp
  dsimp only
  repeat' split
  all_goals exact ⟨rfl, rfl, rfl⟩

theorem allocateNewPage_stats (d : Decls) (s : SimpleAllocator) :
    ((∃ e, (allocateNewPage d s).1 = .error e) ∧
      (allocateNewPage d s).2.stats_ = s.stats_ ∧
      (allocateNewPage d s).2.pFreeList_ = s.pFreeList_) ∨
    ((allocateNewPage d s).1 = .ok () ∧
      (allocateNewPage d s).2.stats_ = { s.stats_ with
        pagesInUse := d.incr s.stats_.pagesInUse
        freeObjects := d.plus s.stats_.freeObjects s.config_.objectsPerPage }) := by
  unfold allocateNewPage
  split
  · exact Or.inl ⟨⟨_, rfl⟩, rfl, rfl⟩
  · dsimp only
    split
    · exact Or.inl ⟨⟨_, rfl⟩, rfl, rfl⟩
    · exact Or.inr ⟨rfl, rfl⟩

theorem allocate_fields (d : Decls) (s : SimpleAllocator) (pLabel : Option String) :
    (allocate d s pLabel).2.config_ = s.config_ ∧
    ((allocate d s pLabel).2.stats_ =
        (if s.pFreeList_ = 0 then (allocateNewPage d s).2 else s).stats_ ∨
      (allocate d s pLabel).2.stats_ =
        { (if s.pFreeList_ = 0 then (allocateNewPage d s).2 else s).stats_ with
          allocations := d.incr (if s.pFreeList_ = 0 then (allocateNewPage d s).2 else s).stats_.allocations
          objectsInUse := d.incr (if s.pFreeList_ = 0 then (allocateNewPage d s).2 else s).stats_.objectsInUse
          freeObjects := d.decr (if s.pFreeList_ = 0 then (allocateNewPage d s).2 else s).stats_.freeObjects }) := by
  have hc : (if s.pFreeList_ = 0 then (allocateNewPage d s).2 else s).config_ = s.config_ := by
    split
    · exact allocateNewPage_config d s
    · rfl
  have hr : (if s.pFreeList_ = 0 then allocateNewPage d s else (Except.ok (), s)).2
      = (if s.pFreeList_ = 0 then (allocateNewPage d s).2 else s) := by
    split <;> rfl
  unfold allocate
  dsimp only
  rw [← hr] at hc ⊢
  generalize (if s.pFreeList_ = 0 then allocateNewPage d s else (Except.ok (), s)) = r at hc ⊢
  obtain ⟨r1, s1⟩ := r
  cases r1 with
  | error e => exact ⟨hc, Or.inl rfl⟩
  | ok u =>
    dsimp only
    unfold takeHead
    dsimp only
    split
    · exact ⟨hc, Or.inl rfl⟩
    · split
      · exact ⟨hc, Or.inl rfl⟩
      · obtain ⟨h1, h2, _⟩ := stamp_fields d { s1 with pFreeList_ := readPtr s1.mem s1.pFreeList_ }
          s1.pFreeList_ pLabel
        exact ⟨h2.trans hc, Or.inr h1⟩

theorem free_fields (d : Decls) (s : SimpleAllocator) (pObj : Nat) :
    (free d s pObj).2.config_ = s.config_ ∧
    (((∃ e, (free d s pObj).1 = .error e) ∧ (free d s pObj).2.stats_ = s.stats_ ∧
        (free d s pObj).2.pFreeList_ = s.pFreeList_) ∨
      (s.stats_.objectsInUse ≠ 0 ∧ (free d s pObj).2.stats_ = { s.stats_ with
        deallocations := d.incr s.stats_.deallocations
        objectsInUse := d.decr s.stats_.objectsInUse
        freeObjects := d.incr s.stats_.freeObjects })) := by
  unfold free
  split
  · exact ⟨rfl, Or.inl ⟨⟨_, rfl⟩, rfl, rfl⟩⟩
  · split
    · exact ⟨rfl, Or.inl ⟨⟨_, rfl⟩, rfl, rfl⟩⟩
    · rename_i hU
      split
      · exact ⟨rfl, Or.inl ⟨⟨_, rfl⟩, rfl, rfl⟩⟩
      · dsimp only
        split
        · exact ⟨rfl, Or.inr ⟨hU, rfl⟩⟩
        · split
          · split <;> exact ⟨rfl, Or.inr ⟨hU, rfl⟩⟩
          · exact ⟨rfl, Or.inr ⟨hU, rfl⟩⟩

theorem modEq_up_up {M a a1 b c c1 : Nat} (ha : a1 ≡ a + 1 [MOD M]) (hc : c1 ≡ c + 1 [MOD M])
    (h : a ≡ b + c [MOD M]) : a1 ≡ b + c1 [MOD M] :=
  calc a1 ≡ a + 1 [MOD M] := ha
    _ ≡ b + c + 1 [MOD M] := h.add_right 1
    _ = b + (c + 1) := by ring
    _ ≡ b + c1 [MOD M] := (hc.symm).add_left b

theorem modEq_up_down {M b b1 c c1 : Nat} (hb : b1 ≡ b + 1 [MOD M]) (hc : c1 + 1 ≡ c [MOD M]) :
    b1 + c1 ≡ b + c [MOD M] :=
  calc b1 + c1 ≡ b + 1 + c1 [MOD M] := hb.add_right c1
    _ = b + (c1 + 1) := by ring
    _ ≡ b + c [MOD M] := hc.add_left b

theorem accounting_init (d : Decls) (b : Backend) (m : Mem) (objectSize : Nat)
    (config : SimpleAllocatorConfig) : Accounting d (init d b m objectSize config) := by
  have hpos : 0 < 2 ^ d.counterBits := Nat.pow_pos (by decide)
  refine ⟨?_, ?_, hpos, hpos⟩
  · exact Nat.ModEq.refl _
  · show 0 + 0 ≡ 0 * _ [MOD _]
    rw [Nat.zero_mul]

theorem accounting_page (d : Decls) (s : SimpleAllocator) (h : Accounting d s) :
    Accounting d (allocateNewPage d s).2 := by
  obtain ⟨h1, h2, h3, h4⟩ := h
  have hc := allocateNewPage_config d s
  rcases allocateNewPage_stats d s with ⟨_, hs, _⟩ | ⟨_, hs⟩
  · unfold Accounting
    rw [hs, hc]
    exact ⟨h1, h2, h3, h4⟩
  · unfold Accounting
    rw [hs, hc]
    refine ⟨h1, ?_, h3, h4⟩
    show d.plus s.stats_.freeObjects s.config_.objectsPerPage + s.stats_.objectsInUse
      ≡ d.incr s.stats_.pagesInUse * s.config_.objectsPerPage [MOD 2 ^ d.counterBits]
    calc d.plus s.stats_.freeObjects s.config_.objectsPerPage + s.stats_.objectsInUse
        ≡ s.stats_.freeObjects + s.config_.objectsPerPage + s.stats_.objectsInUse
            [MOD 2 ^ d.counterBits] := (plus_modEq d _ _).add_right _
      _ = s.stats_.freeObjects + s.stats_.objectsInUse + s.config_.objectsPerPage := by ring
      _ ≡ s.stats_.pagesInUse * s.config_.objectsPerPage + s.config_.objectsPerPage
            [MOD 2 ^ d.counterBits] := h2.add_right _
      _ = (s.stats_.pagesInUse + 1) * s.config_.objectsPerPage := by ring
      _ ≡ d.incr s.stats_.pagesInUse * s.config_.objectsPerPage [MOD 2 ^ d.counterBits] :=
          ((incr_modEq d _).symm).mul_right _

theorem accounting_allocate (d : Decls) (s : SimpleAllocator) (pLabel : Option String)
    (h : Accounting d s) : Accounting d (allocate d s pLabel).2 := by
  have h0 : Accounting d (if s.pFreeList_ = 0 then (allocateNewPage d s).2 else s) := by
    split
    · exact accounting_page d s h
    · exact h
  have hc0 : (if s.pFreeList_ = 0 then (allocateNewPage d s).2 else s).config_ = s.config_ := by
    split
    · exact allocateNewPage_config d s
    · rfl
  obtain ⟨hc, hs⟩ := allocate_fields d s pLabel
  generalize (if s.pFreeList_ = 0 then (allocateNewPage d s).2 else s) = s1 at h0 hc0 hs
  obtain ⟨h1, h2, h3, h4⟩ := h0
  rw [hc0] at h2
  rcases hs with hs | hs
  · unfold Accounting
    rw [hs, hc]
    exact ⟨h1, h2, h3, h4⟩
  · unfold Accounting
    rw [hs, hc]
    refine ⟨modEq_up_up (incr_modEq d _) (incr_modEq d _) h1, ?_, h3, incr_lt d _⟩
    show d.decr s1.stats_.freeObjects + d.incr s1.stats_.objectsInUse ≡ _ [MOD _]
    rw [Nat.add_comm]
    refine (modEq_up_down (incr_modEq d _) (decr_modEq d _)).trans ?_
    rw [Nat.add_comm]
    exact h2

theorem accounting_free (d : Decls) (s : SimpleAllocator) (pObj : Nat)
    (h : Accounting d s) : Accounting d (free d s pObj).2 := by
  obtain ⟨h1, h2, h3, h4⟩ := h
  obtain ⟨hc, hs⟩ := free_fields d s pObj
  rcases hs with ⟨_, hs, _⟩ | ⟨_, hs⟩
  · unfold Accounting
    rw [hs, hc]
    exact ⟨h1, h2, h3, h4⟩
  · unfold Accounting
    rw [hs, hc]
    refine ⟨?_, ?_, incr_lt d _, decr_lt d _⟩
    · exact h1.trans (modEq_up_down (incr_modEq d _) (decr_modEq d _)).symm
    · exact (modEq_up_down (incr_modEq d _) (decr_modEq d _)).trans h2

theorem run_config (d : Decls) (ops : List Op) (s : SimpleAllocator) :
    (run d s ops).config_ = s.config_ := by
  induction ops generalizing s with
  | nil => rfl
  | cons op ops ih =>
    show (run d (step d s op) ops).config_ = _
    rw [ih]
    cases op with
    | allocate l => exact (allocate_fields d s l).1
    | free p => exact (free_fields d s p).1
    | store a v => rfl

theorem accounting_run (d : Decls) (ops : List Op) (s : SimpleAllocator)
    (h : Accounting d s) : Accounting d (run d s ops) := by
  induction ops generalizing s with
  | nil => exact h
  | cons op ops ih =>
    show Accounting d (run d (step d s op) ops)
    apply ih
    cases op with
    | allocate l => exact accounting_allocate d s l h
    | free p => exact accounting_free d s p h
    | store a v => exact h

theorem construct_config (d : Decls) (b : Backend) (m : Mem) (objectSize : Nat)
    (config : SimpleAllocatorConfig) (s : SimpleAllocator)
    (h : construct d b m objectSize config = .ok s) : s.config_ = config := by
  rw [(construct_ok d b m objectSize config s h).1, allocateNewPage_config]
  rfl

/-- C2: in every state reachable from construction by any sequence of
`allocate` and `free` calls, returning or throwing, with client stores in
between, the counters satisfy, in their own unsigned arithmetic,
`allocations - deallocations == objectsInUse` and
`freeObjects + objectsInUse == pagesInUse * objectsPerPage`. -/
theorem accounting_invariant (d : Decls) (b : Backend) (m : Mem) (objectSize : Nat)
    (config : SimpleAllocatorConfig) (s0 : SimpleAllocator) (ops : List Op)
    (h : construct d b m objectSize config = .ok s0) :
    ((run d s0 ops).stats_.allocations + 2 ^ d.counterBits
        - (run d s0 ops).stats_.deallocations) % 2 ^ d.counterBits
      = (run d s0 ops).stats_.objectsInUse ∧
    ((run d s0 ops).stats_.freeObjects + (run d s0 ops).stats_.objectsInUse)
        % 2 ^ d.counterBits
      = ((run d s0 ops).stats_.pagesInUse * config.objectsPerPage) % 2 ^ d.counterBits := by
  have hacc : Accounting d (run d s0 ops) := by
    apply accounting_run
    rw [(construct_ok d b m objectSize config s0 h).1]
    exact accounting_page d _ (accounting_init d b m objectSize config)
  have hcfg : (run d s0 ops).config_ = config := by
    rw [run_config, construct_config d b m objectSize config s0 h]
  obtain ⟨h1, h2, h3, h4⟩ := hacc
  rw [hcfg] at h2
  refine ⟨?_, h2⟩
  generalize (run d s0 ops).stats_.allocations = a at h1
  generalize (run d s0 ops).stats_.deallocations = e at h1 h3
  generalize (run d s0 ops).stats_.objectsInUse = u at h1 h4
  generalize 2 ^ d.counterBits = M at h1 h3 h4
  have h5 : a + M - e = a + (M - e) := by omega
  rw [h5]
  have h6 : a + (M - e) ≡ u [MOD M] :=
    calc a + (M - e) ≡ e + u + (M - e) [MOD M] := h1.add_right _
      _ = u + M := by omega
      _ ≡ u [MOD M] := by simp [Nat.ModEq]
  rw [h6]
  exact Nat.mod_eq_of_lt h4

/-- Witness for C2: the padded allocator after `sampleOps` has 2 allocations,
2 deallocations, nothing in use, one page and 4 free objects. -/
theorem accounting_invariant_witness :
    construct stdDecls stdBackend zeroMem 16 paddedConfig = .ok paddedStart ∧
    (run stdDecls paddedStart sampleOps).stats_.allocations = 2 ∧
    (run stdDecls paddedStart sampleOps).stats_.deallocations = 2 ∧
    (run stdDecls paddedStart sampleOps).stats_.freeObjects = 4 ∧
    (run stdDecls paddedStart sampleOps).stats_.pagesInUse = 1 ∧
    ((run stdDecls paddedStart sampleOps).stats_.allocations + 2 ^ stdDecls.counterBits
        - (run stdDecls paddedStart sampleOps).stats_.deallocations) % 2 ^ stdDecls.counterBits
      = (run stdDecls paddedStart sampleOps).stats_.objectsInUse ∧
    ((run stdDecls paddedStart sampleOps).stats_.freeObjects
        + (run stdDecls paddedStart sampleOps).stats_.objectsInUse) % 2 ^ stdDecls.counterBits
      = ((run stdDecls paddedStart sampleOps).stats_.pagesInUse * paddedConfig.objectsPerPage)
        % 2 ^ stdDecls.counterBits :=
  ⟨rfl, rfl, rfl, rfl, rfl,
    accounting_invariant stdDecls stdBackend zeroMem 16 paddedConfig paddedStart sampleOps rfl⟩

theorem readPtr_ne_zero (m : Mem) (a k : Nat) (hk : k < 8) (h : m (a + k) ≠ 0) :
    readPtr m a ≠ 0 := by
  unfold readPtr
  interval_cases k <;> (try rw [Nat.add_zero] at h) <;> omega

theorem corruptionCheck_ok_iff (d : Decls) (s : SimpleAllocator) (B : Nat) :
    corruptionCheck d s B = .ok () ↔
      ∀ i, i < s.config_.padBytesSize →
        s.mem (B - s.config_.padBytesSize + i) = d.PAD_PATTERN ∧
        s.mem (B + s.stats_.objectSize + i) = d.PAD_PATTERN := by
  constructor
  · intro h i hi
    by_contra hc
    have hbad : s.mem (B - s.config_.padBytesSize + i) ≠ d.PAD_PATTERN ∨
        s.mem (B + s.stats_.objectSize + i) ≠ d.PAD_PATTERN := by
      by_cases h1 : s.mem (B - s.config_.padBytesSize + i) = d.PAD_PATTERN
      · right
        intro h2
        exact hc ⟨h1, h2⟩
      · left
        exact h1
    obtain ⟨side, hs⟩ := corruptionCheck_bad d s B i hi hbad
    rw [h] at hs
    cases hs
  · intro h
    unfold corruptionCheck
    split
    · have h1 : ¬ ((List.range s.config_.padBytesSize).any
          (fun i => s.mem (B - s.config_.padBytesSize + i) != d.PAD_PATTERN) = true) := by
        rw [List.any_eq_true]
        rintro ⟨i, hi, hne⟩
        have := (h i (List.mem_range.mp hi)).1
        simp [this] at hne
      have h2 : ¬ ((List.range s.config_.padBytesSize).any
          (fun i => s.mem (B + s.stats_.objectSize + i) != d.PAD_PATTERN) = true) := by
        rw [List.any_eq_true]
        rintro ⟨i, hi, hne⟩
        have := (h i (List.mem_range.mp hi)).2
        simp [this] at hne
      rw [if_neg h1, if_neg h2]
    · rfl

theorem seedLoop_head (d : Decls) (s : SimpleAllocator) (n : Nat) :
    ∀ (i cur prev c : Nat) (m : Mem),
      (seedLoop d s (n + 1) i cur prev c m).2 = cur + n * s.stats_.blockSize := by
  induction n with
  | zero =>
    intro i cur prev c m
    simp [seedLoop]
  | succ n ih =>
    intro i cur prev c m
    rw [seedLoop, ih]
    ring

theorem seedLoop_pads (d : Decls) (s : SimpleAllocator) (hos : 8 ≤ s.stats_.objectSize)
    (n : Nat) :
    ∀ (i cur prev c : Nat) (m : Mem), s.config_.padBytesSize ≤ cur →
      ∀ j, j < s.config_.padBytesSize →
        (seedLoop d s (n + 1) i cur prev c m).1
            ((seedLoop d s (n + 1) i cur prev c m).2 - s.config_.padBytesSize + j)
          = d.PAD_PATTERN % 256 ∧
        (seedLoop d s (n + 1) i cur prev c m).1
            ((seedLoop d s (n + 1) i cur prev c m).2 + s.stats_.objectSize + j)
          = d.PAD_PATTERN % 256 := by
  induction n with
  | zero =>
    intro i cur prev c m hcur j hj
    have hpad : s.config_.padBytesSize > 0 := by omega
    simp only [seedLoop, if_pos hpad]
    constructor
    · simp only [writePtr, memset]
      rw [if_neg (by omega), if_neg (by omega), if_neg (by omega), if_pos (by omega)]
    · simp only [writePtr, memset]
      rw [if_neg (by omega), if_neg (by omega), if_pos (by omega)]
  | succ n ih =>
    intro i cur prev c m hcur j hj
    rw [seedLoop]
    exact ih _ _ _ _ _ (by omega) j hj

theorem allocateNewPage_error (d : Decls) (s : SimpleAllocator) (e : Exn)
    (h : (allocateNewPage d s).1 = .error e) :
    (allocateNewPage d s).2 = s ∨ e.named = false := by
  unfold allocateNewPage at h ⊢
  split
  · exact Or.inl rfl
  · rename_i hlim
    rw [if_neg hlim] at h
    dsimp only at h ⊢
    split
    · rename_i hz
      rw [if_pos hz] at h
      right
      injection h with h
      rw [← h]
      split <;> rfl
    · rename_i hz
      rw [if_neg hz] at h
      cases h

theorem allocateNewPage_ok_form (d : Decls) (s : SimpleAllocator)
    (h : (allocateNewPage d s).1 = .ok ()) :
    s.backend.rawPage s.pageReqs ≠ 0 ∧
    (allocateNewPage d s).2.mem = (seedLoop d s s.config_.objectsPerPage 0
      (s.backend.rawPage s.pageReqs + (s.config_.interAlignBytesSize + s.config_.headerSize
        + s.config_.padBytesSize + PTR_BYTES)) 0 0
      (writePtr (writePtr s.mem (s.backend.rawPage s.pageReqs) (s.backend.rawPage s.pageReqs))
        (s.backend.rawPage s.pageReqs) s.pPageList_)).1 ∧
    (allocateNewPage d s).2.pFreeList_ = (seedLoop d s s.config_.objectsPerPage 0
      (s.backend.rawPage s.pageReqs + (s.config_.interAlignBytesSize + s.config_.headerSize
        + s.config_.padBytesSize + PTR_BYTES)) 0 0
      (writePtr (writePtr s.mem (s.backend.rawPage s.pageReqs) (s.backend.rawPage s.pageReqs))
        (s.backend.rawPage s.pageReqs) s.pPageList_)).2 := by
  unfold allocateNewPage at h ⊢
  split
  · rename_i hlim
    rw [if_pos hlim] at h
    cases h
  · rename_i hlim
    rw [if_neg hlim] at h
    dsimp only at h ⊢
    split
    · rename_i hz
      rw [if_pos hz] at h
      cases h
    · rename_i hz
      exact ⟨hz, rfl, rfl⟩

theorem stamp_error (d : Decls) (s : SimpleAllocator) (B : Nat) (pLabel : Option String)
    (e : Exn) (h : (stamp d s B pLabel).1 = .error e) : e.named = false := by
  unfold stamp at h
  dsimp only at h
  repeat' split at h
  all_goals (cases h <;> rfl)

theorem fresh_head_ok (d : Decls) (s : SimpleAllocator) (hbyte : d.PAD_PATTERN < 256)
    (hos : s.config_.padBytesSize = 0 ∨ 8 ≤ s.stats_.objectSize)
    (h : (allocateNewPage d s).1 = .ok ())
    (hne : (allocateNewPage d s).2.pFreeList_ ≠ 0) :
    corruptionCheck d (allocateNewPage d s).2 (allocateNewPage d s).2.pFreeList_ = .ok () := by
  rw [corruptionCheck_ok_iff]
  obtain ⟨hz, hm, hf⟩ := allocateNewPage_ok_form d s h
  rw [allocateNewPage_config, (allocateNewPage_sizes d s).1]
  intro j hj
  rcases hos with hos | hos
  · omega
  · rw [hm, hf]
    rw [hf] at hne
    cases hN : s.config_.objectsPerPage with
    | zero =>
      rw [hN] at hne
      exact absurd rfl hne
    | succ n =>
      rw [← Nat.mod_eq_of_lt hbyte]
      exact seedLoop_pads d s hos n 0 _ 0 0 _ (by omega) j hj

theorem takeHead_named (d : Decls) (s : SimpleAllocator) (pLabel : Option String) (e : Exn)
    (h : (takeHead d s pLabel).1 = .error e) (hn : e.named = true) :
    (takeHead d s pLabel).2 = s ∧ s.pFreeList_ ≠ 0 ∧
      corruptionCheck d s s.pFreeList_ = .error e := by
  unfold takeHead at h ⊢
  dsimp only at h ⊢
  by_cases hF : s.pFreeList_ = 0
  · rw [if_pos hF] at h
    injection h with h
    rw [← h] at hn
    cases hn
  · rw [if_neg hF] at h ⊢
    cases hc : corruptionCheck d s s.pFreeList_ with
    | error e1 =>
      rw [hc] at h
      injection h with h
      rw [← h]
      exact ⟨rfl, hF, rfl⟩
    | ok u =>
      rw [hc] at h
      have := stamp_error d _ _ _ e h
      rw [this] at hn
      cases hn

theorem takeHead_head (d : Decls) (s : SimpleAllocator) (pLabel : Option String) :
    (takeHead d s pLabel).2.pFreeList_ = s.pFreeList_ ∨
    (corruptionCheck d s s.pFreeList_ = .ok () ∧
      (takeHead d s pLabel).2.pFreeList_ = readPtr s.mem s.pFreeList_) := by
  unfold takeHead
  dsimp only
  split
  · exact Or.inl rfl
  · cases hc : corruptionCheck d s s.pFreeList_ with
    | error e1 => exact Or.inl rfl
    | ok u => exact Or.inr ⟨rfl, (stamp_fields d _ _ _).2.2⟩

theorem allocate_failure_atomic (d : Decls) (s : SimpleAllocator) (pLabel : Option String)
    (e : Exn) (hbyte : d.PAD_PATTERN < 256) (hK : HeadSet s)
    (h : (allocate d s pLabel).1 = .error e) (hn : e.named = true) :
    (allocate d s pLabel).2 = s := by
  unfold allocate at h ⊢
  dsimp only at h ⊢
  by_cases hF : s.pFreeList_ = 0
  · rw [if_pos hF] at h ⊢
    have e1 := allocateNewPage_error d s
    have e2 := fresh_head_ok d s hbyte
    have e3 := allocateNewPage_ok_form d s
    have e4 := allocateNewPage_config d s
    have e5 := (allocateNewPage_sizes d s).1
    generalize allocateNewPage d s = r at h e1 e2 e3 e4 e5 ⊢
    obtain ⟨r1, s1⟩ := r
    cases r1 with
    | error e' =>
      dsimp only at h ⊢
      injection h with h
      rcases e1 e' rfl with h1 | h1
      · exact h1
      · rw [h, hn] at h1
        cases h1
    | ok u =>
      dsimp only at h e2 e3 e4 e5 ⊢
      exfalso
      obtain ⟨_, hne, hchk⟩ := takeHead_named d s1 pLabel e h hn
      obtain ⟨_, _, hf⟩ := e3 rfl
      by_cases hos : s.config_.padBytesSize = 0 ∨ 8 ≤ s.stats_.objectSize
      · rw [e2 hos rfl hne] at hchk
        cases hchk
      · have hN : s.config_.objectsPerPage = 0 := by
          by_contra hN
          exact hK (by omega) (by omega) (by omega) hF
        rw [hN] at hf
        exact hne hf
  · rw [if_neg hF] at h ⊢
    exact (takeHead_named d s pLabel e h hn).1

theorem free_failure_atomic (d : Decls) (s : SimpleAllocator) (pObj : Nat) (e : Exn)
    (h : (free d s pObj).1 = .error e) (hn : e.named = true) : (free d s pObj).2 = s := by
  unfold free at h ⊢
  by_cases h0 : pObj = 0
  · rw [if_pos h0]
  · rw [if_neg h0] at h ⊢
    by_cases hU : s.stats_.objectsInUse = 0
    · rw [if_pos hU]
    · rw [if_neg hU] at h ⊢
      cases hc : corruptionCheck d s pObj with
      | error e1 => rfl
      | ok u =>
        rw [hc] at h
        exfalso
        dsimp only at h
        split at h
        · cases h
        · split at h
          · split at h
            · cases h
              cases hn
            · cases h
          · cases h

theorem allocate_objectSize (d : Decls) (s : SimpleAllocator) (pLabel : Option String) :
    (allocate d s pLabel).2.stats_.objectSize = s.stats_.objectSize := by
  have h1 : (if s.pFreeList_ = 0 then (allocateNewPage d s).2 else s).stats_.objectSize
      = s.stats_.objectSize := by
    split
    · exact (allocateNewPage_sizes d s).1
    · rfl
  rcases (allocate_fields d s pLabel).2 with h | h
  · rw [h, h1]
  · rw [h]
    exact h1

theorem free_objectSize (d : Decls) (s : SimpleAllocator) (pObj : Nat) :
    (free d s pObj).2.stats_.objectSize = s.stats_.objectSize := by
  rcases (free_fields d s pObj).2 with ⟨_, h, _⟩ | ⟨_, h⟩
  · rw [h]
  · rw [h]

theorem free_head (d : Decls) (s : SimpleAllocator) (pObj : Nat) :
    (free d s pObj).2.pFreeList_ = s.pFreeList_ ∨
    ((free d s pObj).2.pFreeList_ = pObj ∧ pObj ≠ 0) := by
  unfold free
  by_cases h0 : pObj = 0
  · rw [if_pos h0]
    exact Or.inl rfl
  · rw [if_neg h0]
    by_cases hU : s.stats_.objectsInUse = 0
    · rw [if_pos hU]
      exact Or.inl rfl
    · rw [if_neg hU]
      cases hc : corruptionCheck d s pObj with
      | error e1 => exact Or.inl rfl
      | ok u =>
        right
        refine ⟨?_, h0⟩
        dsimp only
        split
        · rfl
        · split
          · split <;> rfl
          · rfl

theorem headSet_allocate (d : Decls) (s : SimpleAllocator) (pLabel : Option String)
    (hpat : d.PAD_PATTERN ≠ 0) (h : HeadSet s) : HeadSet (allocate d s pLabel).2 := by
  intro hp hos hN
  rw [(allocate_fields d s pLabel).1] at hp hN
  rw [allocate_objectSize] at hos
  have hF := h hp hos hN
  have hal : allocate d s pLabel = takeHead d s pLabel := by
    unfold allocate
    dsimp only
    rw [if_neg hF]
  rw [hal]
  rcases takeHead_head d s pLabel with h1 | ⟨hc, h1⟩
  · rw [h1]
    exact hF
  · rw [h1]
    have hb := ((corruptionCheck_ok_iff d s s.pFreeList_).mp hc 0 hp).2
    apply readPtr_ne_zero s.mem s.pFreeList_ s.stats_.objectSize hos
    rw [Nat.add_zero] at hb
    rw [hb]
    exact hpat

theorem headSet_free (d : Decls) (s : SimpleAllocator) (pObj : Nat) (h : HeadSet s) :
    HeadSet (free d s pObj).2 := by
  intro hp hos hN
  rw [(free_fields d s pObj).1] at hp hN
  rw [free_objectSize] at hos
  rcases free_head d s pObj with h1 | ⟨h1, h2⟩
  · rw [h1]
    exact h hp hos hN
  · rw [h1]
    exact h2

theorem headSet_run (d : Decls) (hpat : d.PAD_PATTERN ≠ 0) (ops : List Op)
    (s : SimpleAllocator) (h : HeadSet s) : HeadSet (run d s ops) := by
  induction ops generalizing s with
  | nil => exact h
  | cons op ops ih =>
    show HeadSet (run d (step d s op) ops)
    apply ih
    cases op with
    | allocate l => exact headSet_allocate d s l hpat h
    | free p => exact headSet_free d s p h
    | store a v => exact h

theorem headSet_construct (d : Decls) (b : Backend) (m : Mem) (objectSize : Nat)
    (config : SimpleAllocatorConfig) (s : SimpleAllocator)
    (h : construct d b m objectSize config = .ok s) : HeadSet s := by
  obtain ⟨hs, hok⟩ := construct_ok d b m objectSize config s h
  obtain ⟨hz, _, hf⟩ := allocateNewPage_ok_form d _ hok
  intro _ _ hN
  rw [hs, allocateNewPage_config] at hN
  rw [hs, hf]
  obtain ⟨n, hn⟩ : ∃ n, (init d b m objectSize config).config_.objectsPerPage = n + 1 :=
    ⟨(init d b m objectSize config).config_.objectsPerPage - 1, by omega⟩
  rw [hn, seedLoop_head]
  have : PTR_BYTES = 8 := rfl
  omega

/-- C7: in every state reachable from construction by calls and client stores,
when `allocate` or `free` throws `E_NO_PAGE` (PageLimitExceeded),
`E_CORRUPTED_BLOCK` or `E_BAD_BOUNDARY` (InvalidFree), every statistics counter
and the free-list head are the same after the call as before; the guard
pattern is taken to be a non-zero byte. -/
theorem failure_changes_nothing (d : Decls) (b : Backend) (m : Mem) (objectSize : Nat)
    (config : SimpleAllocatorConfig) (s0 : SimpleAllocator) (ops : List Op)
    (hpat : 0 < d.PAD_PATTERN) (hbyte : d.PAD_PATTERN < 256)
    (h : construct d b m objectSize config = .ok s0) :
    (∀ pLabel e, (allocate d (run d s0 ops) pLabel).1 = .error e →
      (e = .E_NO_PAGE ∨ (∃ side, e = .E_CORRUPTED_BLOCK side) ∨ e = .E_BAD_BOUNDARY) →
      (allocate d (run d s0 ops) pLabel).2.stats_ = (run d s0 ops).stats_ ∧
      (allocate d (run d s0 ops) pLabel).2.pFreeList_ = (run d s0 ops).pFreeList_) ∧
    (∀ pObj e, (free d (run d s0 ops) pObj).1 = .error e →
      (e = .E_NO_PAGE ∨ (∃ side, e = .E_CORRUPTED_BLOCK side) ∨ e = .E_BAD_BOUNDARY) →
      (free d (run d s0 ops) pObj).2.stats_ = (run d s0 ops).stats_ ∧
      (free d (run d s0 ops) pObj).2.pFreeList_ = (run d s0 ops).pFreeList_) := by
  have hK : HeadSet (run d s0 ops) :=
    headSet_run d (by omega) ops s0 (headSet_construct d b m objectSize config s0 h)
  have hnamed : ∀ e : Exn,
      (e = .E_NO_PAGE ∨ (∃ side, e = .E_CORRUPTED_BLOCK side) ∨ e = .E_BAD_BOUNDARY) →
      e.named = true := by
    rintro e (rfl | ⟨side, rfl⟩ | rfl) <;> rfl
  constructor
  · intro pLabel e he hk
    rw [allocate_failure_atomic d _ pLabel e hbyte hK he (hnamed e hk)]
    exact ⟨rfl, rfl⟩
  · intro pObj e he hk
    rw [free_failure_atomic d _ pObj e he (hnamed e hk)]
    exact ⟨rfl, rfl⟩

/-- Witness for C7: the padded allocator with all eight blocks of its two pages
handed out throws `E_NO_PAGE` on the next `allocate` and `E_BAD_BOUNDARY` on
`free(nullptr)`, and both leave the counters and the free-list head alone. -/
theorem failure_changes_nothing_witness :
    (allocate stdDecls (run stdDecls paddedStart eightAllocs) none).1 = .error .E_NO_PAGE ∧
    (free stdDecls (run stdDecls paddedStart eightAllocs) 0).1 = .error .E_BAD_BOUNDARY ∧
    ((allocate stdDecls (run stdDecls paddedStart eightAllocs) none).2.stats_
        = (run stdDecls paddedStart eightAllocs).stats_ ∧
      (allocate stdDecls (run stdDecls paddedStart eightAllocs) none).2.pFreeList_
        = (run stdDecls paddedStart eightAllocs).pFreeList_) ∧
    ((free stdDecls (run stdDecls paddedStart eightAllocs) 0).2.stats_
        = (run stdDecls paddedStart eightAllocs).stats_ ∧
      (free stdDecls (run stdDecls paddedStart eightAllocs) 0).2.pFreeList_
        = (run stdDecls paddedStart eightAllocs).pFreeList_) :=
  ⟨rfl, rfl,
    (failure_changes_nothing stdDecls stdBackend zeroMem 16 paddedConfig paddedStart eightAllocs
      (by decide) (by decide) rfl).1 none .E_NO_PAGE rfl (Or.inl rfl),
    (failure_changes_nothing stdDecls stdBackend zeroMem 16 paddedConfig paddedStart eightAllocs
      (by decide) (by decide) rfl).2 0 .E_BAD_BOUNDARY rfl (Or.inr (Or.inr rfl))⟩

theorem run_mostObjects (d : Decls) (ops : List Op) (s : SimpleAllocator) :
    (run d s ops).stats_.mostObjects = s.stats_.mostObjects := by
  induction ops generalizing s with
  | nil => rfl
  | cons op ops ih =>
    show (run d (step d s op) ops).stats_.mostObjects = _
    rw [ih]
    cases op with
    | allocate l =>
      have h1 : (if s.pFreeList_ = 0 then (allocateNewPage d s).2 else s).stats_.mostObjects
          = s.stats_.mostObjects := by
        split
        · rcases allocateNewPage_stats d s with ⟨_, h, _⟩ | ⟨_, h⟩ <;> rw [h]
        · rfl
      show (allocate d s l).2.stats_.mostObjects = _
      rcases (allocate_fields d s l).2 with h | h
      · rw [h, h1]
      · rw [h]
        exact h1
    | free p =>
      show (free d s p).2.stats_.mostObjects = _
      rcases (free_fields d s p).2 with ⟨_, h, _⟩ | ⟨_, h⟩ <;> rw [h]
    | store a v => rfl

/-- C8 (the code against the claim): no call ever writes `mostObjects`; in
every state reachable from construction it still holds the constructor's 0,
whatever value `objectsInUse` has taken. -/
theorem peak_never_updated (d : Decls) (b : Backend) (m : Mem) (objectSize : Nat)
    (config : SimpleAllocatorConfig) (s0 : SimpleAllocator) (ops : List Op)
    (h : construct d b m objectSize config = .ok s0) :
    (run d s0 ops).stats_.mostObjects = 0 := by
  rw [run_mostObjects, (construct_ok d b m objectSize config s0 h).1]
  rcases allocateNewPage_stats d (init d b m objectSize config) with ⟨_, h, _⟩ | ⟨_, h⟩ <;>
    rw [h] <;> rfl

/-- Witness for C8: after one successful `allocate` on the padded allocator one
object is in use and `mostObjects` is 0. -/
theorem peak_never_updated_witness :
    (allocate stdDecls paddedStart none).1 = .ok 4170 ∧
    (run stdDecls paddedStart [.allocate none]).stats_.objectsInUse = 1 ∧
    (run stdDecls paddedStart [.allocate none]).stats_.mostObjects = 0 :=
  ⟨rfl, rfl,
    peak_never_updated stdDecls stdBackend zeroMem 16 paddedConfig paddedStart
      [.allocate none] rfl⟩

/-- C4 (the code at the failing input): with two objects per page, one page,
one pad byte and no header, the first `allocate` returns block 4115 and the
second throws `E_CORRUPTED_BLOCK` instead of returning block 4105: the flag
byte the first call wrote at 4115 - 1 - 1 is the post-pad byte of block 4105. -/
theorem page_limit_run_guarded :
    construct stdDecls stdBackend zeroMem 8 guardedConfig = .ok guardedStart ∧
    (allocateN stdDecls 3 guardedStart).1
      = [.ok 4115, .error (.E_CORRUPTED_BLOCK .after), .error (.E_CORRUPTED_BLOCK .after)] ∧
    guardedStart.mem 4113 = 0xDD ∧
    (allocate stdDecls guardedStart none).2.mem 4113 = 1 :=
  ⟨rfl, rfl, rfl, rfl⟩

/-- C9 (the code at the failing input): in the end-to-end scenario the first two
`allocate` calls return 4128 and 4120, and the free-list head is then
4112 + 2^56, the link to block 4112 with its top byte overwritten by the flag
byte of the first call; the third `allocate` hands out that address. -/
theorem scenario_third_allocate :
    construct stdDecls stdBackend zeroMem 8 scenarioConfig = .ok scenarioStart ∧
    (allocateN stdDecls 2 scenarioStart).1 = [.ok 4128, .ok 4120] ∧
    (allocateN stdDecls 2 scenarioStart).2.pFreeList_ = 4112 + 2 ^ 56 ∧
    (allocateN stdDecls 3 scenarioStart).1 = [.ok 4128, .ok 4120, .ok (4112 + 2 ^ 56)] :=
  ⟨rfl, rfl, rfl, rfl⟩

/-- C10 (the code at the failing input): in the end-to-end scenario, after
`allocate` has returned block 4128 and `free(4128)` has succeeded, the free
list is 4128 followed by 4096, the start of the page, and then ends, while
`freeObjects` is 4: the header byte `free` zeroes is the low byte of the link. -/
theorem scenario_free_list :
    (allocate stdDecls scenarioStart none).1 = .ok 4128 ∧
    (free stdDecls (allocate stdDecls scenarioStart none).2 4128).1 = .ok () ∧
    freeListFrom (run stdDecls scenarioStart [.allocate none, .free 4128]).mem 8
      (run stdDecls scenarioStart [.allocate none, .free 4128]).pFreeList_ = [4128, 4096] ∧
    (run stdDecls scenarioStart [.allocate none, .free 4128]).stats_.freeObjects = 4 ∧
    freeListFrom scenarioStart.mem 8 scenarioStart.pFreeList_ = [4128, 4120, 4112, 4104] :=
  ⟨rfl, rfl, rfl, rfl, rfl⟩

set_option maxRecDepth 100000 in
/-- C3 (the code at the failing input): with one object per page, one pad byte
and no header, the 221st `allocate` returns block 905225 and leaves 221 = 0xDD,
the guard pattern, in its pre-pad byte; `free(905225)` therefore succeeds and
zeroes that byte, and the `allocate` that follows throws `E_CORRUPTED_BLOCK`
instead of returning 905225. -/
theorem lifo_reuse_single :
    (allocate stdDecls (run stdDecls singleStart (List.replicate 220 (.allocate none))) none).1
      = .ok 905225 ∧
    (free stdDecls (run stdDecls singleStart (List.replicate 221 (.allocate none))) 905225).1
      = .ok () ∧
    (allocate stdDecls
        (run stdDecls singleStart (List.replicate 221 (.allocate none) ++ [.free 905225]))
        none).1
      = .error (.E_CORRUPTED_BLOCK .before) := by
  refine ⟨?_, ?_, ?_⟩ <;> rfl

theorem readPtr_congr (m1 m2 : Mem) (a : Nat) (h : ∀ k, k < 8 → m1 (a + k) = m2 (a + k)) :
    readPtr m1 a = readPtr m2 a := by
  unfold readPtr
  have h0 := h 0 (by decide)
  rw [Nat.add_zero] at h0
  rw [h0, h 1 (by decide), h 2 (by decide), h 3 (by decide), h 4 (by decide), h 5 (by decide),
    h 6 (by decide), h 7 (by decide)]

theorem writePtr_at (m : Mem) (a v k : Nat) (hk : k < 8) :
    writePtr m a v (a + k) = (v / 256 ^ k) % 256 := by
  unfold writePtr
  rw [if_pos ⟨by omega, by omega⟩, Nat.add_sub_cancel_left]

theorem writePtr_away (m : Mem) (a v x : Nat) (h : x < a ∨ a + 8 ≤ x) :
    writePtr m a v x = m x := by
  unfold writePtr
  rw [if_neg (by omega)]

theorem readPtr_writePtr (m : Mem) (a v : Nat) (hv : v < 2 ^ 64) :
    readPtr (writePtr m a v) a = v := by
  unfold readPtr
  have h0 := writePtr_at m a v 0 (by decide)
  rw [Nat.add_zero] at h0
  rw [h0, writePtr_at m a v 1 (by decide), writePtr_at m a v 2 (by decide),
    writePtr_at m a v 3 (by decide), writePtr_at m a v 4 (by decide),
    writePtr_at m a v 5 (by decide), writePtr_at m a v 6 (by decide),
    writePtr_at m a v 7 (by decide)]
  norm_num at hv ⊢
  omega

theorem memset_away (m : Mem) (a v n x : Nat) (h : x < a ∨ a + n ≤ x) :
    memset m a v n x = m x := by
  unfold memset
  rw [if_neg (by omega)]

theorem memset_at (m : Mem) (a v n x : Nat) (h : a ≤ x ∧ x < a + n) :
    memset m a v n x = v % 256 := by
  unfold memset
  rw [if_pos h]

theorem writeByte_away (m : Mem) (a v x : Nat) (h : x ≠ a) : writeByte m a v x = m x := by
  unfold writeByte
  rw [if_neg h]

theorem writeByte_at (m : Mem) (a v : Nat) : writeByte m a v a = v % 256 := by
  unfold writeByte
  rw [if_pos rfl]

theorem writeU16_away (m : Mem) (a v x : Nat) (h : x ≠ a ∧ x ≠ a + 1) :
    writeU16 m a v x = m x := by
  unfold writeU16
  rw [if_neg h.1, if_neg h.2]

theorem seedLoop_frame (d : Decls) (s : SimpleAllocator) (n : Nat) :
    ∀ (i cur prev c : Nat) (m : Mem) (x : Nat), x + s.config_.padBytesSize < cur →
      (seedLoop d s n i cur prev c m).1 x = m x := by
  induction n with
  | zero =>
    intro i cur prev c m x _
    rfl
  | succ n ih =>
    intro i cur prev c m x hx
    rw [seedLoop, ih _ _ _ _ _ x (by omega)]
    rw [writePtr_away _ _ _ _ (Or.inl (by omega)), memset_away _ _ _ _ _ (Or.inl (by omega))]
    split
    · rw [memset_away _ _ _ _ _ (Or.inl (by omega)), memset_away _ _ _ _ _ (Or.inl (by omega))]
    · rfl

theorem seedLoop_above (d : Decls) (s : SimpleAllocator) (n : Nat) :
    ∀ (i cur prev c : Nat) (m : Mem) (x : Nat), s.config_.padBytesSize ≤ cur →
      (n = 0 ∨ cur + (n - 1) * s.stats_.blockSize
        + max (s.stats_.objectSize + s.config_.padBytesSize) 8 ≤ x) →
      (seedLoop d s n i cur prev c m).1 x = m x := by
  induction n with
  | zero =>
    intro i cur prev c m x _ _
    rfl
  | succ n ih =>
    intro i cur prev c m x hcur hx
    have hx1 : cur + n * s.stats_.blockSize
        + max (s.stats_.objectSize + s.config_.padBytesSize) 8 ≤ x := by
      rcases hx with h | h
      · omega
      · exact h
    have hmono : cur ≤ cur + n * s.stats_.blockSize := Nat.le_add_right _ _
    rw [seedLoop, ih _ _ _ _ _ x (by omega)]
    · rw [writePtr_away _ _ _ _ (Or.inr (by omega)), memset_away _ _ _ _ _ (Or.inr (by omega))]
      split
      · rw [memset_away _ _ _ _ _ (Or.inr (by omega)), memset_away _ _ _ _ _ (Or.inr (by omega))]
      · rfl
    · cases n with
      | zero => exact Or.inl rfl
      | succ n =>
        right
        have e : cur + (n + 1) * s.stats_.blockSize
            = cur + s.stats_.blockSize + n * s.stats_.blockSize := by ring
        rw [e] at hx1
        exact hx1

theorem seedLoop_succ_form (d : Decls) (s : SimpleAllocator) (n i cur prev c : Nat) (m : Mem) :
    ∃ m2 : Mem, seedLoop d s (n + 1) i cur prev c m
      = seedLoop d s n (i + 1) (cur + s.stats_.blockSize) cur cur
          (writePtr m2 cur (if i = 0 then s.pFreeList_ else prev)) :=
  ⟨_, rfl⟩

theorem seedLoop_links (d : Decls) (s : SimpleAllocator) (hos : 8 ≤ s.stats_.objectSize)
    (hbs : s.stats_.objectSize + s.config_.padBytesSize ≤ s.stats_.blockSize)
    (hF : s.pFreeList_ < 2 ^ 64) (n : Nat) :
    ∀ (i cur prev c : Nat) (m : Mem) (j : Nat), j < n → prev < 2 ^ 64 →
      cur + n * s.stats_.blockSize ≤ 2 ^ 64 →
      readPtr (seedLoop d s n i cur prev c m).1 (cur + j * s.stats_.blockSize)
        = if j = 0 then (if i = 0 then s.pFreeList_ else prev)
          else cur + (j - 1) * s.stats_.blockSize := by
  induction n with
  | zero =>
    intro i cur prev c m j hj
    omega
  | succ n ih =>
    intro i cur prev c m j hj hprev hfit
    have hmul : (n + 1) * s.stats_.blockSize = n * s.stats_.blockSize + s.stats_.blockSize :=
      Nat.succ_mul _ _
    obtain ⟨m2, hform⟩ := seedLoop_succ_form d s n i cur prev c m
    rw [hform]
    cases j with
    | zero =>
      simp only [Nat.zero_mul, Nat.add_zero, if_true]
      have hv : (if i = 0 then s.pFreeList_ else prev) < 2 ^ 64 := by
        split
        · exact hF
        · exact hprev
      rw [← readPtr_writePtr m2 cur _ hv]
      apply readPtr_congr
      intro k hk
      rw [seedLoop_frame d s n _ _ _ _ _ (cur + k) (by omega), readPtr_writePtr m2 cur _ hv]
    | succ j =>
      have hj' : j < n := by omega
      have hcur : cur < 2 ^ 64 := by omega
      have := ih (i + 1) (cur + s.stats_.blockSize) cur cur
        (writePtr m2 cur (if i = 0 then s.pFreeList_ else prev)) j hj' hcur (by omega)
      have e1 : cur + (j + 1) * s.stats_.blockSize
          = cur + s.stats_.blockSize + j * s.stats_.blockSize := by
        rw [Nat.succ_mul]
        omega
      rw [e1, this, if_neg (Nat.succ_ne_zero j), Nat.add_sub_cancel]
      cases j with
      | zero => simp
      | succ j =>
        rw [if_neg (Nat.succ_ne_zero j), Nat.add_sub_cancel, Nat.succ_mul]
        omega

theorem freeListFrom_chain (M : Mem) (b : Nat → Nat) (k : Nat)
    (hne : ∀ j, j ≤ k → b j ≠ 0) (hlink : ∀ j, j < k → readPtr M (b (j + 1)) = b j) :
    freeListFrom M (k + 1) (b k) = (List.range (k + 1)).reverse.map b := by
  induction k with
  | zero =>
    rw [freeListFrom, if_neg (hne 0 (Nat.le_refl 0))]
    rfl
  | succ k ih =>
    rw [freeListFrom, if_neg (hne (k + 1) (Nat.le_refl _)), hlink k (Nat.lt_succ_self k),
      ih (fun j hj => hne j (by omega)) (fun j hj => hlink j (by omega))]
    rw [List.range_succ (k + 1), List.reverse_append]
    rfl

theorem blockAt_lt (s : SimpleAllocator) (page : Nat) (hbs : 0 < s.stats_.blockSize)
    (i j : Nat) (h : i < j) : blockAt s page i < blockAt s page j := by
  unfold blockAt
  have : i * s.stats_.blockSize < j * s.stats_.blockSize := Nat.mul_lt_mul_of_pos_right h hbs
  omega

/-- C11 (amended): after a successful page acquisition with `objectsPerPage = N`
at least 1 and objects of at least 8 bytes, the free-list head is the last
(highest-address) block of the new page, following the links from it visits the
`N` blocks of the page in strictly descending address order, the lowest block
links to the free-list head from before the acquisition, and `pagesInUse` has
grown by 1 and `freeObjects` by `N` in the counters' arithmetic. -/
theorem page_seeding_free_list (d : Decls) (s : SimpleAllocator)
    (hN : 1 ≤ s.config_.objectsPerPage) (hos : 8 ≤ s.stats_.objectSize)
    (hbs : s.stats_.blockSize
      = s.stats_.objectSize + 2 * s.config_.padBytesSize + s.config_.headerSize)
    (hF : s.pFreeList_ < 2 ^ 64)
    (hfit : blockAt s (s.backend.rawPage s.pageReqs) s.config_.objectsPerPage ≤ 2 ^ 64)
    (hok : (allocateNewPage d s).1 = .ok ()) :
    (allocateNewPage d s).2.pFreeList_
      = blockAt s (s.backend.rawPage s.pageReqs) (s.config_.objectsPerPage - 1) ∧
    freeListFrom (allocateNewPage d s).2.mem s.config_.objectsPerPage
        (allocateNewPage d s).2.pFreeList_
      = (List.range s.config_.objectsPerPage).reverse.map
          (blockAt s (s.backend.rawPage s.pageReqs)) ∧
    (freeListFrom (allocateNewPage d s).2.mem s.config_.objectsPerPage
        (allocateNewPage d s).2.pFreeList_).Pairwise (fun a b => b < a) ∧
    readPtr (allocateNewPage d s).2.mem (blockAt s (s.backend.rawPage s.pageReqs) 0)
      = s.pFreeList_ ∧
    (allocateNewPage d s).2.stats_.pagesInUse
      = (s.stats_.pagesInUse + 1) % 2 ^ d.counterBits ∧
    (allocateNewPage d s).2.stats_.freeObjects
      = (s.stats_.freeObjects + s.config_.objectsPerPage) % 2 ^ d.counterBits := by
  obtain ⟨hz, hm, hf⟩ := allocateNewPage_ok_form d s hok
  obtain ⟨n, hn⟩ : ∃ n, s.config_.objectsPerPage = n + 1 :=
    ⟨s.config_.objectsPerPage - 1, by omega⟩
  have hbs' : s.stats_.objectSize + s.config_.padBytesSize ≤ s.stats_.blockSize := by omega
  have hpos : 0 < s.stats_.blockSize := by omega
  have hlinks := seedLoop_links d s hos hbs' hF s.config_.objectsPerPage 0
    (s.backend.rawPage s.pageReqs + (s.config_.interAlignBytesSize + s.config_.headerSize
      + s.config_.padBytesSize + PTR_BYTES)) 0 0
    (writePtr (writePtr s.mem (s.backend.rawPage s.pageReqs) (s.backend.rawPage s.pageReqs))
      (s.backend.rawPage s.pageReqs) s.pPageList_)
  rw [← hm] at hlinks
  have hhead : (allocateNewPage d s).2.pFreeList_
      = blockAt s (s.backend.rawPage s.pageReqs) (s.config_.objectsPerPage - 1) := by
    rw [hf, hn, seedLoop_head]
    rfl
  have hlist : freeListFrom (allocateNewPage d s).2.mem s.config_.objectsPerPage
        (allocateNewPage d s).2.pFreeList_
      = (List.range s.config_.objectsPerPage).reverse.map
          (blockAt s (s.backend.rawPage s.pageReqs)) := by
    rw [hhead, hn, Nat.add_sub_cancel]
    apply freeListFrom_chain
    · intro j _
      unfold blockAt
      have : PTR_BYTES = 8 := rfl
      omega
    · intro j hj
      have := hlinks (j + 1) (by omega) (by decide) hfit
      rw [if_neg (Nat.succ_ne_zero j), Nat.add_sub_cancel] at this
      exact this
  refine ⟨hhead, hlist, ?_, ?_, ?_, ?_⟩
  · rw [hlist, List.pairwise_map, List.pairwise_reverse]
    exact (List.pairwise_lt_range _).imp (fun h => blockAt_lt s _ hpos _ _ h)
  · have := hlinks 0 (by omega) (by decide) hfit
    rw [if_pos rfl, if_pos rfl, Nat.zero_mul, Nat.add_zero] at this
    unfold blockAt
    rw [Nat.zero_mul, Nat.add_zero]
    exact this
  · rcases allocateNewPage_stats d s with ⟨⟨e, he⟩, _⟩ | ⟨_, h⟩
    · rw [hok] at he
      cases he
    · rw [h]
      rfl
  · rcases allocateNewPage_stats d s with ⟨⟨e, he⟩, _⟩ | ⟨_, h⟩
    · rw [hok] at he
      cases he
    · rw [h]
      rfl

/-- Witness for C11: the first page of the padded allocator, at 4096, is seeded
with the free list 4170, 4149, 4128, 4107, whose last block links to the null
head from before. -/
theorem page_seeding_free_list_witness :
    (allocateNewPage stdDecls paddedInit).1 = .ok () ∧
    (allocateNewPage stdDecls paddedInit).2.pFreeList_ = 4170 ∧
    freeListFrom (allocateNewPage stdDecls paddedInit).2.mem 4
        (allocateNewPage stdDecls paddedInit).2.pFreeList_ = [4170, 4149, 4128, 4107] ∧
    (freeListFrom (allocateNewPage stdDecls paddedInit).2.mem 4
        (allocateNewPage stdDecls paddedInit).2.pFreeList_).Pairwise (fun a b => b < a) ∧
    readPtr (allocateNewPage stdDecls paddedInit).2.mem 4107 = 0 ∧
    (allocateNewPage stdDecls paddedInit).2.stats_.pagesInUse = 1 ∧
    (allocateNewPage stdDecls paddedInit).2.stats_.freeObjects = 4 :=
  ⟨rfl, page_seeding_free_list stdDecls paddedInit (by decide) (by decide) rfl (by decide)
    (by decide) rfl⟩

/-- C11 (as stated, refuted): with 4-byte objects, three per page, the page
acquisition succeeds and stays inside the 24 bytes of the page, but the links
of the two lower blocks are overwritten by the seeding of their upper
neighbours: following the links from the head 4112 gives 4108 and then
17643725656072 instead of block 4104, and block 4104 links to 17626545782784
instead of the null free-list head from before. -/
theorem page_seeding_small_objects :
    (allocateNewPage stdDecls smallInit).1 = .ok () ∧
    smallInit.pFreeList_ = 0 ∧
    (allocateNewPage stdDecls smallInit).2.stats_.pageSize = 24 ∧
    (List.range 3).reverse.map (blockAt smallInit 4096) = [4112, 4108, 4104] ∧
    freeListFrom (allocateNewPage stdDecls smallInit).2.mem 3
        (allocateNewPage stdDecls smallInit).2.pFreeList_ = [4112, 4108, 17643725656072] ∧
    readPtr (allocateNewPage stdDecls smallInit).2.mem 4104 = 17626545782784 :=
  ⟨rfl, rfl, rfl, rfl, rfl, rfl⟩

/-- C12 (amended): after every successful page acquisition the first
pointer-sized word of the new page holds the page-list head from before, that
is the address of the previously newest page or null, and the new page is the
head of the page list. -/
theorem page_list_link (d : Decls) (s : SimpleAllocator) (hP : s.pPageList_ < 2 ^ 64)
    (hok : (allocateNewPage d s).1 = .ok ()) :
    (allocateNewPage d s).2.pPageList_ = s.backend.rawPage s.pageReqs ∧
    readPtr (allocateNewPage d s).2.mem (s.backend.rawPage s.pageReqs) = s.pPageList_ := by
  obtain ⟨hz, hm, _⟩ := allocateNewPage_ok_form d s hok
  constructor
  · unfold allocateNewPage at hok ⊢
    split
    · rename_i hlim
      rw [if_pos hlim] at hok
      cases hok
    · dsimp only
      rw [if_neg hz]
  · rw [hm, ← readPtr_writePtr (writePtr s.mem (s.backend.rawPage s.pageReqs)
      (s.backend.rawPage s.pageReqs)) (s.backend.rawPage s.pageReqs) s.pPageList_ hP]
    apply readPtr_congr
    intro k hk
    have : PTR_BYTES = 8 := rfl
    rw [seedLoop_frame d s _ _ _ _ _ _ _ (by omega), readPtr_writePtr _ _ _ hP]

/-- Witness for C12: when the padded allocator has handed out the four blocks
of its first page at 4096, the page acquired next, at 8192, becomes the head of
the page list and its first word holds 4096. -/
theorem page_list_link_witness :
    (run stdDecls paddedStart fourAllocs).pPageList_ = 4096 ∧
    (allocateNewPage stdDecls (run stdDecls paddedStart fourAllocs)).1 = .ok () ∧
    (allocateNewPage stdDecls (run stdDecls paddedStart fourAllocs)).2.pPageList_ = 8192 ∧
    readPtr (allocateNewPage stdDecls (run stdDecls paddedStart fourAllocs)).2.mem 8192
      = 4096 :=
  ⟨rfl, rfl,
    page_list_link stdDecls (run stdDecls paddedStart fourAllocs) (by decide) rfl⟩

/-- C12 (as stated, refuted): after the acquisition of the page at 8192 its
first word holds 4096, the address of the older page, not 8192; and after the
acquisition of the very first page at 4096 its first word holds null. -/
theorem page_first_word :
    (allocateNewPage stdDecls (run stdDecls paddedStart fourAllocs)).1 = .ok () ∧
    (allocateNewPage stdDecls (run stdDecls paddedStart fourAllocs)).2.pPageList_ = 8192 ∧
    readPtr (allocateNewPage stdDecls (run stdDecls paddedStart fourAllocs)).2.mem 8192
      ≠ 8192 ∧
    (allocateNewPage stdDecls paddedInit).2.pPageList_ = 4096 ∧
    readPtr (allocateNewPage stdDecls paddedInit).2.mem 4096 = 0 :=
  ⟨rfl, rfl, by decide, rfl, rfl⟩

/-- C13 (the code at the failing input): with four left-align bytes, a five-byte
header and two pad bytes, the page at 4096 is seeded with the blocks 4111 and
4136, and the second `allocate` returns the first block, 4111: offset
8 + 5 + 2 = 15 from the page start, not 8 + 4 + 5 + 2 = 19. -/
theorem first_block_offset_left_aligned :
    construct stdDecls stdBackend zeroMem 16 leftAlignedConfig = .ok leftAlignedStart ∧
    freeListFrom leftAlignedStart.mem 2 leftAlignedStart.pFreeList_ = [4136, 4111] ∧
    (allocateN stdDecls 2 leftAlignedStart).1 = [.ok 4136, .ok 4111] ∧
    leftAlignedStart.stats_.pageSize = 8 + 4 + 2 * 25 + 2 :=
  ⟨rfl, rfl, rfl, rfl⟩

/-- C14 (the code at the failing input): with four inter-block alignment bytes
and blocks of 25 bytes, the page at 4096 is seeded with the blocks 4115, 4140
and 4165, 25 bytes apart, not 25 + 4 = 29; the four alignment bytes lie once
before the first block. -/
theorem block_stride_inter_aligned :
    construct stdDecls stdBackend zeroMem 16 interAlignedConfig = .ok interAlignedStart ∧
    interAlignedStart.stats_.blockSize = 25 ∧
    freeListFrom interAlignedStart.mem 3 interAlignedStart.pFreeList_ = [4165, 4140, 4115] ∧
    (allocateN stdDecls 3 interAlignedStart).1 = [.ok 4165, .ok 4140, .ok 4115] ∧
    interAlignedStart.stats_.pageSize = 8 + 3 * 25 + 2 * 4 + 2 :=
  ⟨rfl, rfl, rfl, rfl, rfl⟩

theorem stamp_ok_value (d : Decls) (s : SimpleAllocator) (B B' : Nat) (pLabel : Option String)
    (h : (stamp d s B pLabel).1 = .ok B') : B' = B := by
  unfold stamp at h
  dsimp only at h
  repeat' split at h
  all_goals (cases h <;> rfl)

theorem takeHead_ok_form (d : Decls) (s : SimpleAllocator) (pLabel : Option String) (B : Nat)
    (h : (takeHead d s pLabel).1 = .ok B) :
    B = s.pFreeList_ ∧ B ≠ 0 ∧ corruptionCheck d s B = .ok () ∧
    takeHead d s pLabel = stamp d { s with pFreeList_ := readPtr s.mem B } B pLabel := by
  unfold takeHead at h ⊢
  dsimp only at h ⊢
  by_cases hF : s.pFreeList_ = 0
  · rw [if_pos hF] at h
    cases h
  · rw [if_neg hF] at h ⊢
    cases hc : corruptionCheck d s s.pFreeList_ with
    | error e1 =>
      rw [hc] at h
      cases h
    | ok u =>
      rw [hc] at h
      dsimp only at h ⊢
      have hB := stamp_ok_value d _ _ _ _ h
      subst hB
      exact ⟨rfl, hF, hc, rfl⟩

theorem allocate_ok_form (d : Decls) (s : SimpleAllocator) (pLabel : Option String) (B : Nat)
    (h : (allocate d s pLabel).1 = .ok B) :
    B = (beforePop d s).pFreeList_ ∧ B ≠ 0 ∧ corruptionCheck d (beforePop d s) B = .ok () ∧
    allocate d s pLabel
      = stamp d { beforePop d s with pFreeList_ := readPtr (beforePop d s).mem B } B pLabel := by
  unfold allocate at h ⊢
  unfold beforePop
  dsimp only at h ⊢
  by_cases hF : s.pFreeList_ = 0
  · rw [if_pos hF] at h ⊢
    rw [if_pos hF]
    generalize allocateNewPage d s = r at h ⊢
    obtain ⟨r1, s1⟩ := r
    cases r1 with
    | error e => cases h
    | ok u => exact takeHead_ok_form d s1 pLabel B h
  · rw [if_neg hF] at h ⊢
    rw [if_neg hF]
    exact takeHead_ok_form d s pLabel B h

theorem beforePop_config (d : Decls) (s : SimpleAllocator) :
    (beforePop d s).config_ = s.config_ := by
  unfold beforePop
  split
  · exact allocateNewPage_config d s
  · rfl

theorem beforePop_objectSize (d : Decls) (s : SimpleAllocator) :
    (beforePop d s).stats_.objectSize = s.stats_.objectSize := by
  unfold beforePop
  split
  · exact (allocateNewPage_sizes d s).1
  · rfl

theorem stamp_mem_plain (d : Decls) (s : SimpleAllocator) (B : Nat) (pLabel : Option String)
    (h1 : s.config_.headerType ≠ .EXTENDED_HEADER)
    (h2 : s.config_.headerType ≠ .EXTERNAL_HEADER) :
    (stamp d s B pLabel).2.mem
      = writeByte (writeByte (memset s.mem B d.ALLOCATED_PATTERN s.stats_.objectSize)
          (B - s.config_.padBytesSize - s.config_.headerSize) (d.incr s.stats_.allocations))
        (B - s.config_.padBytesSize - 1) 1 := by
  unfold stamp
  dsimp only
  rw [if_neg h1, if_neg h2]

theorem stamp_mem_extended (d : Decls) (s : SimpleAllocator) (B : Nat)
    (pLabel : Option String) (h1 : s.config_.headerType = .EXTENDED_HEADER) :
    (stamp d s B pLabel).2.mem
      = writeByte (writeU16 (writeByte (memset s.mem B d.ALLOCATED_PATTERN s.stats_.objectSize)
          (B - s.config_.padBytesSize - s.config_.headerSize)
          (memset s.mem B d.ALLOCATED_PATTERN s.stats_.objectSize
            (B - s.config_.padBytesSize - s.config_.headerSize) + 1))
          (B - s.config_.padBytesSize - s.config_.headerSize + 2) (d.incr s.stats_.allocations))
        (B - s.config_.padBytesSize - 1) 1 := by
  unfold stamp
  dsimp only
  rw [if_pos h1]

theorem free_ok_form (d : Decls) (s : SimpleAllocator) (pObj : Nat)
    (h : (free d s pObj).1 = .ok ()) :
    pObj ≠ 0 ∧ s.stats_.objectsInUse ≠ 0 ∧ corruptionCheck d s pObj = .ok () := by
  unfold free at h
  by_cases h0 : pObj = 0
  · rw [if_pos h0] at h
    cases h
  · rw [if_neg h0] at h
    by_cases hU : s.stats_.objectsInUse = 0
    · rw [if_pos hU] at h
      cases h
    · rw [if_neg hU] at h
      cases hc : corruptionCheck d s pObj with
      | error e1 =>
        rw [hc] at h
        cases h
      | ok u => exact ⟨h0, hU, rfl⟩

theorem free_mem_plain (d : Decls) (s : SimpleAllocator) (pObj : Nat)
    (h : (free d s pObj).1 = .ok ())
    (h1 : s.config_.headerType ≠ .EXTENDED_HEADER)
    (h2 : s.config_.headerType ≠ .EXTERNAL_HEADER) :
    (free d s pObj).2.mem
      = writeByte (writeByte (writePtr (memset s.mem pObj d.FREED_PATTERN s.stats_.objectSize)
          pObj s.pFreeList_) (pObj - s.config_.padBytesSize - s.config_.headerSize) 0)
        (if s.config_.padBytesSize > 0 then pObj - 1 - s.config_.padBytesSize else pObj - 1)
        0 := by
  obtain ⟨h0, hU, hc⟩ := free_ok_form d s pObj h
  unfold free
  rw [if_neg h0, if_neg hU, hc]
  dsimp only
  rw [if_neg h1, if_neg h2]

theorem free_mem_extended (d : Decls) (s : SimpleAllocator) (pObj : Nat)
    (h : (free d s pObj).1 = .ok ())
    (h1 : s.config_.headerType = .EXTENDED_HEADER) :
    (free d s pObj).2.mem
      = writeByte (writeU16 (writePtr (memset s.mem pObj d.FREED_PATTERN s.stats_.objectSize)
          pObj s.pFreeList_) (pObj - s.config_.padBytesSize - s.config_.headerSize + 2) 0)
        (if s.config_.padBytesSize > 0 then pObj - 1 - s.config_.padBytesSize else pObj - 1)
        0 := by
  obtain ⟨h0, hU, hc⟩ := free_ok_form d s pObj h
  unfold free
  rw [if_neg h0, if_neg hU, hc]
  dsimp only
  rw [if_pos h1]

/-- C15 (amended): under the basic header scheme with a header of at least two
bytes, after a successful `allocate` the first header byte of the returned
block holds the cumulative allocation count, this allocation included, modulo
256, and after a successful `free` of a block its first header byte is zero. -/
theorem basic_header_byte (d : Decls) (s : SimpleAllocator)
    (hT : s.config_.headerType = .BASIC_HEADER) (hhs : 2 ≤ s.config_.headerSize) :
    (∀ pLabel B, (allocate d s pLabel).1 = .ok B →
      s.config_.padBytesSize + s.config_.headerSize ≤ B →
      (allocate d s pLabel).2.mem (B - s.config_.padBytesSize - s.config_.headerSize)
        = (allocate d s pLabel).2.stats_.allocations % 256) ∧
    (∀ B, (free d s B).1 = .ok () →
      (free d s B).2.mem (B - s.config_.padBytesSize - s.config_.headerSize) = 0) := by
  have h1 : s.config_.headerType ≠ .EXTENDED_HEADER := by rw [hT]; decide
  have h2 : s.config_.headerType ≠ .EXTERNAL_HEADER := by rw [hT]; decide
  constructor
  · intro pLabel B hok hB
    obtain ⟨_, _, _, hform⟩ := allocate_ok_form d s pLabel B hok
    have hc := beforePop_config d s
    rw [hform, (stamp_fields d _ B pLabel).1,
      stamp_mem_plain d _ B pLabel (by rw [← hc] at h1; exact h1) (by rw [← hc] at h2; exact h2)]
    dsimp only
    rw [hc, writeByte_away _ _ _ _ (by omega), writeByte_at]
  · intro B hok
    rw [free_mem_plain d s B hok h1 h2]
    by_cases hf : B - s.config_.padBytesSize - s.config_.headerSize
        = (if s.config_.padBytesSize > 0 then B - 1 - s.config_.padBytesSize else B - 1)
    · rw [hf, writeByte_at]
    · rw [writeByte_away _ _ _ _ hf, writeByte_at]

/-- Witness for C15: with the five-byte basic header the second `allocate`
returns block 4161 and its first header byte, at 4154, holds 2; after
`free(4161)` it holds 0. -/
theorem basic_header_byte_witness :
    (allocate stdDecls (allocate stdDecls basicStart none).2 none).1 = .ok 4161 ∧
    (allocate stdDecls (allocate stdDecls basicStart none).2 none).2.stats_.allocations = 2 ∧
    (allocate stdDecls (allocate stdDecls basicStart none).2 none).2.mem (4161 - 2 - 5)
      = 2 % 256 ∧
    (free stdDecls (allocate stdDecls (allocate stdDecls basicStart none).2 none).2 4161).1
      = .ok () ∧
    (free stdDecls (allocate stdDecls (allocate stdDecls basicStart none).2 none).2 4161).2.mem
      (4161 - 2 - 5) = 0 :=
  ⟨rfl, rfl,
    (basic_header_byte stdDecls (allocate stdDecls basicStart none).2 rfl (by decide)).1
      none 4161 rfl (by decide),
    rfl,
    (basic_header_byte stdDecls (allocate stdDecls (allocate stdDecls basicStart none).2 none).2
      rfl (by decide)).2 4161 rfl⟩

/-- C15 (as stated, refuted): with a one-byte basic header the second
`allocate` returns block 4149 with the allocation count at 2, and the header
byte, at 4149 - 2 - 1, holds 1: the flag byte is the same byte and is written
after the allocation number. -/
theorem basic_header_one_byte :
    (allocateN stdDecls 2 paddedStart).1 = [.ok 4170, .ok 4149] ∧
    paddedStart.config_.headerType = .BASIC_HEADER ∧
    paddedStart.config_.headerSize = 1 ∧
    (allocateN stdDecls 2 paddedStart).2.stats_.allocations = 2 ∧
    (allocateN stdDecls 2 paddedStart).2.mem (4149 - 2 - 1) = 1 :=
  ⟨rfl, rfl, rfl, rfl, rfl⟩

theorem writeU16_lo (m : Mem) (a v : Nat) : writeU16 m a v a = v % 256 := by
  unfold writeU16
  rw [if_pos rfl]

theorem writeU16_hi (m : Mem) (a v : Nat) : writeU16 m a v (a + 1) = (v / 256) % 256 := by
  unfold writeU16
  rw [if_neg (by omega), if_pos rfl]

theorem free_flag_address (s : SimpleAllocator) (B : Nat) :
    (if s.config_.padBytesSize > 0 then B - 1 - s.config_.padBytesSize else B - 1)
      = B - s.config_.padBytesSize - 1 := by
  split <;> omega

/-- C16 (amended): under the extended header scheme with a header of at least
five bytes, every successful `allocate` leaves the first header byte of the
returned block one higher, modulo 256, than it was when the block was taken
from the free list, and stores the cumulative allocation count, this
allocation included, modulo 65536 in the two bytes at header offset 2. -/
theorem extended_header_stamp (d : Decls) (s : SimpleAllocator)
    (hT : s.config_.headerType = .EXTENDED_HEADER) (hhs : 5 ≤ s.config_.headerSize)
    (pLabel : Option String) (B : Nat) (hok : (allocate d s pLabel).1 = .ok B)
    (hB : s.config_.padBytesSize + s.config_.headerSize ≤ B) :
    (allocate d s pLabel).2.mem (B - s.config_.padBytesSize - s.config_.headerSize)
      = ((beforePop d s).mem (B - s.config_.padBytesSize - s.config_.headerSize) + 1) % 256 ∧
    (allocate d s pLabel).2.mem (B - s.config_.padBytesSize - s.config_.headerSize + 2)
        + 256 * (allocate d s pLabel).2.mem
          (B - s.config_.padBytesSize - s.config_.headerSize + 3)
      = (allocate d s pLabel).2.stats_.allocations % 65536 := by
  obtain ⟨_, _, _, hform⟩ := allocate_ok_form d s pLabel B hok
  have hc := beforePop_config d s
  rw [hform, (stamp_fields d _ B pLabel).1,
    stamp_mem_extended d _ B pLabel (by rw [← hc] at hT; exact hT)]
  dsimp only
  rw [hc]
  constructor
  · rw [writeByte_away _ _ _ _ (by omega), writeU16_away _ _ _ _ ⟨by omega, by omega⟩,
      writeByte_at, memset_away _ _ _ _ _ (Or.inl (by omega))]
  · rw [writeByte_away _ _ _ _ (by omega), writeByte_away _ _ _ _ (by omega), writeU16_lo,
      writeU16_hi]
    omega

/-- Witness for C16: with the seven-byte extended header the second `allocate`
returns block 4167; its first header byte, at 4158, goes from 0 to 1 and the
two bytes at 4160 hold the allocation count 2. -/
theorem extended_header_stamp_witness :
    (allocate stdDecls (allocate stdDecls extendedStart none).2 none).1 = .ok 4167 ∧
    (beforePop stdDecls (allocate stdDecls extendedStart none).2).mem (4167 - 2 - 7) = 0 ∧
    (allocate stdDecls (allocate stdDecls extendedStart none).2 none).2.stats_.allocations = 2 ∧
    ((allocate stdDecls (allocate stdDecls extendedStart none).2 none).2.mem (4167 - 2 - 7)
      = ((beforePop stdDecls (allocate stdDecls extendedStart none).2).mem (4167 - 2 - 7) + 1)
        % 256 ∧
    (allocate stdDecls (allocate stdDecls extendedStart none).2 none).2.mem (4167 - 2 - 7 + 2)
        + 256 * (allocate stdDecls (allocate stdDecls extendedStart none).2 none).2.mem
          (4167 - 2 - 7 + 3)
      = (allocate stdDecls (allocate stdDecls extendedStart none).2 none).2.stats_.allocations
        % 65536) :=
  ⟨rfl, rfl, rfl,
    extended_header_stamp stdDecls (allocate stdDecls extendedStart none).2 rfl (by decide)
      none 4167 rfl (by decide)⟩

/-- C16 (as stated, refuted): with a four-byte extended header the first
`allocate` returns block 4182 with the allocation count at 1, and the two
bytes at header offset 2 hold 1 + 256 * 1 = 257: the flag byte is the upper
byte of the index and is written after it. -/
theorem extended_header_four_bytes :
    (allocate stdDecls extendedShortStart none).1 = .ok 4182 ∧
    extendedShortStart.config_.headerType = .EXTENDED_HEADER ∧
    (allocate stdDecls extendedShortStart none).2.stats_.allocations = 1 ∧
    (allocate stdDecls extendedShortStart none).2.mem (4182 - 2 - 4 + 2)
      + 256 * (allocate stdDecls extendedShortStart none).2.mem (4182 - 2 - 4 + 3) = 257 :=
  ⟨rfl, rfl, rfl, rfl⟩

/-- C17 (amended): under the extended header scheme with a header of at least
two bytes, a successful `free` of a block leaves the block's first header byte,
the one `allocate` increments, as it was, and zeroes the two bytes at header
offset 2 and the flag byte before the pre-pad region. -/
theorem extended_free_header (d : Decls) (s : SimpleAllocator)
    (hT : s.config_.headerType = .EXTENDED_HEADER) (hhs : 2 ≤ s.config_.headerSize)
    (B : Nat) (hok : (free d s B).1 = .ok ())
    (hB : s.config_.padBytesSize + s.config_.headerSize ≤ B) :
    (free d s B).2.mem (B - s.config_.padBytesSize - s.config_.headerSize)
      = s.mem (B - s.config_.padBytesSize - s.config_.headerSize) ∧
    (free d s B).2.mem (B - s.config_.padBytesSize - s.config_.headerSize + 2) = 0 ∧
    (free d s B).2.mem (B - s.config_.padBytesSize - s.config_.headerSize + 3) = 0 ∧
    (free d s B).2.mem (B - s.config_.padBytesSize - 1) = 0 := by
  rw [free_mem_extended d s B hok hT, free_flag_address]
  refine ⟨?_, ?_, ?_, ?_⟩
  · rw [writeByte_away _ _ _ _ (by omega), writeU16_away _ _ _ _ ⟨by omega, by omega⟩,
      writePtr_away _ _ _ _ (Or.inl (by omega)), memset_away _ _ _ _ _ (Or.inl (by omega))]
  · by_cases hf : B - s.config_.padBytesSize - s.config_.headerSize + 2
        = B - s.config_.padBytesSize - 1
    · rw [hf, writeByte_at]
    · rw [writeByte_away _ _ _ _ hf, writeU16_lo]
  · by_cases hf : B - s.config_.padBytesSize - s.config_.headerSize + 3
        = B - s.config_.padBytesSize - 1
    · rw [hf, writeByte_at]
    · rw [writeByte_away _ _ _ _ hf, writeU16_hi]
  · rw [writeByte_at]

/-- Witness for C17: with the seven-byte extended header, after `allocate` has
returned block 4194 its first header byte, at 4185, holds 1; `free(4194)`
leaves it at 1 and zeroes the bytes at 4187, 4188 and the flag at 4191. -/
theorem extended_free_header_witness :
    (free stdDecls (allocate stdDecls extendedStart none).2 4194).1 = .ok () ∧
    (allocate stdDecls extendedStart none).2.mem (4194 - 2 - 7) = 1 ∧
    ((free stdDecls (allocate stdDecls extendedStart none).2 4194).2.mem (4194 - 2 - 7)
      = (allocate stdDecls extendedStart none).2.mem (4194 - 2 - 7) ∧
    (free stdDecls (allocate stdDecls extendedStart none).2 4194).2.mem (4194 - 2 - 7 + 2) = 0 ∧
    (free stdDecls (allocate stdDecls extendedStart none).2 4194).2.mem (4194 - 2 - 7 + 3) = 0 ∧
    (free stdDecls (allocate stdDecls extendedStart none).2 4194).2.mem (4194 - 2 - 1) = 0) :=
  ⟨rfl, rfl,
    extended_free_header stdDecls (allocate stdDecls extendedStart none).2 rfl (by decide)
      4194 rfl (by decide)⟩

/-- C17 (as stated, refuted): with the seven-byte extended header, `allocate`
returns block 4194 and raises its allocation-count byte at 4185 to 1, and after
the successful `free(4194)` that byte still holds 1, not 0. -/
theorem extended_free_count_byte :
    (allocate stdDecls extendedStart none).1 = .ok 4194 ∧
    extendedStart.mem 4185 = 0 ∧
    (allocate stdDecls extendedStart none).2.mem 4185 = 1 ∧
    (free stdDecls (allocate stdDecls extendedStart none).2 4194).1 = .ok () ∧
    (free stdDecls (allocate stdDecls extendedStart none).2 4194).2.mem 4185 = 1 :=
  ⟨rfl, rfl, rfl, rfl, rfl⟩

theorem stamp_external_ok (d : Decls) (s : SimpleAllocator) (B B' : Nat)
    (pLabel : Option String) (hT : s.config_.headerType = .EXTERNAL_HEADER)
    (h : (stamp d s B pLabel).1 = .ok B') :
    ∃ label, pLabel = some label ∧
      (if (s.mem (B + 8) == d.UNALLOCATED_PATTERN) = true then s.backend.rawInfo s.infoReqs
        else readPtr (memset s.mem B d.ALLOCATED_PATTERN s.stats_.objectSize)
          (B - s.config_.padBytesSize - s.config_.headerSize)) ≠ 0 ∧
      ((s.mem (B + 8) == d.UNALLOCATED_PATTERN) = false →
        s.infos (readPtr (memset s.mem B d.ALLOCATED_PATTERN s.stats_.objectSize)
          (B - s.config_.padBytesSize - s.config_.headerSize)) ≠ none) ∧
      (stamp d s B pLabel).2.mem
        = (if (s.mem (B + 8) == d.UNALLOCATED_PATTERN) = true then
            writePtr (memset s.mem B d.ALLOCATED_PATTERN s.stats_.objectSize)
              (B - s.config_.padBytesSize - s.config_.headerSize)
              (s.backend.rawInfo s.infoReqs)
          else memset s.mem B d.ALLOCATED_PATTERN s.stats_.objectSize) ∧
      (stamp d s B pLabel).2.infoReqs
        = (if (s.mem (B + 8) == d.UNALLOCATED_PATTERN) = true then s.infoReqs + 1
          else s.infoReqs) ∧
      (stamp d s B pLabel).2.infos
        = setInfo s.infos
            (if (s.mem (B + 8) == d.UNALLOCATED_PATTERN) = true then s.backend.rawInfo s.infoReqs
              else readPtr (memset s.mem B d.ALLOCATED_PATTERN s.stats_.objectSize)
                (B - s.config_.padBytesSize - s.config_.headerSize))
            ⟨true, d.incr s.stats_.allocations, some label⟩ := by
  have hne : s.config_.headerType ≠ .EXTENDED_HEADER := by rw [hT]; decide
  unfold stamp at h ⊢
  dsimp only at h ⊢
  rw [if_neg hne, if_pos hT] at h ⊢
  cases hfr : (s.mem (B + 8) == d.UNALLOCATED_PATTERN)
  · simp only [hfr, Bool.false_eq_true, if_false, Bool.false_and, Bool.not_false,
      Bool.true_and] at h ⊢
    by_cases hu : ((readPtr (memset s.mem B d.ALLOCATED_PATTERN s.stats_.objectSize)
        (B - s.config_.padBytesSize - s.config_.headerSize) == 0
        || (s.infos (readPtr (memset s.mem B d.ALLOCATED_PATTERN s.stats_.objectSize)
          (B - s.config_.padBytesSize - s.config_.headerSize))).isNone) = true)
    · rw [if_pos hu] at h
      cases h
    · rw [if_neg hu] at h ⊢
      cases pLabel with
      | none => cases h
      | some label =>
        refine ⟨label, rfl, ?_, ?_, rfl, rfl, rfl⟩
        · intro hz
          apply hu
          rw [hz]
          rfl
        · intro _ hnone
          apply hu
          rw [hnone]
          simp
  · simp only [hfr, if_true, Bool.true_and, Bool.not_true, Bool.false_and, Bool.or_false] at h ⊢
    by_cases hb : ((s.backend.rawInfo s.infoReqs == 0 && s.config_.useCPPMemManager) = true)
    · rw [if_pos hb] at h
      cases h
    · rw [if_neg hb] at h ⊢
      by_cases hu : ((s.backend.rawInfo s.infoReqs == 0) = true)
      · rw [if_pos hu] at h
        cases h
      · rw [if_neg hu] at h ⊢
        cases pLabel with
        | none => cases h
        | some label =>
          refine ⟨label, rfl, ?_, ?_, rfl, rfl, rfl⟩
          · intro hz
            apply hu
            rw [hz]
            rfl
          · intro hcontra
            cases hcontra

theorem free_external_ok (d : Decls) (s : SimpleAllocator) (B : Nat)
    (hT : s.config_.headerType = .EXTERNAL_HEADER) (h : (free d s B).1 = .ok ()) :
    ∃ r, s.infos (readPtr (writePtr (memset s.mem B d.FREED_PATTERN s.stats_.objectSize) B
          s.pFreeList_) (B - s.config_.padBytesSize - s.config_.headerSize)) = some r ∧
      (free d s B).2.mem
        = writePtr (memset s.mem B d.FREED_PATTERN s.stats_.objectSize) B s.pFreeList_ ∧
      (free d s B).2.infoReqs = s.infoReqs ∧
      (free d s B).2.infos
        = setInfo s.infos (readPtr (writePtr (memset s.mem B d.FREED_PATTERN
            s.stats_.objectSize) B s.pFreeList_)
            (B - s.config_.padBytesSize - s.config_.headerSize))
          ⟨false, r.allocNum, none⟩ := by
  have hne : s.config_.headerType ≠ .EXTENDED_HEADER := by rw [hT]; decide
  obtain ⟨h0, hU, hc⟩ := free_ok_form d s B h
  unfold free at h ⊢
  rw [if_neg h0, if_neg hU, hc] at h ⊢
  dsimp only at h ⊢
  rw [if_neg hne, if_pos hT] at h ⊢
  split at h
  · cases h
  · rename_i r hr
    rw [hr]
    exact ⟨r, rfl, rfl, rfl, rfl⟩

/-- C19 (amended): for every non-external header scheme the byte immediately
before the pre-pad region of a block is 1 after a successful `allocate` of the
block and 0 after a successful `free` of it.  Under the external scheme `free`
leaves that byte as it was, and so does `allocate` when the header has more
than eight bytes or the block is not taken for the first time; on a first
allocation with a header of one to eight bytes the record pointer is stored
over it. -/
theorem flag_byte (d : Decls) (s : SimpleAllocator) :
    (s.config_.headerType ≠ .EXTERNAL_HEADER →
      (∀ pLabel B, (allocate d s pLabel).1 = .ok B →
        (allocate d s pLabel).2.mem (B - s.config_.padBytesSize - 1) = 1) ∧
      (∀ B, (free d s B).1 = .ok () →
        (free d s B).2.mem (B - s.config_.padBytesSize - 1) = 0)) ∧
    (s.config_.headerType = .EXTERNAL_HEADER →
      (∀ pLabel B, (allocate d s pLabel).1 = .ok B →
        s.config_.padBytesSize + s.config_.headerSize ≤ B →
        (9 ≤ s.config_.headerSize ∨ (beforePop d s).mem (B + 8) ≠ d.UNALLOCATED_PATTERN) →
        (allocate d s pLabel).2.mem (B - s.config_.padBytesSize - 1)
          = (beforePop d s).mem (B - s.config_.padBytesSize - 1)) ∧
      (∀ B, (free d s B).1 = .ok () →
        (free d s B).2.mem (B - s.config_.padBytesSize - 1)
          = s.mem (B - s.config_.padBytesSize - 1))) := by
  have hc := beforePop_config d s
  constructor
  · intro hT
    constructor
    · intro pLabel B hok
      obtain ⟨_, _, _, hform⟩ := allocate_ok_form d s pLabel B hok
      rw [hform]
      by_cases hE : s.config_.headerType = .EXTENDED_HEADER
      · rw [stamp_mem_extended d _ B pLabel (by rw [← hc] at hE; exact hE)]
        dsimp only
        rw [hc, writeByte_at]
      · rw [stamp_mem_plain d _ B pLabel (by rw [← hc] at hE; exact hE)
          (by rw [← hc] at hT; exact hT)]
        dsimp only
        rw [hc, writeByte_at]
    · intro B hok
      by_cases hE : s.config_.headerType = .EXTENDED_HEADER
      · rw [free_mem_extended d s B hok hE, free_flag_address, writeByte_at]
      · rw [free_mem_plain d s B hok hE hT, free_flag_address, writeByte_at]
  · intro hT
    constructor
    · intro pLabel B hok hB hcase
      obtain ⟨_, hB0, _, hform⟩ := allocate_ok_form d s pLabel B hok
      rw [hform] at hok ⊢
      obtain ⟨_, _, _, _, hmem, _, _⟩ :=
        stamp_external_ok d _ B B pLabel (by rw [← hc] at hT; exact hT) hok
      rw [hmem]
      dsimp only
      rw [hc]
      split
      · rename_i hfr
        rcases hcase with h9 | hnf
        · rw [writePtr_away _ _ _ _ (Or.inr (by omega)),
            memset_away _ _ _ _ _ (Or.inl (by omega))]
        · exfalso
          apply hnf
          simpa using hfr
      · rw [memset_away _ _ _ _ _ (Or.inl (by omega))]
    · intro B hok
      obtain ⟨h0, _, _⟩ := free_ok_form d s B hok
      obtain ⟨_, _, hmem, _, _⟩ := free_external_ok d s B hT hok
      rw [hmem, writePtr_away _ _ _ _ (Or.inl (by omega)),
        memset_away _ _ _ _ _ (Or.inl (by omega))]

/-- Witness for C19: with the five-byte basic header the flag byte of block
4186, at 4183, is 1 after `allocate` and 0 after `free`; with the eight-byte
external header the second allocation of block 4198 and its `free` leave the
byte at 4195 as it was. -/
theorem flag_byte_witness :
    (allocate stdDecls basicStart none).1 = .ok 4186 ∧
    (allocate stdDecls basicStart none).2.mem (4186 - 2 - 1) = 1 ∧
    (free stdDecls (allocate stdDecls basicStart none).2 4186).2.mem (4186 - 2 - 1) = 0 ∧
    (free stdDecls (allocate stdDecls externalStart (some "a")).2 4198).2.mem (4198 - 2 - 1)
      = (allocate stdDecls externalStart (some "a")).2.mem (4198 - 2 - 1) ∧
    (allocate stdDecls
        (free stdDecls (allocate stdDecls externalStart (some "a")).2 4198).2 (some "b")).2.mem
        (4198 - 2 - 1)
      = (beforePop stdDecls
          (free stdDecls (allocate stdDecls externalStart (some "a")).2 4198).2).mem
        (4198 - 2 - 1) :=
  ⟨rfl,
    ((flag_byte stdDecls basicStart).1 (by decide)).1 none 4186 rfl,
    ((flag_byte stdDecls (allocate stdDecls basicStart none).2).1 (by decide)).2 4186 rfl,
    ((flag_byte stdDecls (allocate stdDecls externalStart (some "a")).2).2 rfl).2 4198 rfl,
    ((flag_byte stdDecls
        (free stdDecls (allocate stdDecls externalStart (some "a")).2 4198).2).2 rfl).1
      (some "b") 4198 rfl (by decide) (Or.inr (by decide))⟩

/-- C19 (as stated, refuted): with the eight-byte external header, in memory
that held 0xFF, the first `allocate` returns block 4198 and the byte before its
pre-pad region, at 4195, goes from 0xFF to 0: it is the top byte of the record
pointer 1000000 that `allocate` stores in the header. -/
theorem external_flag_byte_written :
    (allocate stdDecls externalStart (some "a")).1 = .ok 4198 ∧
    externalStart.config_.headerType = .EXTERNAL_HEADER ∧
    externalStart.mem (4198 - 2 - 1) = 0xFF ∧
    (allocate stdDecls externalStart (some "a")).2.mem (4198 - 2 - 1) = 0 ∧
    readPtr (allocate stdDecls externalStart (some "a")).2.mem (4198 - 2 - 8) = 1000000 :=
  ⟨rfl, rfl, rfl, rfl, rfl⟩

theorem seedLoop_succ_fill (d : Decls) (s : SimpleAllocator) (n i cur prev c : Nat) (m : Mem) :
    ∃ m1 : Mem, seedLoop d s (n + 1) i cur prev c m
      = seedLoop d s n (i + 1) (cur + s.stats_.blockSize) cur cur
          (writePtr (memset m1 cur d.UNALLOCATED_PATTERN s.stats_.objectSize) cur
            (if i = 0 then s.pFreeList_ else prev)) :=
  ⟨_, rfl⟩

theorem seedLoop_byte8 (d : Decls) (s : SimpleAllocator) (hos : 9 ≤ s.stats_.objectSize)
    (hbs : s.stats_.objectSize + s.config_.padBytesSize ≤ s.stats_.blockSize) (n : Nat) :
    ∀ (i cur prev c : Nat) (m : Mem) (j : Nat), j < n →
      (seedLoop d s n i cur prev c m).1 (cur + j * s.stats_.blockSize + 8)
        = d.UNALLOCATED_PATTERN % 256 := by
  induction n with
  | zero =>
    intro i cur prev c m j hj
    omega
  | succ n ih =>
    intro i cur prev c m j hj
    obtain ⟨m1, hform⟩ := seedLoop_succ_fill d s n i cur prev c m
    rw [hform]
    cases j with
    | zero =>
      rw [Nat.zero_mul, Nat.add_zero, seedLoop_frame d s n _ _ _ _ _ _ (by omega),
        writePtr_away _ _ _ _ (Or.inr (by omega)), memset_at _ _ _ _ _ ⟨by omega, by omega⟩]
    | succ j =>
      have e1 : cur + (j + 1) * s.stats_.blockSize
          = cur + s.stats_.blockSize + j * s.stats_.blockSize := by
        rw [Nat.succ_mul]
        omega
      rw [e1]
      exact ih _ _ _ _ _ j (by omega)

theorem setInfo_at (f : Nat → Option MemBlockInfo) (a : Nat) (r : MemBlockInfo) :
    setInfo f a r a = some r := by
  unfold setInfo
  rw [if_pos rfl]

/-- The external header scheme call by call, with objects of at least
nine bytes, a header of at least eight bytes and allocated and freed patterns
other than the unallocated pattern: page seeding leaves the unallocated pattern
in byte 8 of every block; `allocate` and `free` replace it, so it is there
exactly until the block's first allocation; a successful `allocate` of a block
with that byte unallocated creates a new record, stores its address in the
header slot and sets it to in use, the current allocation count and the label;
a successful `allocate` of any other block creates no record and sets the
record referenced by the header slot to in use, the current allocation count
and the label; a successful `free` sets the record referenced by the header
slot to not in use with no label and keeps record and slot. -/
theorem external_record_lifecycle (d : Decls) (s : SimpleAllocator)
    (hT : s.config_.headerType = .EXTERNAL_HEADER) (hhs : 8 ≤ s.config_.headerSize)
    (hos : 9 ≤ s.stats_.objectSize) (hU : d.UNALLOCATED_PATTERN < 256)
    (hA : d.ALLOCATED_PATTERN % 256 ≠ d.UNALLOCATED_PATTERN)
    (hFr : d.FREED_PATTERN % 256 ≠ d.UNALLOCATED_PATTERN) :
    ((allocateNewPage d s).1 = .ok () →
      s.stats_.objectSize + s.config_.padBytesSize ≤ s.stats_.blockSize →
      ∀ k, k < s.config_.objectsPerPage →
        (allocateNewPage d s).2.mem (blockAt s (s.backend.rawPage s.pageReqs) k + 8)
          = d.UNALLOCATED_PATTERN) ∧
    (∀ pLabel B, (allocate d s pLabel).1 = .ok B →
      s.config_.padBytesSize + s.config_.headerSize ≤ B →
      ∃ label, pLabel = some label ∧
        (allocate d s pLabel).2.mem (B + 8) ≠ d.UNALLOCATED_PATTERN ∧
        ((beforePop d s).mem (B + 8) = d.UNALLOCATED_PATTERN →
          (allocate d s pLabel).2.infoReqs = (beforePop d s).infoReqs + 1 ∧
          ((beforePop d s).backend.rawInfo (beforePop d s).infoReqs < 2 ^ 64 →
            readPtr (allocate d s pLabel).2.mem
                (B - s.config_.padBytesSize - s.config_.headerSize)
              = (beforePop d s).backend.rawInfo (beforePop d s).infoReqs) ∧
          (allocate d s pLabel).2.infos
              ((beforePop d s).backend.rawInfo (beforePop d s).infoReqs)
            = some ⟨true, (allocate d s pLabel).2.stats_.allocations, some label⟩) ∧
        ((beforePop d s).mem (B + 8) ≠ d.UNALLOCATED_PATTERN →
          (allocate d s pLabel).2.infoReqs = (beforePop d s).infoReqs ∧
          readPtr (allocate d s pLabel).2.mem
              (B - s.config_.padBytesSize - s.config_.headerSize)
            = readPtr (beforePop d s).mem
                (B - s.config_.padBytesSize - s.config_.headerSize) ∧
          (beforePop d s).infos (readPtr (beforePop d s).mem
              (B - s.config_.padBytesSize - s.config_.headerSize)) ≠ none ∧
          (allocate d s pLabel).2.infos (readPtr (beforePop d s).mem
              (B - s.config_.padBytesSize - s.config_.headerSize))
            = some ⟨true, (allocate d s pLabel).2.stats_.allocations, some label⟩)) ∧
    (∀ B, (free d s B).1 = .ok () →
      s.config_.padBytesSize + s.config_.headerSize ≤ B →
      (free d s B).2.mem (B + 8) ≠ d.UNALLOCATED_PATTERN ∧
      (free d s B).2.infoReqs = s.infoReqs ∧
      readPtr (free d s B).2.mem (B - s.config_.padBytesSize - s.config_.headerSize)
        = readPtr s.mem (B - s.config_.padBytesSize - s.config_.headerSize) ∧
      ∃ r, s.infos (readPtr s.mem (B - s.config_.padBytesSize - s.config_.headerSize))
          = some r ∧
        (free d s B).2.infos
            (readPtr s.mem (B - s.config_.padBytesSize - s.config_.headerSize))
          = some ⟨false, r.allocNum, none⟩) := by
  have hc := beforePop_config d s
  have ho := beforePop_objectSize d s
  refine ⟨?_, ?_, ?_⟩
  · intro hok hbs k hk
    obtain ⟨_, hm, _⟩ := allocateNewPage_ok_form d s hok
    rw [hm]
    unfold blockAt
    rw [seedLoop_byte8 d s hos hbs _ _ _ _ _ _ k hk, Nat.mod_eq_of_lt hU]
  · intro pLabel B hok hB
    obtain ⟨_, hB0, _, hform⟩ := allocate_ok_form d s pLabel B hok
    have hok' := hok
    rw [hform] at hok'
    obtain ⟨label, hl, hne0, hrec, hmem, hreq, hinf⟩ :=
      stamp_external_ok d _ B B pLabel (by rw [← hc] at hT; exact hT) hok'
    have hst := (stamp_fields d
      { beforePop d s with pFreeList_ := readPtr (beforePop d s).mem B } B pLabel).1
    rw [← hform] at hmem hreq hinf hst
    dsimp only at hne0 hrec hmem hreq hinf hst
    rw [hc, ho] at hne0 hrec hmem hinf
    have hslot : readPtr (memset (beforePop d s).mem B d.ALLOCATED_PATTERN s.stats_.objectSize)
        (B - s.config_.padBytesSize - s.config_.headerSize)
        = readPtr (beforePop d s).mem (B - s.config_.padBytesSize - s.config_.headerSize) := by
      apply readPtr_congr
      intro k hk
      rw [memset_away _ _ _ _ _ (Or.inl (by omega))]
    rw [hslot] at hne0 hrec hinf
    refine ⟨label, hl, ?_, ?_, ?_⟩
    · rw [hmem]
      split
      · rw [writePtr_away _ _ _ _ (Or.inr (by omega)),
          memset_at _ _ _ _ _ ⟨by omega, by omega⟩]
        exact hA
      · rw [memset_at _ _ _ _ _ ⟨by omega, by omega⟩]
        exact hA
    · intro hfresh
      have hfr : ((beforePop d s).mem (B + 8) == d.UNALLOCATED_PATTERN) = true := by
        rw [hfresh]
        simp
      rw [if_pos hfr] at hmem hreq hinf
      refine ⟨hreq, ?_, ?_⟩
      · intro hmade
        rw [hmem, readPtr_writePtr _ _ _ hmade]
      · rw [hinf, setInfo_at, hst]
    · intro hused
      have hfr : ¬ ((beforePop d s).mem (B + 8) == d.UNALLOCATED_PATTERN) = true := by
        simpa using hused
      rw [if_neg hfr] at hmem hreq hinf
      refine ⟨hreq, ?_, hrec (by simpa using hused), ?_⟩
      · rw [hmem, hslot]
      · rw [hinf, setInfo_at, hst]
  · intro B hok hB
    obtain ⟨r, hr, hmem, hreq, hinf⟩ := free_external_ok d s B hT hok
    have hslot : readPtr (writePtr (memset s.mem B d.FREED_PATTERN s.stats_.objectSize) B
        s.pFreeList_) (B - s.config_.padBytesSize - s.config_.headerSize)
        = readPtr s.mem (B - s.config_.padBytesSize - s.config_.headerSize) := by
      apply readPtr_congr
      intro k hk
      rw [writePtr_away _ _ _ _ (Or.inl (by omega)), memset_away _ _ _ _ _ (Or.inl (by omega))]
    rw [hslot] at hr hinf
    refine ⟨?_, hreq, ?_, r, hr, ?_⟩
    · rw [hmem, writePtr_away _ _ _ _ (Or.inr (by omega)),
        memset_at _ _ _ _ _ ⟨by omega, by omega⟩]
      exact hFr
    · rw [hmem, hslot]
    · rw [hinf, setInfo_at]

/-- The external header scheme on a concrete run: with the eight-byte external
header and 16-byte objects,
seeding leaves 0xAA in byte 8 of block 4198; the first `allocate("a")` of the
block makes the first record request, `free(4198)` makes none and leaves a
byte other than 0xAA, and `allocate("b")` of the same block makes none either
and finds record 1000000, which then holds in use, allocation 2 and "b". -/
theorem external_record_lifecycle_witness :
    (allocateNewPage stdDecls externalInit).2.mem
        (blockAt externalInit (externalInit.backend.rawPage externalInit.pageReqs) 3 + 8)
      = stdDecls.UNALLOCATED_PATTERN ∧
    (allocate stdDecls externalStart (some "a")).1 = .ok 4198 ∧
    (allocate stdDecls externalStart (some "a")).2.infoReqs
      = (beforePop stdDecls externalStart).infoReqs + 1 ∧
    (free stdDecls externalOne 4198).1 = .ok () ∧
    (free stdDecls externalOne 4198).2.mem (4198 + 8) ≠ stdDecls.UNALLOCATED_PATTERN ∧
    (free stdDecls externalOne 4198).2.infoReqs = externalOne.infoReqs ∧
    (allocate stdDecls externalFreed (some "b")).1 = .ok 4198 ∧
    (allocate stdDecls externalFreed (some "b")).2.infoReqs
      = (beforePop stdDecls externalFreed).infoReqs ∧
    readPtr externalFreed.mem (4198 - 2 - 8) = 1000000 ∧
    ((allocate stdDecls externalFreed (some "b")).2.infos 1000000).map
        (fun r => (r.inUse, r.allocNum, r.pLabel)) = some (true, 2, some "b") :=
  ⟨(external_record_lifecycle stdDecls externalInit rfl (by decide) (by decide) (by decide)
      (by decide) (by decide)).1 rfl (by decide) 3 (by decide),
    rfl,
    ((external_record_lifecycle stdDecls externalStart rfl (by decide) (by decide) (by decide)
      (by decide) (by decide)).2.1 (some "a") 4198 rfl (by decide)).elim
      (fun _ h => (h.2.2.1 rfl).1),
    rfl,
    ((external_record_lifecycle stdDecls externalOne rfl (by decide) (by decide) (by decide)
      (by decide) (by decide)).2.2 4198 rfl (by decide)).1,
    ((external_record_lifecycle stdDecls externalOne rfl (by decide) (by decide) (by decide)
      (by decide) (by decide)).2.2 4198 rfl (by decide)).2.1,
    rfl,
    ((external_record_lifecycle stdDecls externalFreed rfl (by decide) (by decide) (by decide)
      (by decide) (by decide)).2.1 (some "b") 4198 rfl (by decide)).elim
      (fun _ h => (h.2.2.2 (by decide)).1),
    rfl, rfl⟩

/-- C18 (the code at the failing input): with the eight-byte external header
and 8-byte objects the allocator is constructed and nothing has been allocated;
byte 8 of the head block 4174 is its first post-pad byte, 0xDD, not the
unallocated pattern 0xAA, so the first `allocate` of the block takes the branch
for a block that has been allocated before: it creates no record and
dereferences what the header slot holds, which references no record. -/
theorem external_word_sized_objects :
    construct stdDecls stdBackend onesMem 8 externalConfig = .ok externalWordStart ∧
    externalWordStart.config_.headerType = .EXTERNAL_HEADER ∧
    externalWordStart.stats_.allocations = 0 ∧
    stdDecls.UNALLOCATED_PATTERN = 0xAA ∧
    externalWordStart.stats_.objectSize = 8 ∧
    externalWordStart.pFreeList_ = 4174 ∧
    externalWordStart.mem (4174 + 8) = 0xDD ∧
    (allocate stdDecls externalWordStart (some "a")).1 = .error .undefined ∧
    (allocate stdDecls externalWordStart (some "a")).2.infoReqs = 0 ∧
    (externalWordStart.infos (readPtr externalWordStart.mem (4174 - 2 - 8))).isNone = true :=
  ⟨rfl, rfl, rfl, rfl, rfl, rfl, rfl, rfl, rfl, rfl⟩

/-- C20: with the five-byte basic header, after two `allocate` calls have
returned A = 4186 and B = 4161, `free(A)` succeeds and leaves one object in
use; the second `free(A)` succeeds as well, brings `objectsInUse` to 0 although
B is still held, and leaves A as the free-list head with its link pointing to
A itself. -/
theorem double_free_undetected :
    (allocateN stdDecls 2 basicStart).1 = [.ok 4186, .ok 4161] ∧
    basicTwo.stats_.objectsInUse = 2 ∧
    (free stdDecls basicTwo 4186).1 = .ok () ∧
    (free stdDecls basicTwo 4186).2.stats_.objectsInUse = 1 ∧
    (free stdDecls (free stdDecls basicTwo 4186).2 4186).1 = .ok () ∧
    (free stdDecls (free stdDecls basicTwo 4186).2 4186).2.stats_.objectsInUse = 0 ∧
    (free stdDecls (free stdDecls basicTwo 4186).2 4186).2.stats_.deallocations = 2 ∧
    (free stdDecls (free stdDecls basicTwo 4186).2 4186).2.pFreeList_ = 4186 ∧
    readPtr (free stdDecls (free stdDecls basicTwo 4186).2 4186).2.mem 4186 = 4186 :=
  ⟨rfl, rfl, rfl, rfl, rfl, rfl, rfl, rfl, rfl⟩

/-- C30: the corruption check is a read-only function of the allocator state whose verdict is
decided by the guard bytes alone: it reports a corruption before the block as soon as one of
the padBytesSize bytes before the object differs from the guard pattern (whatever the bytes
after the object hold), a corruption after the block when the bytes before are intact and one
of the bytes after the object differs, and it succeeds in every other case, in particular
whenever padBytesSize is zero. -/
theorem corruption_check_verdict (d : Decls) (s : SimpleAllocator) (B : Nat) :
    ((∃ i, i < s.config_.padBytesSize ∧
        s.mem (B - s.config_.padBytesSize + i) ≠ d.PAD_PATTERN) →
      corruptionCheck d s B = .error (.E_CORRUPTED_BLOCK .before)) ∧
    ((¬ ∃ i, i < s.config_.padBytesSize ∧
        s.mem (B - s.config_.padBytesSize + i) ≠ d.PAD_PATTERN) →
      (∃ i, i < s.config_.padBytesSize ∧
        s.mem (B + s.stats_.objectSize + i) ≠ d.PAD_PATTERN) →
      corruptionCheck d s B = .error (.E_CORRUPTED_BLOCK .after)) ∧
    ((¬ ∃ i, i < s.config_.padBytesSize ∧
        s.mem (B - s.config_.padBytesSize + i) ≠ d.PAD_PATTERN) →
      (¬ ∃ i, i < s.config_.padBytesSize ∧
        s.mem (B + s.stats_.objectSize + i) ≠ d.PAD_PATTERN) →
      corruptionCheck d s B = .ok ()) ∧
    (s.config_.padBytesSize = 0 → corruptionCheck d s B = .ok ()) ∧
    (corruptionCheck d s B ≠ .ok () →
      0 < s.config_.padBytesSize ∧ ∃ i, i < s.config_.padBytesSize ∧
        (s.mem (B - s.config_.padBytesSize + i) ≠ d.PAD_PATTERN ∨
          s.mem (B + s.stats_.objectSize + i) ≠ d.PAD_PATTERN)) := by
  have hany : ∀ f : Nat → Nat, ((List.range s.config_.padBytesSize).any
      (fun i => f i != d.PAD_PATTERN) = true) ↔
      ∃ i, i < s.config_.padBytesSize ∧ f i ≠ d.PAD_PATTERN := by
    intro f
    simp [List.any_eq_true]
  have hpre := hany (fun i => s.mem (B - s.config_.padBytesSize + i))
  have hpost := hany (fun i => s.mem (B + s.stats_.objectSize + i))
  refine ⟨?_, ?_, ?_, ?_, ?_⟩
  · intro ⟨i, hi, hb⟩
    unfold corruptionCheck
    rw [if_pos (by omega), if_pos (hpre.mpr ⟨i, hi, hb⟩)]
  · intro h1 ⟨i, hi, hb⟩
    unfold corruptionCheck
    rw [if_pos (by omega), if_neg (fun h => h1 (hpre.mp h)), if_pos (hpost.mpr ⟨i, hi, hb⟩)]
  · intro h1 h2
    unfold corruptionCheck
    by_cases hp : s.config_.padBytesSize > 0
    · rw [if_pos hp, if_neg (fun h => h1 (hpre.mp h)), if_neg (fun h => h2 (hpost.mp h))]
    · rw [if_neg hp]
  · intro h0
    unfold corruptionCheck
    rw [if_neg (by omega)]
  · intro hne
    by_cases hp : s.config_.padBytesSize > 0
    · refine ⟨hp, ?_⟩
      by_contra hc
      apply hne
      unfold corruptionCheck
      rw [if_pos hp, if_neg, if_neg]
      · intro h
        obtain ⟨i, hi, hb⟩ := hpost.mp h
        exact hc ⟨i, hi, Or.inr hb⟩
      · intro h
        obtain ⟨i, hi, hb⟩ := hpre.mp h
        exact hc ⟨i, hi, Or.inl hb⟩
    · exfalso
      apply hne
      unfold corruptionCheck
      rw [if_neg hp]

/-! ## Search trees: insertion and removal -/

section TreeLemmas

variable {T : Type}

theorem inorder_node (l r : BinTree T) (x : T) (c : Nat) (b : Int) (p : Nat) :
    (BinTree.node l x r c b p).inorder = l.inorder ++ x :: r.inorder := rfl

theorem avl_size__eq_length (t : BinTree T) : AVL.BST.size_ t = t.inorder.length := by
  induction t with
  | nil => rfl
  | node l x r c b p ihl ihr =>
    simp only [AVL.BST.size_, BinTree.inorder, List.length_append, List.length_cons, ihl, ihr]
    omega

theorem bst_size__eq_length (t : BinTree T) (h : t.CountsOk) : BST.size_ t = t.inorder.length := by
  cases t with
  | nil => rfl
  | node l x r c b p =>
    obtain ⟨_, _, hc⟩ := h
    simp only [BST.size_, BinTree.inorder, List.length_append, List.length_cons, hc]
    omega

theorem makeNode_ok (d : Decls) (td : TreeDecls) (s s1 : SimpleAllocator) (v : T) (p : Nat)
    (h : allocate d s (some "NodeLabel") = (.ok p, s1)) :
    BST.makeNode d td (some s) v
      = (.ok (.node .nil v .nil td.count td.balanceFactor p), some s1) := by
  have hp : p ≠ 0 := (allocate_ok_form d s (some "NodeLabel") p (by rw [h])).2.1
  simp only [BST.makeNode, h, if_neg hp]

theorem makeNode_error (d : Decls) (td : TreeDecls) (s s1 : SimpleAllocator) (v : T) (e : Exn)
    (h : allocate d s (some "NodeLabel") = (.error e, s1)) :
    (BST.makeNode d td (some s) v : Except TreeExn (BinTree T) × Option SimpleAllocator)
      = (.error (.allocator e), some s1) := by
  simp only [BST.makeNode, h]

variable [LinearOrder T]

theorem orderedInsert_mid_le (v x : T) (L R : List T) (h : v ≤ x) :
    List.orderedInsert (· ≤ ·) v (L ++ x :: R) = List.orderedInsert (· ≤ ·) v L ++ x :: R := by
  induction L with
  | nil => simp [List.orderedInsert, h]
  | cons y L ih =>
    simp only [List.cons_append, List.orderedInsert]
    split_ifs
    · rfl
    · exact congrArg (List.cons y) ih

theorem orderedInsert_mid_gt (v x : T) (L R : List T) (hL : ∀ y ∈ L, y < v) (h : x < v) :
    List.orderedInsert (· ≤ ·) v (L ++ x :: R) = L ++ x :: List.orderedInsert (· ≤ ·) v R := by
  induction L with
  | nil => simp [List.orderedInsert, not_le.mpr h]
  | cons y L ih =>
    have hy : ¬ v ≤ y := not_le.mpr (hL y (List.mem_cons_self _ _))
    simp only [List.cons_append, List.orderedInsert, if_neg hy]
    exact congrArg (List.cons y) (ih (fun z hz => hL z (List.mem_cons_of_mem _ hz)))

theorem isBST_iff_sorted (t : BinTree T) : t.IsBST ↔ t.inorder.Sorted (· < ·) := by
  induction t with
  | nil => simp [BinTree.IsBST, BinTree.inorder]
  | node l x r c b p ihl ihr =>
    simp only [BinTree.IsBST, BinTree.inorder, List.Sorted, List.pairwise_append,
      List.pairwise_cons, List.mem_cons] at *
    rw [ihl, ihr]
    constructor
    · rintro ⟨h1, h2, h3, h4⟩
      refine ⟨h1, ⟨h4, h2⟩, ?_⟩
      rintro a ha b (rfl | hb)
      · exact h3 a ha
      · exact lt_trans (h3 a ha) (h4 b hb)
    · rintro ⟨h1, ⟨h4, h2⟩, h5⟩
      exact ⟨h1, h2, fun y hy => h5 y hy x (Or.inl rfl), h4⟩

theorem sorted_lt_orderedInsert (L : List T) (v : T) (hs : L.Sorted (· < ·)) (hv : v ∉ L) :
    (L.orderedInsert (· ≤ ·) v).Sorted (· < ·) := by
  have h1 : (L.orderedInsert (· ≤ ·) v).Sorted (· ≤ ·) :=
    List.Sorted.orderedInsert v L hs.le_of_lt
  have h2 : (L.orderedInsert (· ≤ ·) v).Nodup := by
    rw [(List.perm_orderedInsert (· ≤ ·) v L).nodup_iff]
    exact List.nodup_cons.mpr ⟨hv, hs.nodup⟩
  exact h1.lt_of_le h2

end TreeLemmas

section AddLemmas

variable {T : Type} [LinearOrder T]

theorem mem_left_of_lt (l r : BinTree T) (x v : T)
    (hrx : ∀ y ∈ r.inorder, x < y) (hv : v ∈ l.inorder ++ x :: r.inorder) (h : v < x) :
    v ∈ l.inorder := by
  rcases List.mem_append.mp hv with h1 | h1
  · exact h1
  · rcases List.mem_cons.mp h1 with h2 | h2
    · exact absurd h (by rw [h2]; exact lt_irrefl x)
    · exact absurd (lt_trans h (hrx v h2)) (lt_irrefl v)

theorem mem_right_of_gt (l r : BinTree T) (x v : T)
    (hlx : ∀ y ∈ l.inorder, y < x) (hv : v ∈ l.inorder ++ x :: r.inorder) (h : x < v) :
    v ∈ r.inorder := by
  rcases List.mem_append.mp hv with h1 | h1
  · exact absurd (lt_trans h (hlx v h1)) (lt_irrefl x)
  · rcases List.mem_cons.mp h1 with h2 | h2
    · exact absurd h (by rw [h2]; exact lt_irrefl x)
    · exact h2

theorem avl_bst_add__dup (d : Decls) (td : TreeDecls) (a : Option SimpleAllocator)
    (t : BinTree T) (v : T) (hb : t.IsBST) (hv : v ∈ t.inorder) :
    AVL.BST.add_ d td a t v
      = (.error (.bst .E_DUPLICATE "Duplicate value not allowed"), t, a) := by
  induction t with
  | nil => simp [BinTree.inorder] at hv
  | node l x r c b p ihl ihr =>
    obtain ⟨hl, hr, hlx, hrx⟩ := hb
    rw [AVL.BST.add_]
    by_cases h1 : v < x
    · rw [if_pos h1, ihl hl (mem_left_of_lt l r x v hrx hv h1)]
    · rw [if_neg h1]
      by_cases h2 : v > x
      · rw [if_pos h2, ihr hr (mem_right_of_gt l r x v hlx hv h2)]
      · rw [if_neg h2]

theorem avl_bst_add__fresh (d : Decls) (td : TreeDecls) (s s1 : SimpleAllocator)
    (t : BinTree T) (v : T) (p : Nat) (hb : t.IsBST) (hv : v ∉ t.inorder)
    (ha : allocate d s (some "NodeLabel") = (.ok p, s1)) :
    ∃ t1, AVL.BST.add_ d td (some s) t v = (.ok (), t1, some s1) ∧
      t1.inorder = t.inorder.orderedInsert (· ≤ ·) v ∧
      t1.addrs.Perm (p :: t.addrs) := by
  induction t with
  | nil =>
    refine ⟨.node .nil v .nil 1 td.balanceFactor p, ?_, rfl, List.Perm.refl _⟩
    rw [AVL.BST.add_, makeNode_ok d td s s1 v p ha]
    rfl
  | node l x r c b p0 ihl ihr =>
    obtain ⟨hl, hr, hlx, hrx⟩ := hb
    rw [inorder_node, List.mem_append, List.mem_cons] at hv
    push_neg at hv
    obtain ⟨hvl, hvx, hvr⟩ := hv
    rw [AVL.BST.add_]
    by_cases h1 : v < x
    · obtain ⟨l1, e1, i1, q1⟩ := ihl hl hvl
      refine ⟨.node l1 x r (AVL.BST.size_ l1 + AVL.BST.size_ r + 1) b p0, ?_, ?_, ?_⟩
      · rw [if_pos h1, e1]
      · rw [inorder_node, inorder_node, i1, orderedInsert_mid_le v x _ _ (le_of_lt h1)]
      · simp only [BinTree.addrs]
        exact (List.Perm.append_right _ q1).trans (by simp [List.perm_middle])
    · have h2 : v > x := lt_of_le_of_ne (not_lt.mp h1) (Ne.symm hvx)
      obtain ⟨r1, e1, i1, q1⟩ := ihr hr hvr
      refine ⟨.node l x r1 (AVL.BST.size_ l + AVL.BST.size_ r1 + 1) b p0, ?_, ?_, ?_⟩
      · rw [if_neg h1, if_pos h2, e1]
      · rw [inorder_node, inorder_node, i1,
          orderedInsert_mid_gt v x _ _ (fun y hy => lt_trans (hlx y hy) h2) h2]
      · simp only [BinTree.addrs]
        have q2 : (p0 :: r1.addrs).Perm (p :: p0 :: r.addrs) :=
          ((List.Perm.cons p0 q1).trans (List.Perm.swap p p0 _))
        exact (List.Perm.append_left _ q2).trans (by simp [List.perm_middle])

theorem avl_bst_add__nomem (d : Decls) (td : TreeDecls) (s s1 : SimpleAllocator)
    (t : BinTree T) (v : T) (e : Exn) (hv : v ∉ t.inorder)
    (ha : allocate d s (some "NodeLabel") = (.error e, s1)) :
    AVL.BST.add_ d td (some s) t v = (.error (.allocator e), t, some s1) := by
  induction t with
  | nil =>
    rw [AVL.BST.add_, makeNode_error d td s s1 v e ha]
  | node l x r c b p0 ihl ihr =>
    rw [inorder_node, List.mem_append, List.mem_cons] at hv
    push_neg at hv
    obtain ⟨hvl, hvx, hvr⟩ := hv
    rw [AVL.BST.add_]
    by_cases h1 : v < x
    · rw [if_pos h1, ihl hvl]
    · have h2 : v > x := lt_of_le_of_ne (not_lt.mp h1) (Ne.symm hvx)
      rw [if_neg h1, if_pos h2, ihr hvr]

end AddLemmas

section AddLemmasCached

variable {T : Type} [LinearOrder T]

theorem bst_add__dup (d : Decls) (td : TreeDecls) (a : Option SimpleAllocator)
    (t : BinTree T) (v : T) (hb : t.IsBST) (hv : v ∈ t.inorder) :
    BST.add_ d td a t v
      = (.error (.bst .E_DUPLICATE "Duplicate value not allowed"), t, a) := by
  induction t with
  | nil => simp [BinTree.inorder] at hv
  | node l x r c b p ihl ihr =>
    obtain ⟨hl, hr, hlx, hrx⟩ := hb
    rw [BST.add_]
    by_cases h1 : v < x
    · rw [if_pos h1, ihl hl (mem_left_of_lt l r x v hrx hv h1)]
    · rw [if_neg h1]
      by_cases h2 : v > x
      · rw [if_pos h2, ihr hr (mem_right_of_gt l r x v hlx hv h2)]
      · rw [if_neg h2]

theorem bst_add__fresh (d : Decls) (td : TreeDecls) (s s1 : SimpleAllocator)
    (t : BinTree T) (v : T) (p : Nat) (hb : t.IsBST) (hv : v ∉ t.inorder)
    (ha : allocate d s (some "NodeLabel") = (.ok p, s1)) :
    ∃ t1, BST.add_ d td (some s) t v = (.ok (), t1, some s1) ∧
      t1.inorder = t.inorder.orderedInsert (· ≤ ·) v ∧
      t1.addrs.Perm (p :: t.addrs) ∧ (t.CountsOk → t1.CountsOk) := by
  induction t with
  | nil =>
    refine ⟨.node .nil v .nil 1 td.balanceFactor p, ?_, rfl, List.Perm.refl _, ?_⟩
    · rw [BST.add_, makeNode_ok d td s s1 v p ha]
      rfl
    · intro _
      exact ⟨trivial, trivial, rfl⟩
  | node l x r c b p0 ihl ihr =>
    obtain ⟨hl, hr, hlx, hrx⟩ := hb
    rw [inorder_node, List.mem_append, List.mem_cons] at hv
    push_neg at hv
    obtain ⟨hvl, hvx, hvr⟩ := hv
    rw [BST.add_]
    by_cases h1 : v < x
    · obtain ⟨l1, e1, i1, q1, c1⟩ := ihl hl hvl
      refine ⟨.node l1 x r (BST.size_ l1 + BST.size_ r + 1) b p0, ?_, ?_, ?_, ?_⟩
      · rw [if_pos h1, e1]
      · rw [inorder_node, inorder_node, i1, orderedInsert_mid_le v x _ _ (le_of_lt h1)]
      · simp only [BinTree.addrs]
        exact (List.Perm.append_right _ q1).trans (by simp [List.perm_middle])
      · rintro ⟨hcl, hcr, _⟩
        exact ⟨c1 hcl, hcr, by rw [bst_size__eq_length l1 (c1 hcl), bst_size__eq_length r hcr]⟩
    · have h2 : v > x := lt_of_le_of_ne (not_lt.mp h1) (Ne.symm hvx)
      obtain ⟨r1, e1, i1, q1, c1⟩ := ihr hr hvr
      refine ⟨.node l x r1 (BST.size_ l + BST.size_ r1 + 1) b p0, ?_, ?_, ?_, ?_⟩
      · rw [if_neg h1, if_pos h2, e1]
      · rw [inorder_node, inorder_node, i1,
          orderedInsert_mid_gt v x _ _ (fun y hy => lt_trans (hlx y hy) h2) h2]
      · simp only [BinTree.addrs]
        have q2 : (p0 :: r1.addrs).Perm (p :: p0 :: r.addrs) :=
          ((List.Perm.cons p0 q1).trans (List.Perm.swap p p0 _))
        exact (List.Perm.append_left _ q2).trans (by simp [List.perm_middle])
      · rintro ⟨hcl, hcr, _⟩
        exact ⟨hcl, c1 hcr, by rw [bst_size__eq_length l hcl, bst_size__eq_length r1 (c1 hcr)]⟩

theorem bst_add__nomem (d : Decls) (td : TreeDecls) (s s1 : SimpleAllocator)
    (t : BinTree T) (v : T) (e : Exn) (hv : v ∉ t.inorder)
    (ha : allocate d s (some "NodeLabel") = (.error e, s1)) :
    BST.add_ d td (some s) t v = (.error (.allocator e), t, some s1) := by
  induction t with
  | nil =>
    rw [BST.add_, makeNode_error d td s s1 v e ha]
  | node l x r c b p0 ihl ihr =>
    rw [inorder_node, List.mem_append, List.mem_cons] at hv
    push_neg at hv
    obtain ⟨hvl, hvx, hvr⟩ := hv
    rw [BST.add_]
    by_cases h1 : v < x
    · rw [if_pos h1, ihl hvl]
    · have h2 : v > x := lt_of_le_of_ne (not_lt.mp h1) (Ne.symm hvx)
      rw [if_neg h1, if_pos h2, ihr hvr]

end AddLemmasCached

section RemoveLemmas

variable {T : Type}

variable [LinearOrder T]

end RemoveLemmas

section RemoveLemmasCached

variable {T : Type}

theorem recount_inorder (t : BinTree T) : (BST.recount t).inorder = t.inorder := by
  cases t <;> rfl

theorem recount_addrs (t : BinTree T) : (BST.recount t).addrs = t.addrs := by
  cases t <;> rfl

variable [LinearOrder T]

end RemoveLemmasCached

section Frames

theorem stamp_window (d : Decls) (s : SimpleAllocator) (B : Nat) (pLabel : Option String)
    (x : Nat) (hx : x < (s.window B).1 ∨ (s.window B).2 ≤ x) :
    (stamp d s B pLabel).2.mem x = s.mem x := by
  unfold window at hx
  dsimp only at hx
  have m1 := le_max_left s.config_.headerSize 1
  have m2 := le_max_right s.config_.headerSize 1
  have m3 := le_max_left (s.stats_.objectSize + s.config_.padBytesSize) 9
  have m4 := le_max_right (s.stats_.objectSize + s.config_.padBytesSize) 9
  generalize max s.config_.headerSize 1 = lo at hx m1 m2
  generalize max (s.stats_.objectSize + s.config_.padBytesSize) 9 = hi at hx m3 m4
  have hobj : x < B ∨ B + s.stats_.objectSize ≤ x := by omega
  have hbase : memset s.mem B d.ALLOCATED_PATTERN s.stats_.objectSize x = s.mem x :=
    memset_away _ _ _ _ _ hobj
  unfold stamp
  dsimp only
  repeat' split
  all_goals try dsimp only
  all_goals first
    | exact hbase
    | rw [writePtr_away _ _ _ _ (by omega), hbase]
    | rw [writeByte_away _ _ _ _ (by omega), writeByte_away _ _ _ _ (by omega), hbase]
    | rw [writeByte_away _ _ _ _ (by omega), writeU16_away _ _ _ _ (by omega),
        writeByte_away _ _ _ _ (by omega), hbase]

theorem takeHead_window (d : Decls) (s : SimpleAllocator) (pLabel : Option String) (x : Nat)
    (hx : x < (s.window s.pFreeList_).1 ∨ (s.window s.pFreeList_).2 ≤ x) :
    (takeHead d s pLabel).2.mem x = s.mem x := by
  unfold takeHead
  dsimp only
  split
  · rfl
  · split
    · rfl
    · exact stamp_window d { s with pFreeList_ := readPtr s.mem s.pFreeList_ } s.pFreeList_
        pLabel x hx

theorem allocateNewPage_reach (d : Decls) (s : SimpleAllocator) (x : Nat)
    (hx : x < s.pageReach.1 ∨ s.pageReach.2 ≤ x) :
    (allocateNewPage d s).2.mem x = s.mem x := by
  unfold pageReach at hx
  dsimp only at hx
  have m3 := le_max_left (s.stats_.objectSize + s.config_.padBytesSize) 9
  have m4 := le_max_right (s.stats_.objectSize + s.config_.padBytesSize) 9
  have h8 : PTR_BYTES = 8 := rfl
  cases hr : (allocateNewPage d s).1 with
  | error e =>
    unfold allocateNewPage
    split
    · rfl
    · dsimp only
      split
      · rfl
      · rename_i hlim hz
        unfold allocateNewPage at hr
        rw [if_neg hlim] at hr
        dsimp only at hr
        rw [if_neg hz] at hr
        cases hr
  | ok u =>
    obtain ⟨_, hmem, _⟩ := allocateNewPage_ok_form d s hr
    rw [hmem]
    rcases hx with hx | hx
    · rw [seedLoop_frame d s _ _ _ _ _ _ x (by omega),
        writePtr_away _ _ _ _ (Or.inl hx), writePtr_away _ _ _ _ (Or.inl hx)]
    · have hmax : max (s.stats_.objectSize + s.config_.padBytesSize) 8
          ≤ max (s.stats_.objectSize + s.config_.padBytesSize) 9 :=
        max_le_max (le_refl _) (by omega)
      rw [seedLoop_above d s _ _ _ _ _ _ x (by omega) (Or.inr (by omega)),
        writePtr_away _ _ _ _ (Or.inr (by omega)), writePtr_away _ _ _ _ (Or.inr (by omega))]

theorem window_beforePop (d : Decls) (s : SimpleAllocator) (B : Nat) :
    (beforePop d s).window B = s.window B := by
  unfold window
  rw [beforePop_config, beforePop_objectSize]

theorem allocate_window (d : Decls) (s : SimpleAllocator) (pLabel : Option String) (x : Nat)
    (hpage : s.pFreeList_ = 0 → x < s.pageReach.1 ∨ s.pageReach.2 ≤ x)
    (hx : x < (s.window (beforePop d s).pFreeList_).1
      ∨ (s.window (beforePop d s).pFreeList_).2 ≤ x) :
    (allocate d s pLabel).2.mem x = s.mem x := by
  rw [← window_beforePop d s] at hx
  unfold allocate
  unfold beforePop at hx
  dsimp only
  by_cases hF : s.pFreeList_ = 0
  · rw [if_pos hF] at hx ⊢
    have hm := allocateNewPage_reach d s x (hpage hF)
    generalize allocateNewPage d s = r at hx hm ⊢
    obtain ⟨r1, s1⟩ := r
    cases r1 with
    | error e => exact hm
    | ok u =>
      dsimp only at hx hm ⊢
      rw [takeHead_window d s1 pLabel x hx, hm]
  · rw [if_neg hF] at hx ⊢
    exact takeHead_window d s pLabel x hx

end Frames

section Separation

variable {T : Type}

theorem allocateClear_kept (d : Decls) (td : TreeDecls) (s : SimpleAllocator) (t : BinTree T)
    (pLabel : Option String) (hc : BST.AllocateClear d td s t)
    (q : Nat) (hq : q ∈ t.addrs) (x : Nat) (h1 : q ≤ x) (h2 : x < q + td.nodeSize) :
    (allocate d s pLabel).2.mem x = s.mem x := by
  obtain ⟨_, hw, hp⟩ := hc
  refine allocate_window d s pLabel x (fun hF => ?_) ?_
  · rcases hp hF q hq with h | h
    · exact Or.inl (by omega)
    · exact Or.inr (by omega)
  · rcases hw q hq with h | h
    · exact Or.inl (by omega)
    · exact Or.inr (by omega)

theorem allocateClear_apart (d : Decls) (td : TreeDecls) (s : SimpleAllocator) (t : BinTree T)
    (pLabel : Option String) (hc : BST.AllocateClear d td s t) (p : Nat)
    (ha : (allocate d s pLabel).1 = .ok p)
    (q : Nat) (hq : q ∈ t.addrs) : q + td.nodeSize ≤ p ∨ p + td.nodeSize ≤ q := by
  obtain ⟨hn, hw, _⟩ := hc
  obtain ⟨hp, _, _, _⟩ := allocate_ok_form d s pLabel p ha
  rw [← hp] at hw
  have h := hw q hq
  unfold window at h
  dsimp only at h
  have m3 := le_max_left (s.stats_.objectSize + s.config_.padBytesSize) 9
  rcases h with h | h
  · exact Or.inl (by omega)
  · exact Or.inr (by omega)

end Separation

section ReleaseLemmas

variable {T : Type}

variable [LinearOrder T]

end ReleaseLemmas

section TwoChildren

variable {T : Type} [LinearOrder T]

end TwoChildren

section GetNodeLemmas

variable {T : Type}

end GetNodeLemmas

section AllocatorSet

variable {T : Type}

variable [LinearOrder T]

end AllocatorSet

section CountLemmas

variable {T : Type}

variable [LinearOrder T]

end CountLemmas

/-- C24 (as stated, refuted): the tree `twoTree` holds 3 and 5 in the two
blocks of an allocator limited to one page of two objects.  `add(8)`, of a
value that is not in the tree, does not yield a tree with 8 in it: the
allocator throws `E_NO_PAGE`, the exception leaves `add`, and the tree is as
before.  Both `BST.cpp` behave so.  Nor is the block the allocator yields
always storage of its own: over `plainStart`, an allocator with no header and
no padding, the seven calls of `overlapOps` return and leave the nodes of 10,
35 and 40 at 4104, 4168 and 4200; `add(36)` then returns with its node at
4096, and the 32 bytes of that node, up to 4128, include bytes of the node of
10, which the construction of the new node overwrites.  (The `free` of
`remove(30)` wrote the link 4136 into the block and then, through the header
store of the empty header, a zero over its lowest byte, which left 4096.) -/
theorem bst_add_page_limit :
    (AVL.BST.construct stdDecls stdTreeDecls stdBackend zeroMem (some nodeStart)
      : Except TreeExn (BST Nat)) = .ok emptyTree ∧
    (AVL.BST.add stdDecls stdTreeDecls emptyTree 5).1 = .ok () ∧
    (AVL.BST.add stdDecls stdTreeDecls oneTree 3).1 = .ok () ∧
    twoTree.root_ = .node (.node .nil 3 .nil 1 0 4111) 5 .nil 2 0 4152 ∧
    (AVL.BST.add stdDecls stdTreeDecls twoTree 8).1 = .error (.allocator .E_NO_PAGE) ∧
    (AVL.BST.add stdDecls stdTreeDecls twoTree 8).2.root_ = twoTree.root_ ∧
    (BST.add stdDecls stdTreeDecls twoTree 8).1 = .error (.allocator .E_NO_PAGE) ∧
    (BST.add stdDecls stdTreeDecls twoTree 8).2.root_ = twoTree.root_ ∧
    (AVL.BST.construct stdDecls stdTreeDecls stdBackend zeroMem (some plainStart)
      : Except TreeExn (BST Nat)) = .ok plainTree ∧
    stdTreeDecls.nodeSize = 32 ∧
    BST.outcomes stdDecls stdTreeDecls plainTree overlapOps = List.replicate 7 (.ok ()) ∧
    (BST.after stdDecls stdTreeDecls plainTree overlapOps).root_
      = .node (.node .nil 10 (.node .nil 35 .nil 1 0 4168) 2 0 4104) 40 .nil 3 0 4200 ∧
    (BST.add stdDecls stdTreeDecls (BST.after stdDecls stdTreeDecls plainTree overlapOps) 36).1
      = .ok () ∧
    (BST.add stdDecls stdTreeDecls
        (BST.after stdDecls stdTreeDecls plainTree overlapOps) 36).2.root_
      = .node (.node .nil 10 (.node .nil 35 (.node .nil 36 .nil 1 0 4096) 2 0 4168) 3 0 4104)
          40 .nil 4 0 4200 ∧
    AVL.BST.outcomes stdDecls stdTreeDecls plainTree overlapOps = List.replicate 7 (.ok ()) ∧
    (AVL.BST.after stdDecls stdTreeDecls plainTree overlapOps).root_
      = .node (.node .nil 10 (.node .nil 35 .nil 1 0 4168) 2 0 4104) 40 .nil 3 0 4200 ∧
    (AVL.BST.add stdDecls stdTreeDecls
        (AVL.BST.after stdDecls stdTreeDecls plainTree overlapOps) 36).1 = .ok () ∧
    (AVL.BST.add stdDecls stdTreeDecls
        (AVL.BST.after stdDecls stdTreeDecls plainTree overlapOps) 36).2.root_
      = .node (.node .nil 10 (.node .nil 35 (.node .nil 36 .nil 1 0 4096) 2 0 4168) 3 0 4104)
          40 .nil 4 0 4200 :=
  ⟨rfl, rfl, rfl, rfl, rfl, rfl, rfl, rfl, rfl, rfl, by decide!, by decide!, by decide!,
    by decide!, by decide!, by decide!, by decide!, by decide!⟩

/-- C24 (amended): for a binary search tree `t` with an allocator and a value
`v`, in both `BST.cpp`.  If `v` is in `t`, `add(v)` throws `BSTException` with
code `E_DUPLICATE` and leaves the object as it was.  If `v` is not in `t` and
the allocator throws, its exception leaves `add(v)`.  If `v` is not in `t` and
the bytes of the nodes of `t` are out of the way of the `allocate` call
(`BST.AllocateClear`), the call leaves the bytes of the nodes of `t` as they
were; when the allocator yields a block, the node built in it shares no byte
with a node of `t`, and `add(v)` returns and leaves a binary search tree whose
in-order sequence is that of `t` with `v` inserted in sorted position, whose
nodes are those of `t` and the new one, and `size()` has grown by one (with the
cached counts of `src/BST/BST.cpp`, when the counts of `t` are right, and then
the new counts are right); when the allocator throws, the root is as it
was. -/
theorem bst_add_contract {T : Type} [LinearOrder T] (d : Decls) (td : TreeDecls)
    (t : BST T) (s : SimpleAllocator) (v : T)
    (hs : t.allocator_ = some s) (hb : t.root_.IsBST) :
    (v ∈ t.root_.inorder →
      AVL.BST.add d td t v = (.error (.bst .E_DUPLICATE "Duplicate value not allowed"), t) ∧
      BST.add d td t v = (.error (.bst .E_DUPLICATE "Duplicate value not allowed"), t)) ∧
    (v ∉ t.root_.inorder → ∀ e s1, allocate d s (some "NodeLabel") = (.error e, s1) →
      (AVL.BST.add d td t v).1 = .error (.allocator e) ∧
      (AVL.BST.add d td t v).2.allocator_ = some s1 ∧
      (BST.add d td t v).1 = .error (.allocator e) ∧
      (BST.add d td t v).2.allocator_ = some s1) ∧
    (v ∉ t.root_.inorder → BST.AllocateClear d td s t.root_ →
      (∀ q ∈ t.root_.addrs, ∀ x, q ≤ x → x < q + td.nodeSize →
        (allocate d s (some "NodeLabel")).2.mem x = s.mem x) ∧
      (∀ p s1, allocate d s (some "NodeLabel") = (.ok p, s1) →
        (∀ q ∈ t.root_.addrs, q + td.nodeSize ≤ p ∨ p + td.nodeSize ≤ q) ∧
        (∃ t1, AVL.BST.add d td t v = (.ok (), t1) ∧ t1.allocator_ = some s1 ∧
          t1.root_.IsBST ∧ t1.root_.inorder = t.root_.inorder.orderedInsert (· ≤ ·) v ∧
          t1.root_.addrs.Perm (p :: t.root_.addrs) ∧
          AVL.BST.size t1 = AVL.BST.size t + 1) ∧
        (∃ t1, BST.add d td t v = (.ok (), t1) ∧ t1.allocator_ = some s1 ∧
          t1.root_.IsBST ∧ t1.root_.inorder = t.root_.inorder.orderedInsert (· ≤ ·) v ∧
          t1.root_.addrs.Perm (p :: t.root_.addrs) ∧
          (t.root_.CountsOk → t1.root_.CountsOk ∧ BST.size t1 = BST.size t + 1))) ∧
      (∀ e s1, allocate d s (some "NodeLabel") = (.error e, s1) →
        AVL.BST.add d td t v = (.error (.allocator e), { t with allocator_ := some s1 }) ∧
        BST.add d td t v = (.error (.allocator e), { t with allocator_ := some s1 }))) := by
  obtain ⟨al, own, root⟩ := t
  simp only at hs hb ⊢
  subst hs
  refine ⟨fun hv => ?_, fun hv e s1 ha => ?_, fun hv hc =>
    ⟨fun q hq x h1 h2 => allocateClear_kept d td s root _ hc q hq x h1 h2,
      fun p s1 ha => ?_, fun e s1 ha => ?_⟩⟩
  · simp only [AVL.BST.add, BST.add, avl_bst_add__dup d td _ root v hb hv,
      bst_add__dup d td _ root v hb hv, and_self]
  · simp only [AVL.BST.add, BST.add, avl_bst_add__nomem d td s s1 root v e hv ha,
      bst_add__nomem d td s s1 root v e hv ha, and_self]
  · obtain ⟨t1, e1, i1, a1⟩ := avl_bst_add__fresh d td s s1 root v p hb hv ha
    obtain ⟨t2, e2, i2, a2, k2⟩ := bst_add__fresh d td s s1 root v p hb hv ha
    have hsorted := sorted_lt_orderedInsert root.inorder v ((isBST_iff_sorted root).mp hb) hv
    refine ⟨allocateClear_apart d td s root _ hc p (by rw [ha]),
      ⟨⟨some s1, own, t1⟩, ?_, rfl, ?_, i1, a1, ?_⟩, ⟨⟨some s1, own, t2⟩, ?_, rfl, ?_, i2, a2, ?_⟩⟩
    · simp only [AVL.BST.add, e1]
    · rw [isBST_iff_sorted, i1]
      exact hsorted
    · simp only [AVL.BST.size, avl_size__eq_length, i1, List.orderedInsert_length]
    · simp only [BST.add, e2]
    · rw [isBST_iff_sorted, i2]
      exact hsorted
    · intro hc
      refine ⟨k2 hc, ?_⟩
      simp only [BST.size, bst_size__eq_length _ (k2 hc), bst_size__eq_length _ hc, i2,
        List.orderedInsert_length]
  · simp only [AVL.BST.add, BST.add, avl_bst_add__nomem d td s s1 root v e hv ha,
      bst_add__nomem d td s s1 root v e hv ha, and_self]

/-- C24 (amended), on the tree `oneTree` that holds 5 in the node at 4152: the
bytes of that node are out of the way of the `allocate` call, `add(3)` is given
the block 4111 and leaves a binary search tree with the in-order sequence
3, 5. -/
theorem bst_add_contract_witness :
    oneTree.allocator_ = some (allocate stdDecls nodeStart (some "NodeLabel")).2 ∧
    oneTree.root_.IsBST ∧ 3 ∉ oneTree.root_.inorder ∧
    BST.AllocateClear stdDecls stdTreeDecls
      (allocate stdDecls nodeStart (some "NodeLabel")).2 oneTree.root_ ∧
    (allocate stdDecls (allocate stdDecls nodeStart (some "NodeLabel")).2 (some "NodeLabel")).1
      = .ok 4111 ∧
    oneTree.root_.addrs = [4152] ∧
    ∃ t1, AVL.BST.add stdDecls stdTreeDecls oneTree 3 = (.ok (), t1) ∧
      t1.root_.IsBST ∧ t1.root_.inorder = oneTree.root_.inorder.orderedInsert (· ≤ ·) 3 ∧
      t1.root_.addrs.Perm (4111 :: oneTree.root_.addrs) ∧
      AVL.BST.size t1 = AVL.BST.size oneTree + 1 :=
  ⟨rfl, by decide, by decide, by unfold BST.AllocateClear BinTree.Outside; decide!, rfl, rfl,
    (((((bst_add_contract stdDecls stdTreeDecls oneTree
      (allocate stdDecls nodeStart (some "NodeLabel")).2 3 rfl (by decide)).2.2
      (by decide) (by unfold BST.AllocateClear BinTree.Outside; decide!)).2.1
        4111 _ rfl).2.1).elim
        (fun t1 h => ⟨t1, h.1, h.2.2.1, h.2.2.2.1, h.2.2.2.2.1, h.2.2.2.2.2⟩))⟩

section AvlLemmas

variable {T : Type}

theorem treeHeight_ge (t : BinTree T) : -1 ≤ AVL.BST.treeHeight t := by
  induction t with
  | nil => simp [AVL.BST.treeHeight]
  | node l x r c b p ihl ihr =>
    simp only [AVL.BST.treeHeight]
    omega

theorem treeHeight_node (l r : BinTree T) (x : T) (c : Nat) (b : Int) (p : Nat) :
    AVL.BST.treeHeight (.node l x r c b p)
      = 1 + max (AVL.BST.treeHeight l) (AVL.BST.treeHeight r) := rfl

theorem balanced_node (l r : BinTree T) (x : T) (c : Nat) (b : Int) (p : Nat) :
    AVL.Balanced (.node l x r c b p) ↔
      AVL.Balanced l ∧ AVL.Balanced r ∧
        AVL.BST.treeHeight l ≤ AVL.BST.treeHeight r + 1 ∧
        AVL.BST.treeHeight r ≤ AVL.BST.treeHeight l + 1 := Iff.rfl

/-- What `balanceTop` makes of a node whose subtrees are balanced and differ in
height by at most 2. -/
theorem balanceTop_spec (l r : BinTree T) (x : T) (c : Nat) (b : Int) (p : Nat)
    (hl : AVL.Balanced l) (hr : AVL.Balanced r)
    (h1 : AVL.BST.treeHeight l ≤ AVL.BST.treeHeight r + 2)
    (h2 : AVL.BST.treeHeight r ≤ AVL.BST.treeHeight l + 2) :
    ∃ l1 x1 r1 c1 b1 p1, AVL.balanceTop (.node l x r c b p) = .node l1 x1 r1 c1 b1 p1 ∧
      AVL.Balanced l1 ∧ AVL.Balanced r1 ∧
      AVL.BST.treeHeight l1 ≤ AVL.BST.treeHeight r1 + 1 ∧
      AVL.BST.treeHeight r1 ≤ AVL.BST.treeHeight l1 + 1 ∧
      l1.inorder ++ x1 :: r1.inorder = l.inorder ++ x :: r.inorder ∧
      (l1.addrs ++ p1 :: r1.addrs).Perm (l.addrs ++ p :: r.addrs) ∧
      max (AVL.BST.treeHeight l) (AVL.BST.treeHeight r)
        ≤ 1 + max (AVL.BST.treeHeight l1) (AVL.BST.treeHeight r1) ∧
      max (AVL.BST.treeHeight l1) (AVL.BST.treeHeight r1)
        ≤ max (AVL.BST.treeHeight l) (AVL.BST.treeHeight r) ∧
      (AVL.BST.treeHeight l ≤ AVL.BST.treeHeight r + 1 →
        AVL.BST.treeHeight r ≤ AVL.BST.treeHeight l + 1 →
        max (AVL.BST.treeHeight l1) (AVL.BST.treeHeight r1)
          = max (AVL.BST.treeHeight l) (AVL.BST.treeHeight r)) := by
  have gl := treeHeight_ge l
  have gr := treeHeight_ge r
  unfold AVL.balanceTop
  simp only [AVL.updateBalanceFactor]
  by_cases k1 : AVL.BST.treeHeight l - AVL.BST.treeHeight r > 1
  · rw [if_pos k1]
    cases l with
    | nil =>
      exfalso
      simp only [AVL.BST.treeHeight] at k1
      omega
    | node ll y lr c2 b2 p2 =>
      rw [balanced_node] at hl
      obtain ⟨hll, hlr, e1, e2⟩ := hl
      simp only [treeHeight_node] at k1 h1 h2 gl
      have gll := treeHeight_ge ll
      have glr := treeHeight_ge lr
      simp only [AVL.updateBalanceFactor]
      by_cases k2 : AVL.BST.treeHeight ll - AVL.BST.treeHeight lr ≥ 0
      · rw [if_pos k2]
        refine ⟨ll, y, .node lr x r c _ p, c2, _, p2, rfl, hll, ?_, ?_, ?_, ?_, ?_, ?_, ?_, ?_⟩
        · rw [balanced_node]
          exact ⟨hlr, hr, by omega, by omega⟩
        · simp only [treeHeight_node]; omega
        · simp only [treeHeight_node]; omega
        · simp [BinTree.inorder]
        · simp only [BinTree.addrs, List.append_assoc, List.cons_append]
          exact List.Perm.refl _
        · simp only [treeHeight_node]; omega
        · simp only [treeHeight_node]; omega
        · intro _ _; simp only [treeHeight_node] at *; omega
      · rw [if_neg k2]
        cases lr with
        | nil =>
          exfalso
          simp only [AVL.BST.treeHeight] at k2
          omega
        | node la z lb c4 b4 p4 =>
          rw [balanced_node] at hlr
          obtain ⟨hla, hlb, e3, e4⟩ := hlr
          simp only [treeHeight_node] at k1 h1 h2 gl k2 e1 e2 glr
          have gla := treeHeight_ge la
          have glb := treeHeight_ge lb
          refine ⟨.node ll y la c2 _ p2, z, .node lb x r c _ p, c4, b4, p4, rfl,
            ?_, ?_, ?_, ?_, ?_, ?_, ?_, ?_, ?_⟩
          · rw [balanced_node]
            exact ⟨hll, hla, by omega, by omega⟩
          · rw [balanced_node]
            exact ⟨hlb, hr, by omega, by omega⟩
          · simp only [treeHeight_node]; omega
          · simp only [treeHeight_node]; omega
          · simp [BinTree.inorder]
          · simp only [BinTree.addrs, List.append_assoc, List.cons_append]
            exact List.Perm.refl _
          · simp only [treeHeight_node]; omega
          · simp only [treeHeight_node]; omega
          · intro _ _; simp only [treeHeight_node] at *; omega
  · rw [if_neg k1]
    by_cases k3 : AVL.BST.treeHeight l - AVL.BST.treeHeight r < -1
    · rw [if_pos k3]
      cases r with
      | nil =>
        exfalso
        simp only [AVL.BST.treeHeight] at k3
        omega
      | node rl y rr c2 b2 p2 =>
        rw [balanced_node] at hr
        obtain ⟨hrl, hrr, e1, e2⟩ := hr
        simp only [treeHeight_node] at k3 h1 h2 gr
        have grl := treeHeight_ge rl
        have grr := treeHeight_ge rr
        simp only [AVL.updateBalanceFactor]
        by_cases k2 : AVL.BST.treeHeight rl - AVL.BST.treeHeight rr ≤ 0
        · rw [if_pos k2]
          refine ⟨.node l x rl c _ p, y, rr, c2, _, p2, rfl, ?_, hrr, ?_, ?_, ?_, ?_, ?_, ?_, ?_⟩
          · rw [balanced_node]
            exact ⟨hl, hrl, by omega, by omega⟩
          · simp only [treeHeight_node]; omega
          · simp only [treeHeight_node]; omega
          · simp [BinTree.inorder]
          · simp only [BinTree.addrs, List.append_assoc, List.cons_append]
            exact List.Perm.refl _
          · simp only [treeHeight_node]; omega
          · simp only [treeHeight_node]; omega
          · intro _ _; simp only [treeHeight_node] at *; omega
        · rw [if_neg k2]
          cases rl with
          | nil =>
            exfalso
            simp only [AVL.BST.treeHeight] at k2
            omega
          | node ra z rb c4 b4 p4 =>
            rw [balanced_node] at hrl
            obtain ⟨hra, hrb, e3, e4⟩ := hrl
            simp only [treeHeight_node] at k3 h1 h2 gr k2 e1 e2 grl
            have gra := treeHeight_ge ra
            have grb := treeHeight_ge rb
            refine ⟨.node l x ra c _ p, z, .node rb y rr c2 _ p2, c4, b4, p4, rfl,
              ?_, ?_, ?_, ?_, ?_, ?_, ?_, ?_, ?_⟩
            · rw [balanced_node]
              exact ⟨hl, hra, by omega, by omega⟩
            · rw [balanced_node]
              exact ⟨hrb, hrr, by omega, by omega⟩
            · simp only [treeHeight_node]; omega
            · simp only [treeHeight_node]; omega
            · simp [BinTree.inorder]
            · simp only [BinTree.addrs, List.append_assoc, List.cons_append]
              exact List.Perm.refl _
            · simp only [treeHeight_node]; omega
            · simp only [treeHeight_node]; omega
            · intro _ _; simp only [treeHeight_node] at *; omega
    · rw [if_neg k3]
      exact ⟨l, x, r, c, _, p, rfl, hl, hr, by omega, by omega, rfl, List.Perm.refl _,
        by omega, by omega, fun _ _ => rfl⟩

end AvlLemmas

section AvlFuel

variable {T : Type}

theorem rotateLeft_size (t : BinTree T) : AVL.BST.size_ (AVL.rotateLeft t) = AVL.BST.size_ t := by
  unfold AVL.rotateLeft
  split
  · simp only [AVL.BST.size_]; omega
  · rfl

theorem rotateRight_size (t : BinTree T) :
    AVL.BST.size_ (AVL.rotateRight t) = AVL.BST.size_ t := by
  unfold AVL.rotateRight
  split
  · simp only [AVL.BST.size_]; omega
  · rfl

theorem rotateLeftRight_size (t : BinTree T) :
    AVL.BST.size_ (AVL.rotateLeftRight t) = AVL.BST.size_ t := by
  unfold AVL.rotateLeftRight
  split
  · rw [rotateRight_size]
    simp only [AVL.BST.size_, rotateLeft_size]
  · rfl

theorem rotateRightLeft_size (t : BinTree T) :
    AVL.BST.size_ (AVL.rotateRightLeft t) = AVL.BST.size_ t := by
  unfold AVL.rotateRightLeft
  split
  · rw [rotateLeft_size]
    simp only [AVL.BST.size_, rotateRight_size]
  · rfl

theorem updateBalanceFactor_size (t : BinTree T) :
    AVL.BST.size_ (AVL.updateBalanceFactor t) = AVL.BST.size_ t := by
  cases t <;> rfl

theorem balanceTop_size (t : BinTree T) : AVL.BST.size_ (AVL.balanceTop t) = AVL.BST.size_ t := by
  cases t with
  | nil => rfl
  | node l x r c b p =>
    unfold AVL.balanceTop
    simp only [AVL.updateBalanceFactor]
    split
    · cases l with
      | nil => rfl
      | node ll y lr c2 b2 p2 =>
        simp only [AVL.updateBalanceFactor]
        split
        · rw [rotateRight_size]; rfl
        · rw [rotateLeftRight_size]; rfl
    · split
      · cases r with
        | nil => rfl
        | node rl y rr c2 b2 p2 =>
          simp only [AVL.updateBalanceFactor]
          split
          · rw [rotateLeft_size]; rfl
          · rw [rotateRightLeft_size]; rfl
      · rfl

theorem balanceFuel_enough (n m : Nat) (t : BinTree T)
    (hn : AVL.BST.size_ t ≤ n) (hm : AVL.BST.size_ t ≤ m) :
    AVL.balanceFuel n t = AVL.balanceFuel m t := by
  induction n generalizing m t with
  | zero =>
    cases t with
    | nil => cases m <;> rfl
    | node l x r c b p => simp [AVL.BST.size_] at hn
  | succ n ih =>
    cases m with
    | zero =>
      cases t with
      | nil => rfl
      | node l x r c b p => simp [AVL.BST.size_] at hm
    | succ m =>
      have hs := balanceTop_size t
      rw [AVL.balanceFuel, AVL.balanceFuel]
      cases hb : AVL.balanceTop t with
      | nil => rfl
      | node l x r c b p =>
        rw [hb] at hs
        simp only [AVL.BST.size_] at hs
        simp only
        rw [ih m l (by omega) (by omega), ih m r (by omega) (by omega)]

/-- The recursion of `AVL::balance`: the fuel of `balance` is enough. -/
theorem balance_unfold (t : BinTree T) :
    AVL.balance t =
      match AVL.balanceTop t with
      | .nil => .nil
      | .node l x r c b p => .node (AVL.balance l) x (AVL.balance r) c b p := by
  have hs := balanceTop_size t
  unfold AVL.balance
  cases t with
  | nil => rfl
  | node l0 x0 r0 c0 b0 p0 =>
    rw [show AVL.BST.size_ (BinTree.node l0 x0 r0 c0 b0 p0)
      = (AVL.BST.size_ l0 + AVL.BST.size_ r0) + 1 from by simp only [AVL.BST.size_]; omega,
      AVL.balanceFuel]
    cases hb : AVL.balanceTop (BinTree.node l0 x0 r0 c0 b0 p0) with
    | nil => rfl
    | node l x r c b p =>
      rw [hb] at hs
      simp only [AVL.BST.size_] at hs
      simp only
      rw [balanceFuel_enough _ (AVL.BST.size_ l) l (by omega) (le_refl _),
        balanceFuel_enough _ (AVL.BST.size_ r) r (by omega) (le_refl _)]

/-- On a balanced tree `balance` changes balance factors only. -/
theorem balance_balanced (t : BinTree T) (h : AVL.Balanced t) :
    (AVL.balance t).inorder = t.inorder ∧ (AVL.balance t).addrs = t.addrs ∧
    AVL.BST.treeHeight (AVL.balance t) = AVL.BST.treeHeight t ∧
    AVL.Balanced (AVL.balance t) := by
  induction t with
  | nil => exact ⟨rfl, rfl, rfl, trivial⟩
  | node l x r c b p ihl ihr =>
    obtain ⟨hl, hr, e1, e2⟩ := h
    have htop : AVL.balanceTop (.node l x r c b p)
        = .node l x r c (AVL.BST.treeHeight l - AVL.BST.treeHeight r) p := by
      unfold AVL.balanceTop
      simp only [AVL.updateBalanceFactor]
      rw [if_neg (by omega), if_neg (by omega)]
    rw [balance_unfold, htop]
    obtain ⟨i1, a1, t1, b1⟩ := ihl hl
    obtain ⟨i2, a2, t2, b2⟩ := ihr hr
    refine ⟨?_, ?_, ?_, ?_⟩
    · simp only [BinTree.inorder, i1, i2]
    · simp only [BinTree.addrs, a1, a2]
    · simp only [treeHeight_node, t1, t2]
    · rw [balanced_node, t1, t2]
      exact ⟨b1, b2, e1, e2⟩

/-- What `balance` makes of a node whose subtrees are balanced and differ in
height by at most 2. -/
theorem balance_spec (l r : BinTree T) (x : T) (c : Nat) (b : Int) (p : Nat)
    (hl : AVL.Balanced l) (hr : AVL.Balanced r)
    (h1 : AVL.BST.treeHeight l ≤ AVL.BST.treeHeight r + 2)
    (h2 : AVL.BST.treeHeight r ≤ AVL.BST.treeHeight l + 2) :
    (AVL.balance (.node l x r c b p)).inorder = l.inorder ++ x :: r.inorder ∧
    (AVL.balance (.node l x r c b p)).addrs.Perm (l.addrs ++ p :: r.addrs) ∧
    AVL.Balanced (AVL.balance (.node l x r c b p)) ∧
    max (AVL.BST.treeHeight l) (AVL.BST.treeHeight r)
      ≤ AVL.BST.treeHeight (AVL.balance (.node l x r c b p)) ∧
    AVL.BST.treeHeight (AVL.balance (.node l x r c b p))
      ≤ 1 + max (AVL.BST.treeHeight l) (AVL.BST.treeHeight r) ∧
    (AVL.BST.treeHeight l ≤ AVL.BST.treeHeight r + 1 →
      AVL.BST.treeHeight r ≤ AVL.BST.treeHeight l + 1 →
      AVL.BST.treeHeight (AVL.balance (.node l x r c b p))
        = 1 + max (AVL.BST.treeHeight l) (AVL.BST.treeHeight r)) := by
  obtain ⟨l1, x1, r1, c1, b1, p1, htop, bl, br, e1, e2, hin, hperm, k1, k2, k3⟩ :=
    balanceTop_spec l r x c b p hl hr h1 h2
  obtain ⟨i1, a1, t1, q1⟩ := balance_balanced l1 bl
  obtain ⟨i2, a2, t2, q2⟩ := balance_balanced r1 br
  rw [balance_unfold, htop]
  simp only [BinTree.inorder, BinTree.addrs, treeHeight_node, balanced_node, i1, i2, a1, a2,
    t1, t2]
  refine ⟨hin, hperm, ⟨q1, q2, e1, e2⟩, by omega, by omega, fun g1 g2 => ?_⟩
  have := k3 g1 g2
  omega

end AvlFuel

section AvlOps

variable {T : Type} [LinearOrder T]

theorem avl_add__fresh (d : Decls) (td : TreeDecls) (s s1 : SimpleAllocator)
    (t : BinTree T) (v : T) (p : Nat) (hb : t.IsBST) (hbal : AVL.Balanced t)
    (hv : v ∉ t.inorder) (ha : allocate d s (some "NodeLabel") = (.ok p, s1)) :
    ∃ t1, AVL.add_ d td (some s) t v = (.ok (), t1, some s1) ∧
      t1.inorder = t.inorder.orderedInsert (· ≤ ·) v ∧
      t1.addrs.Perm (p :: t.addrs) ∧ AVL.Balanced t1 ∧
      AVL.BST.treeHeight t ≤ AVL.BST.treeHeight t1 ∧
      AVL.BST.treeHeight t1 ≤ AVL.BST.treeHeight t + 1 := by
  induction t with
  | nil =>
    obtain ⟨i1, a1, t1, q1⟩ := balance_balanced
      (BinTree.node .nil v .nil td.count td.balanceFactor p)
      ⟨trivial, trivial, by simp [AVL.BST.treeHeight], by simp [AVL.BST.treeHeight]⟩
    refine ⟨AVL.balance (.node .nil v .nil td.count td.balanceFactor p), ?_, ?_, ?_, q1, ?_, ?_⟩
    · rw [AVL.add_, makeNode_ok d td s s1 v p ha]
    · rw [i1]; rfl
    · rw [a1]; exact List.Perm.refl _
    · rw [t1]; simp [AVL.BST.treeHeight]
    · rw [t1]; simp [AVL.BST.treeHeight]
  | node l x r c b p0 ihl ihr =>
    obtain ⟨hl, hr, hlx, hrx⟩ := hb
    obtain ⟨bl, br, e1, e2⟩ := hbal
    rw [inorder_node, List.mem_append, List.mem_cons] at hv
    push_neg at hv
    obtain ⟨hvl, hvx, hvr⟩ := hv
    rw [AVL.add_]
    by_cases h1 : v < x
    · obtain ⟨l1, eq1, i1, q1, b1, g1, g2⟩ := ihl hl bl hvl
      obtain ⟨k1, k2, k3, k4, k5, k6⟩ := balance_spec l1 r x c b p0 b1 br (by omega) (by omega)
      refine ⟨AVL.balance (.node l1 x r c b p0), ?_, ?_, ?_, k3, ?_, ?_⟩
      · rw [if_pos h1, eq1]
      · rw [k1, inorder_node, i1, orderedInsert_mid_le v x _ _ (le_of_lt h1)]
      · simp only [BinTree.addrs]
        exact k2.trans ((List.Perm.append_right _ q1).trans (by simp [List.perm_middle]))
      · simp only [treeHeight_node]
        by_cases g3 : AVL.BST.treeHeight l1 ≤ AVL.BST.treeHeight r + 1
        · have := k6 g3 (by omega); omega
        · omega
      · simp only [treeHeight_node]
        omega
    · have h2 : v > x := lt_of_le_of_ne (not_lt.mp h1) (Ne.symm hvx)
      obtain ⟨r1, eq1, i1, q1, b1, g1, g2⟩ := ihr hr br hvr
      obtain ⟨k1, k2, k3, k4, k5, k6⟩ := balance_spec l r1 x c b p0 bl b1 (by omega) (by omega)
      refine ⟨AVL.balance (.node l x r1 c b p0), ?_, ?_, ?_, k3, ?_, ?_⟩
      · rw [if_neg h1, if_pos h2, eq1]
      · rw [k1, inorder_node, i1,
          orderedInsert_mid_gt v x _ _ (fun y hy => lt_trans (hlx y hy) h2) h2]
      · simp only [BinTree.addrs]
        have q2 : (p0 :: r1.addrs).Perm (p :: p0 :: r.addrs) :=
          ((List.Perm.cons p0 q1).trans (List.Perm.swap p p0 _))
        exact k2.trans ((List.Perm.append_left _ q2).trans (by simp [List.perm_middle]))
      · simp only [treeHeight_node]
        by_cases g3 : AVL.BST.treeHeight r1 ≤ AVL.BST.treeHeight l + 1
        · have := k6 (by omega) g3; omega
        · omega
      · simp only [treeHeight_node]
        omega

theorem avl_add__nomem (d : Decls) (td : TreeDecls) (s s1 : SimpleAllocator)
    (t : BinTree T) (v : T) (e : Exn) (hv : v ∉ t.inorder)
    (ha : allocate d s (some "NodeLabel") = (.error e, s1)) :
    AVL.add_ d td (some s) t v = (.error (.allocator e), t, some s1) := by
  induction t with
  | nil =>
    rw [AVL.add_, makeNode_error d td s s1 v e ha]
  | node l x r c b p0 ihl ihr =>
    rw [inorder_node, List.mem_append, List.mem_cons] at hv
    push_neg at hv
    obtain ⟨hvl, hvx, hvr⟩ := hv
    rw [AVL.add_]
    by_cases h1 : v < x
    · rw [if_pos h1, ihl hvl]
    · have h2 : v > x := lt_of_le_of_ne (not_lt.mp h1) (Ne.symm hvx)
      rw [if_neg h1, if_pos h2, ihr hvr]

end AvlOps

section AvlRelease

variable {T : Type} [LinearOrder T]

end AvlRelease

/-- C22 (as stated, refuted): the AVL tree `avlTwo` holds 3 and 5 in the two
blocks of an allocator limited to one page of two objects.  `add(8)`, of a
value that is not in the tree, does not yield a tree with 8 in it: the
allocator throws `E_NO_PAGE`, the exception leaves `add`, and the tree is as
before.  Nor is the block the allocator yields always storage of its own:
over `plainStart`, an allocator with no header and no padding, the seven
calls of `overlapOps` return and leave the nodes of 35, 10 and 40 at 4104,
4168 and 4200; `add(36)` then returns with its node at 4096, and the 32 bytes
of that node, up to 4128, include bytes of the node of 35, which the
construction of the new node overwrites. -/
theorem avl_add_page_limit :
    (AVL.BST.construct stdDecls stdTreeDecls stdBackend zeroMem (some nodeStart)
      : Except TreeExn (BST Nat)) = .ok emptyTree ∧
    (AVL.add stdDecls stdTreeDecls emptyTree 5).1 = .ok () ∧
    (AVL.add stdDecls stdTreeDecls avlOne 3).1 = .ok () ∧
    avlTwo.root_ = .node (.node .nil 3 .nil 0 0 4111) 5 .nil 0 1 4152 ∧
    (AVL.add stdDecls stdTreeDecls avlTwo 8).1 = .error (.allocator .E_NO_PAGE) ∧
    (AVL.add stdDecls stdTreeDecls avlTwo 8).2.root_ = avlTwo.root_ ∧
    (AVL.BST.construct stdDecls stdTreeDecls stdBackend zeroMem (some plainStart)
      : Except TreeExn (BST Nat)) = .ok plainTree ∧
    stdTreeDecls.nodeSize = 32 ∧
    AVL.outcomes stdDecls stdTreeDecls plainTree overlapOps = List.replicate 7 (.ok ()) ∧
    (AVL.after stdDecls stdTreeDecls plainTree overlapOps).root_
      = .node (.node .nil 10 .nil 0 0 4168) 35 (.node .nil 40 .nil 0 0 4200) 0 0 4104 ∧
    (AVL.add stdDecls stdTreeDecls (AVL.after stdDecls stdTreeDecls plainTree overlapOps) 36).1
      = .ok () ∧
    (AVL.add stdDecls stdTreeDecls
        (AVL.after stdDecls stdTreeDecls plainTree overlapOps) 36).2.root_
      = .node (.node .nil 10 .nil 0 0 4168) 35
          (.node (.node .nil 36 .nil 0 0 4096) 40 .nil 0 1 4200) 0 (-1) 4104 :=
  ⟨rfl, rfl, rfl, rfl, rfl, rfl, rfl, rfl, by decide!, by decide!, by decide!, by decide!⟩

/-- C22 (amended): for an AVL tree `t` (a binary search tree that is
height-balanced at every node) with an allocator and a value `v` that is not
in `t`.  If the allocator throws, its exception leaves `AVL::add(v)`.  When
the bytes of the nodes of `t` are out of the way of the `allocate` call
(`BST.AllocateClear`), the call leaves the bytes of the nodes of `t` as they
were; if the allocator yields a block, the node built in it shares no byte
with a node of `t`, and `add(v)` returns and leaves a binary search tree that
is height-balanced at every node, whose in-order sequence is that of `t` with
`v` inserted in sorted position and whose nodes are those of `t` and the new
one; if the allocator throws, the root is as it was. -/
theorem avl_add_contract {T : Type} [LinearOrder T] (d : Decls) (td : TreeDecls)
    (t : BST T) (s : SimpleAllocator) (v : T)
    (hs : t.allocator_ = some s) (hb : t.root_.IsBST) (hbal : AVL.Balanced t.root_)
    (hv : v ∉ t.root_.inorder) :
    (∀ e s1, allocate d s (some "NodeLabel") = (.error e, s1) →
      (AVL.add d td t v).1 = .error (.allocator e) ∧
      (AVL.add d td t v).2.allocator_ = some s1) ∧
    (BST.AllocateClear d td s t.root_ →
      (∀ q ∈ t.root_.addrs, ∀ x, q ≤ x → x < q + td.nodeSize →
        (allocate d s (some "NodeLabel")).2.mem x = s.mem x) ∧
      (∀ p s1, allocate d s (some "NodeLabel") = (.ok p, s1) →
        (∀ q ∈ t.root_.addrs, q + td.nodeSize ≤ p ∨ p + td.nodeSize ≤ q) ∧
        ∃ t1, AVL.add d td t v = (.ok (), t1) ∧ t1.allocator_ = some s1 ∧
          t1.root_.IsBST ∧ AVL.Balanced t1.root_ ∧
          t1.root_.inorder = t.root_.inorder.orderedInsert (· ≤ ·) v ∧
          t1.root_.addrs.Perm (p :: t.root_.addrs)) ∧
      (∀ e s1, allocate d s (some "NodeLabel") = (.error e, s1) →
        AVL.add d td t v = (.error (.allocator e), { t with allocator_ := some s1 }))) := by
  obtain ⟨al, own, root⟩ := t
  simp only at hs hb hbal hv ⊢
  subst hs
  refine ⟨fun e s1 ha => ?_, fun hc =>
    ⟨fun q hq x h1 h2 => allocateClear_kept d td s root _ hc q hq x h1 h2,
      fun p s1 ha => ?_, fun e s1 ha => ?_⟩⟩
  · simp only [AVL.add, avl_add__nomem d td s s1 root v e hv ha, and_self]
  · obtain ⟨t1, e1, i1, a1, b1, _, _⟩ := avl_add__fresh d td s s1 root v p hb hbal hv ha
    refine ⟨allocateClear_apart d td s root _ hc p (by rw [ha]),
      ⟨some s1, own, t1⟩, ?_, rfl, ?_, b1, i1, a1⟩
    · simp only [AVL.add, e1]
    · rw [isBST_iff_sorted, i1]
      exact sorted_lt_orderedInsert root.inorder v ((isBST_iff_sorted root).mp hb) hv
  · simp only [AVL.add, avl_add__nomem d td s s1 root v e hv ha]

/-- C22 (amended), on the AVL tree `avlOne` that holds 5 in the node at 4152:
the bytes of that node are out of the way of the `allocate` call, `add(3)` is
given the block 4111 and leaves a balanced binary search tree with the
in-order sequence 3, 5. -/
theorem avl_add_contract_witness :
    avlOne.allocator_ = some (allocate stdDecls nodeStart (some "NodeLabel")).2 ∧
    avlOne.root_.IsBST ∧ AVL.Balanced avlOne.root_ ∧ 3 ∉ avlOne.root_.inorder ∧
    BST.AllocateClear stdDecls stdTreeDecls
      (allocate stdDecls nodeStart (some "NodeLabel")).2 avlOne.root_ ∧
    (allocate stdDecls (allocate stdDecls nodeStart (some "NodeLabel")).2 (some "NodeLabel")).1
      = .ok 4111 ∧
    avlOne.root_.addrs = [4152] ∧
    ∃ t1, AVL.add stdDecls stdTreeDecls avlOne 3 = (.ok (), t1) ∧
      t1.root_.IsBST ∧ AVL.Balanced t1.root_ ∧
      t1.root_.inorder = avlOne.root_.inorder.orderedInsert (· ≤ ·) 3 ∧
      t1.root_.addrs.Perm (4111 :: avlOne.root_.addrs) :=
  ⟨rfl, by decide, by decide, by decide,
    by unfold BST.AllocateClear BinTree.Outside; decide!, rfl, rfl,
    ((((avl_add_contract stdDecls stdTreeDecls avlOne
      (allocate stdDecls nodeStart (some "NodeLabel")).2 3 rfl (by decide) (by decide)
      (by decide)).2 (by unfold BST.AllocateClear BinTree.Outside; decide!)).2.1
        4111 _ rfl).2).elim
      (fun t1 h => ⟨t1, h.1, h.2.2.1, h.2.2.2.1, h.2.2.2.2.1, h.2.2.2.2.2⟩)⟩

section GraphLemmas

theorem insertEdge_split (e : AdjInfo) (L : List AdjInfo) :
    ALGraph.insertEdge e L
      = L.takeWhile (fun x => decide (x.weight ≤ e.weight)) ++
        e :: L.dropWhile (fun x => decide (x.weight ≤ e.weight)) := by
  induction L with
  | nil => rfl
  | cons x xs ih =>
    rw [ALGraph.insertEdge]
    by_cases h : x.weight ≤ e.weight
    · rw [if_pos h, ih]
      simp [List.takeWhile, List.dropWhile, h]
    · rw [if_neg h]
      simp [List.takeWhile, List.dropWhile, h]

theorem dropWhile_sorted_gt (w : Nat) (L : List AdjInfo)
    (hs : L.Pairwise (fun a b => a.weight ≤ b.weight)) :
    ∀ x ∈ L.dropWhile (fun x => decide (x.weight ≤ w)), w < x.weight := by
  induction L with
  | nil => simp
  | cons y ys ih =>
    rw [List.pairwise_cons] at hs
    by_cases h : y.weight ≤ w
    · simpa [List.dropWhile, h] using ih hs.2
    · intro x hx
      simp only [List.dropWhile, h, decide_False] at hx
      rcases List.mem_cons.mp hx with hx | hx
      · rw [hx]; omega
      · have := hs.1 x hx
        omega

theorem insertEdge_sorted (e : AdjInfo) (L : List AdjInfo)
    (hs : L.Pairwise (fun a b => a.weight ≤ b.weight)) :
    (ALGraph.insertEdge e L).Pairwise (fun a b => a.weight ≤ b.weight) := by
  induction L with
  | nil => simp [ALGraph.insertEdge]
  | cons x xs ih =>
    rw [List.pairwise_cons] at hs
    rw [ALGraph.insertEdge]
    by_cases h : x.weight ≤ e.weight
    · rw [if_pos h, List.pairwise_cons]
      refine ⟨?_, ih hs.2⟩
      intro y hy
      rw [insertEdge_split] at hy
      rcases List.mem_append.mp hy with hy | hy
      · exact hs.1 y ((List.takeWhile_sublist _).mem hy)
      · rcases List.mem_cons.mp hy with hy | hy
        · rw [hy]; exact h
        · exact hs.1 y ((List.dropWhile_sublist _).mem hy)
    · rw [if_neg h, List.pairwise_cons, List.pairwise_cons]
      refine ⟨?_, hs⟩
      intro y hy
      rcases List.mem_cons.mp hy with hy | hy
      · rw [hy]; omega
      · have := hs.1 y hy
        omega

/-- Every adjacency list is sorted by weight and there is one list per vertex. -/
theorem addDEdge_keeps (g : ALGraph) (source destination weight : Nat)
    (h : g.adjList_.length = g.size_ ∧
      ∀ L ∈ g.adjList_, L.Pairwise (fun a b => a.weight ≤ b.weight)) :
    (g.addDEdge source destination weight).size_ = g.size_ ∧
    (g.addDEdge source destination weight).adjList_.length = g.size_ ∧
    ∀ L ∈ (g.addDEdge source destination weight).adjList_,
      L.Pairwise (fun a b => a.weight ≤ b.weight) := by
  unfold ALGraph.addDEdge
  split
  · refine ⟨rfl, by simp [h.1], ?_⟩
    intro L hL
    rcases List.mem_or_eq_of_mem_set hL with hL | hL
    · exact h.2 L hL
    · rw [hL]
      apply insertEdge_sorted
      rw [List.getD_eq_getElem?_getD]
      cases hg : g.adjList_[source - 1]? with
      | none => simp
      | some M => exact h.2 M (List.getElem?_mem hg)
  · exact ⟨rfl, h.1, h.2⟩

theorem build_keeps (size : Nat) (ops : List GraphOp) :
    (ALGraph.build size ops).size_ = size ∧
    (ALGraph.build size ops).adjList_.length = size ∧
    ∀ L ∈ (ALGraph.build size ops).adjList_, L.Pairwise (fun a b => a.weight ≤ b.weight) := by
  have key : ∀ (ops : List GraphOp) (g : ALGraph),
      (g.size_ = size ∧ g.adjList_.length = size ∧
        ∀ L ∈ g.adjList_, L.Pairwise (fun a b => a.weight ≤ b.weight)) →
      ((ops.foldl ALGraph.step g).size_ = size ∧
        (ops.foldl ALGraph.step g).adjList_.length = size ∧
        ∀ L ∈ (ops.foldl ALGraph.step g).adjList_,
          L.Pairwise (fun a b => a.weight ≤ b.weight)) := by
    intro ops
    induction ops with
    | nil => exact fun g h => h
    | cons op ops ih =>
      intro g ⟨h1, h2, h3⟩
      rw [List.foldl_cons]
      apply ih
      have step1 : ∀ (g : ALGraph) (a b w : Nat),
          (g.size_ = size ∧ g.adjList_.length = size ∧
            ∀ L ∈ g.adjList_, L.Pairwise (fun a b => a.weight ≤ b.weight)) →
          ((g.addDEdge a b w).size_ = size ∧ (g.addDEdge a b w).adjList_.length = size ∧
            ∀ L ∈ (g.addDEdge a b w).adjList_,
              L.Pairwise (fun a b => a.weight ≤ b.weight)) := by
        intro g a b w ⟨k1, k2, k3⟩
        have := addDEdge_keeps g a b w ⟨by rw [k2, k1], k3⟩
        exact ⟨by rw [this.1, k1], by rw [this.2.1, k1], this.2.2⟩
      cases op with
      | addDEdge a b w => exact step1 g a b w ⟨h1, h2, h3⟩
      | addUEdge a b w =>
        rw [ALGraph.step, ALGraph.addUEdge]
        split
        · exact step1 _ b a w (step1 g a b w ⟨h1, h2, h3⟩)
        · exact ⟨h1, h2, h3⟩
  exact key ops (ALGraph.construct size) ⟨rfl, by simp [ALGraph.construct], by
    intro L hL
    rw [ALGraph.construct] at hL
    rw [List.eq_of_mem_replicate hL]
    exact List.Pairwise.nil⟩

end GraphLemmas

/-- C29: `addDEdge` leaves the graph as it is when `source` or `destination` is
outside 1..size.  Otherwise only the adjacency list of `source` changes: the
entry `{destination, weight}` is inserted after the leading entries whose
weight is at most `weight`, and in a sorted list these are all the entries of
weight at most `weight`.  Every adjacency list of a graph built from the empty
graph by `addDEdge` and `addUEdge` calls is sorted by non-decreasing weight. -/
theorem addDEdge_sorted_insert (g : ALGraph) (source destination weight : Nat) :
    (¬ (1 ≤ source ∧ source ≤ g.size_ ∧ 1 ≤ destination ∧ destination ≤ g.size_) →
      g.addDEdge source destination weight = g) ∧
    ((1 ≤ source ∧ source ≤ g.size_ ∧ 1 ≤ destination ∧ destination ≤ g.size_) →
      (g.addDEdge source destination weight).size_ = g.size_ ∧
      (g.addDEdge source destination weight).adjList_
        = g.adjList_.set (source - 1)
          ((g.adjList_.getD (source - 1) []).takeWhile (fun x => decide (x.weight ≤ weight)) ++
            ⟨destination, weight⟩ ::
            (g.adjList_.getD (source - 1) []).dropWhile (fun x => decide (x.weight ≤ weight))) ∧
      ((g.adjList_.getD (source - 1) []).Pairwise (fun a b => a.weight ≤ b.weight) →
        ∀ x ∈ (g.adjList_.getD (source - 1) []).dropWhile (fun x => decide (x.weight ≤ weight)),
          weight < x.weight)) ∧
    (∀ (size : Nat) (ops : List GraphOp), g = ALGraph.build size ops →
      g.adjList_.length = g.size_ ∧
      ∀ L ∈ g.adjList_, L.Pairwise (fun a b => a.weight ≤ b.weight)) := by
  refine ⟨fun h => ?_, fun h => ⟨?_, ?_, ?_⟩, ?_⟩
  · unfold ALGraph.addDEdge
    rw [if_neg]
    intro h2
    exact h ⟨h2.1, h2.2.2.1, h2.2.1, h2.2.2.2⟩
  · unfold ALGraph.addDEdge
    split <;> rfl
  · unfold ALGraph.addDEdge
    rw [if_pos ⟨h.1, h.2.2.1, h.2.1, h.2.2.2⟩]
    simp only
    rw [insertEdge_split]
  · exact dropWhile_sorted_gt weight _
  · intro size ops hg
    have := build_keeps size ops
    rw [← hg] at this
    exact ⟨by rw [this.2.1, this.1], this.2.2⟩

/-! ## Shortest paths -/

section DijkstraTermination

open ALGraph

theorem at__set (l : List DijkstraInfo) (id v : Nat) (e : DijkstraInfo)
    (h1 : 1 ≤ id) (h2 : id ≤ l.length) (h3 : 1 ≤ v) :
    at_ (l.set (id - 1) e) v = if v = id then e else at_ l v := by
  unfold at_
  rw [List.getD_eq_getElem?_getD, List.getD_eq_getElem?_getD, List.getElem?_set]
  by_cases h : v = id
  · subst h
    rw [if_pos rfl, if_pos rfl, if_pos (by omega)]
    rfl
  · rw [if_neg (by omega), if_neg h]

theorem sum_set (l : List DijkstraInfo) (i : Nat) (e : DijkstraInfo) (h : i < l.length) :
    ((l.set i e).map (fun x => x.cost)).sum + (l.getD i ⟨0, []⟩).cost
      = (l.map (fun x => x.cost)).sum + e.cost := by
  induction l generalizing i with
  | nil => simp at h
  | cons a l ih =>
    cases i with
    | zero =>
      simp only [List.set_cons_zero, List.map_cons, List.sum_cons, List.getD_cons_zero]
      omega
    | succ i =>
      have := ih i (by simpa using h)
      simp only [List.set_cons_succ, List.map_cons, List.sum_cons, List.getD_cons_succ]
      omega

theorem measure_visit (d : Decls) (u : Nat) (st : DijkstraState) (e : AdjInfo) :
    ALGraph.measure (visit d u st e) ≤ ALGraph.measure st := by
  unfold visit
  simp only
  generalize ((at_ st.dijkstraInfoList u).cost + e.weight) % 2 ^ d.counterBits = newCost
  split
  · rename_i hlt
    have hlt2 : newCost < (st.dijkstraInfoList.getD (e.id - 1) ⟨0, []⟩).cost := hlt
    by_cases hi : e.id - 1 < st.dijkstraInfoList.length
    · have hs := sum_set st.dijkstraInfoList (e.id - 1)
        ⟨newCost, (at_ st.dijkstraInfoList u).path ++ [e.id]⟩ hi
      simp only [ALGraph.measure, List.length_cons] at hs ⊢
      omega
    · exfalso
      rw [List.getD_eq_default _ _ (by omega)] at hlt2
      simp at hlt2
  · exact le_refl _

theorem measure_fold (d : Decls) (u : Nat) (L : List AdjInfo) (st : DijkstraState) :
    ALGraph.measure (L.foldl (visit d u) st) ≤ ALGraph.measure st := by
  induction L generalizing st with
  | nil => exact le_refl _
  | cons e L ih =>
    rw [List.foldl_cons]
    exact le_trans (ih _) (measure_visit d u st e)

theorem top_mem (pq : List (Nat × Nat)) (t : Nat × Nat) (h : top pq = some t) : t ∈ pq := by
  induction pq generalizing t with
  | nil => cases h
  | cons x xs ih =>
    rw [top] at h
    cases hx : top xs with
    | none =>
      rw [hx] at h
      simp only [Option.some.injEq] at h
      rw [← h]
      exact List.mem_cons_self _ _
    | some y =>
      rw [hx] at h
      simp only at h
      split at h
      · simp only [Option.some.injEq] at h
        rw [← h]
        exact List.mem_cons_of_mem _ (ih y hx)
      · simp only [Option.some.injEq] at h
        rw [← h]
        exact List.mem_cons_self _ _

theorem top_none (pq : List (Nat × Nat)) (h : top pq = none) : pq = [] := by
  cases pq with
  | nil => rfl
  | cons x xs =>
    rw [top] at h
    cases hx : top xs with
    | none => rw [hx] at h; cases h
    | some y =>
      rw [hx] at h
      simp only at h
      split at h <;> cases h

/-- The loop ends: more passes than the measure of the state are never needed. -/
theorem loop_terminates (d : Decls) (g : ALGraph) (fuel : Nat) (st : DijkstraState)
    (h : ALGraph.measure st < fuel) : ∃ r, loop d g fuel st = some r := by
  induction fuel generalizing st with
  | zero => omega
  | succ fuel ih =>
    rw [loop]
    cases ht : top st.pq with
    | none => exact ⟨st, rfl⟩
    | some t =>
      simp only
      apply ih
      have hm := top_mem st.pq t ht
      have h1 := measure_fold d t.2 (g.adjList_.getD (t.2 - 1) [])
        { st with pq := st.pq.erase t }
      have h2 : ALGraph.measure { st with pq := st.pq.erase t } + 1 = ALGraph.measure st := by
        simp only [ALGraph.measure, List.length_erase_of_mem hm]
        have : 0 < st.pq.length := List.length_pos_of_mem hm
        omega
      omega

/-- More fuel does not change the result of the loop. -/
theorem loop_mono (d : Decls) (g : ALGraph) (fuel k : Nat) (st r : DijkstraState)
    (h : loop d g fuel st = some r) : loop d g (fuel + k) st = some r := by
  induction fuel generalizing st with
  | zero => cases h
  | succ fuel ih =>
    rw [show fuel + 1 + k = (fuel + k) + 1 from by omega, loop]
    rw [loop] at h
    cases ht : top st.pq with
    | none =>
      rw [ht] at h
      exact h
    | some t =>
      rw [ht] at h
      exact ih _ h

end DijkstraTermination

section TraceLemmas

open ALGraph

theorem trace_cons (g : ALGraph) (s v W x Wx : Nat) (rest : List (Nat × Nat)) :
    g.Trace s ((v, W) :: (x, Wx) :: rest) ↔
      (∃ c, g.Edge x v c ∧ W = Wx + c) ∧ g.Trace s ((x, Wx) :: rest) := Iff.rfl

theorem trace_single (g : ALGraph) (s v W : Nat) :
    g.Trace s [(v, W)] ↔ v = s ∧ W = 0 := Iff.rfl

theorem trace_mono (g : ALGraph) (s : Nat) (rest : List (Nat × Nat)) (v W : Nat)
    (h : g.Trace s ((v, W) :: rest)) : ∀ q ∈ (v, W) :: rest, q.2 ≤ W := by
  induction rest generalizing v W with
  | nil =>
    intro q hq
    rw [List.mem_singleton] at hq
    rw [hq]
  | cons a rest ih =>
    obtain ⟨x, Wx⟩ := a
    rw [trace_cons] at h
    obtain ⟨⟨c, _, hW⟩, ht⟩ := h
    intro q hq
    rcases List.mem_cons.mp hq with hq | hq
    · rw [hq]
    · have := ih x Wx ht q hq
      omega

theorem edge_range (g : ALGraph) (hg : g.WellFormed) (x v c : Nat) (h : g.Edge x v c) :
    1 ≤ x ∧ x ≤ g.size_ ∧ 1 ≤ v ∧ v ≤ g.size_ := by
  obtain ⟨hx, hm⟩ := h
  rw [List.getD_eq_getElem?_getD] at hm
  cases hL : g.adjList_[x - 1]? with
  | none =>
    rw [hL] at hm
    simp at hm
  | some L =>
    rw [hL] at hm
    have hlt : x - 1 < g.adjList_.length := by
      by_contra hc
      rw [List.getElem?_eq_none (by omega)] at hL
      cases hL
    have := hg.2 L (List.getElem?_mem hL) ⟨v, c⟩ hm
    rw [hg.1] at hlt
    exact ⟨hx, by omega, this.1, this.2⟩

theorem trace_range (g : ALGraph) (hg : g.WellFormed) (s : Nat) (h1 : 1 ≤ s) (h2 : s ≤ g.size_)
    (tr : List (Nat × Nat)) (h : g.Trace s tr) : ∀ q ∈ tr, 1 ≤ q.1 ∧ q.1 ≤ g.size_ := by
  induction tr with
  | nil => exact fun _ hq => by simp at hq
  | cons a rest ih =>
    obtain ⟨v, W⟩ := a
    cases rest with
    | nil =>
      rw [trace_single] at h
      intro q hq
      rw [List.mem_singleton] at hq
      rw [hq, h.1]
      exact ⟨h1, h2⟩
    | cons b rest =>
      obtain ⟨x, Wx⟩ := b
      rw [trace_cons] at h
      obtain ⟨⟨c, he, _⟩, ht⟩ := h
      intro q hq
      rcases List.mem_cons.mp hq with hq | hq
      · rw [hq]
        have := edge_range g hg x v c he
        exact ⟨this.2.2.1, this.2.2.2⟩
      · exact ih ht q hq

theorem trace_suffix (g : ALGraph) (s : Nat) (a b : List (Nat × Nat)) (hb : b ≠ [])
    (h : g.Trace s (a ++ b)) : g.Trace s b := by
  induction a with
  | nil => exact h
  | cons q a ih =>
    apply ih
    obtain ⟨v, W⟩ := q
    cases hab : a ++ b with
    | nil =>
      exfalso
      exact hb (List.append_eq_nil.mp hab).2
    | cons r rest =>
      obtain ⟨x, Wx⟩ := r
      rw [List.cons_append, hab, trace_cons] at h
      exact h.2

/-- A path can be cut down to a path to the same vertex that visits no vertex
twice and weighs no more. -/
theorem trace_simple (g : ALGraph) (s : Nat) (rest : List (Nat × Nat)) (v W : Nat)
    (h : g.Trace s ((v, W) :: rest)) :
    ∃ rest1 W1, g.Trace s ((v, W1) :: rest1) ∧ W1 ≤ W ∧
      (((v, W1) :: rest1).map Prod.fst).Nodup := by
  induction rest generalizing v W with
  | nil => exact ⟨[], W, h, le_refl _, by simp⟩
  | cons a rest ih =>
    obtain ⟨x, Wx⟩ := a
    rw [trace_cons] at h
    obtain ⟨⟨c, he, hW⟩, ht⟩ := h
    obtain ⟨r1, Wx1, ht1, hle, hnd⟩ := ih x Wx ht
    by_cases hv : v ∈ ((x, Wx1) :: r1).map Prod.fst
    · obtain ⟨q, hq, hqv⟩ := List.mem_map.mp hv
      obtain ⟨pre, post, hsplit⟩ := List.append_of_mem hq
      obtain ⟨qv, qW⟩ := q
      simp only at hqv
      subst hqv
      have hsuf : g.Trace s ((qv, qW) :: post) := by
        apply trace_suffix g s pre _ (by simp)
        rw [← hsplit]
        exact ht1
      have hmono := trace_mono g s r1 x Wx1 ht1 (qv, qW) hq
      simp only at hmono
      refine ⟨post, qW, hsuf, by omega, ?_⟩
      have hsub : ((qv, qW) :: post).Sublist ((x, Wx1) :: r1) := by
        rw [hsplit]
        exact List.sublist_append_right _ _
      exact List.Nodup.sublist (List.Sublist.map Prod.fst hsub) hnd
    · refine ⟨(x, Wx1) :: r1, Wx1 + c, ?_, by omega, ?_⟩
      · rw [trace_cons]
        exact ⟨⟨c, he, rfl⟩, ht1⟩
      · rw [List.map_cons, List.nodup_cons]
        exact ⟨hv, hnd⟩

end TraceLemmas

section DijkstraInvariant

open ALGraph

theorem uint_max_pos (d : Decls) (h : 0 < d.counterBits) : 0 < UINT_MAX d := by
  unfold UINT_MAX
  have : 2 ^ 1 ≤ 2 ^ d.counterBits := Nat.pow_le_pow_right (by decide) h
  omega

theorem uint_max_lt (d : Decls) : UINT_MAX d < 2 ^ d.counterBits := by
  unfold UINT_MAX
  have : 0 < 2 ^ d.counterBits := Nat.pow_pos (by decide)
  omega

theorem at__replicate (n v : Nat) (e : DijkstraInfo) (h1 : 1 ≤ v) (h2 : v ≤ n) :
    at_ (List.replicate n e) v = e := by
  unfold at_
  rw [List.getD_eq_getElem?_getD, List.getElem?_replicate, if_pos (by omega)]
  rfl

theorem at__zero (l : List DijkstraInfo) : at_ l 0 = at_ l 1 := rfl

theorem loopInv_init (d : Decls) (g : ALGraph) (start : Nat)
    (h1 : 1 ≤ start) (h2 : start ≤ g.size_) (hbits : 0 < d.counterBits) :
    LoopInv d g start
      ⟨(List.replicate g.size_ ⟨UINT_MAX d, []⟩).set (start - 1) ⟨0, [start]⟩, [(0, start)]⟩ := by
  have hpos := uint_max_pos d hbits
  have hat : ∀ v, 1 ≤ v → v ≤ g.size_ →
      at_ ((List.replicate g.size_ (⟨UINT_MAX d, []⟩ : DijkstraInfo)).set (start - 1)
        ⟨0, [start]⟩) v = if v = start then ⟨0, [start]⟩ else ⟨UINT_MAX d, []⟩ := by
    intro v hv1 hv2
    rw [at__set _ start v _ h1 (by simp [h2]) hv1, at__replicate _ _ _ hv1 hv2]
  refine ⟨⟨by simp, ?_, ?_, ?_, ?_, ?_⟩, ?_⟩
  · intro v hv1 hv2
    simp only
    rw [hat v hv1 hv2]
    split
    · exact Nat.zero_le _
    · exact le_refl _
  · simp only
    rw [hat start h1 h2, if_pos rfl]
  · intro v hv1 hv2
    simp only
    rw [hat v hv1 hv2]
    split
    · rename_i hv
      intro _
      subst hv
      exact ⟨[], ⟨rfl, rfl⟩, rfl, by simp, by
        intro q hq
        rw [List.mem_singleton] at hq
        rw [hq]
        simp only
        rw [hat v hv1 hv2, if_pos rfl]⟩
    · intro h
      exact absurd h (lt_irrefl _)
  · intro v hv1 hv2
    simp only
    rw [hat v hv1 hv2]
    split
    · intro h
      simp only at h
      omega
    · intro _
      rfl
  · intro q hq
    simp only [List.mem_singleton] at hq
    subst hq
    simp only
    rw [hat start h1 h2, if_pos rfl]
    exact ⟨h1, h2, hpos⟩
  · intro x hx1 hx2 hlt
    by_cases hx : x = start
    · right
      rw [hx]
      simp
    · simp only at hlt
      rw [hat x hx1 hx2, if_neg hx] at hlt
      exact absurd hlt (lt_irrefl _)

theorem visitInv_pop (d : Decls) (g : ALGraph) (start : Nat) (st : DijkstraState)
    (t : Nat × Nat) (hI : LoopInv d g start st) (ht : top st.pq = some t) :
    VisitInv d g start { st with pq := st.pq.erase t } t.2 [] := by
  obtain ⟨⟨B1, B2, B5, B3, B4, B6⟩, hrel⟩ := hI
  have hm := top_mem st.pq t ht
  refine ⟨⟨B1, B2, B5, B3, B4, fun q hq => B6 q (List.mem_of_mem_erase hq)⟩, B6 t hm, ?_, ?_⟩
  · intro x hx1 hx2 hxu hlt
    rcases hrel x hx1 hx2 hlt with h | h
    · exact Or.inl h
    · right
      obtain ⟨q, hq, hqx⟩ := List.mem_map.mp h
      have hne : q ≠ t := by
        intro hc
        rw [hc] at hqx
        exact hxu hqx.symm
      exact List.mem_map.mpr ⟨q, (List.mem_erase_of_ne hne).mpr hq, hqx⟩
  · intro e he
    simp at he

theorem visitInv_step (d : Decls) (g : ALGraph) (start : Nat) (st : DijkstraState)
    (u : Nat) (done : List AdjInfo) (e : AdjInfo)
    (hg : g.WellFormed) (hs1 : 1 ≤ start) (hs2 : start ≤ g.size_)
    (hno : NoOverflow d g start) (hJ : VisitInv d g start st u done)
    (he : g.Edge u e.id e.weight) :
    VisitInv d g start (visit d u st e) u (done ++ [e]) := by
  obtain ⟨⟨B1, B2, B5, B3, B4, B6⟩, ⟨hu1, hu2, hu3⟩, hrel, hdone⟩ := hJ
  obtain ⟨_, _, hv1, hv2⟩ := edge_range g hg u e.id e.weight he
  obtain ⟨tr, htr, hpath, hnd, hpre⟩ := B3 u hu1 hu2 hu3
  have hsum : (at_ st.dijkstraInfoList u).cost + e.weight ≤ UINT_MAX d :=
    hno tr u _ e.id e.weight htr hnd he
  have hmod : ((at_ st.dijkstraInfoList u).cost + e.weight) % 2 ^ d.counterBits
      = (at_ st.dijkstraInfoList u).cost + e.weight :=
    Nat.mod_eq_of_lt (lt_of_le_of_lt hsum (uint_max_lt d))
  have hrange := trace_range g hg start hs1 hs2 _ htr
  have hmono := trace_mono g start tr u _ htr
  unfold visit
  simp only
  rw [hmod]
  by_cases hlt : (at_ st.dijkstraInfoList u).cost + e.weight < (at_ st.dijkstraInfoList e.id).cost
  · rw [if_pos hlt]
    have hvu : e.id ≠ u := by
      intro hc
      rw [hc] at hlt
      omega
    have hvs : e.id ≠ start := by
      intro hc
      rw [hc, B5] at hlt
      omega
    have hat : ∀ x, 1 ≤ x →
        at_ (st.dijkstraInfoList.set (e.id - 1)
          ⟨(at_ st.dijkstraInfoList u).cost + e.weight,
            (at_ st.dijkstraInfoList u).path ++ [e.id]⟩) x
          = if x = e.id then ⟨(at_ st.dijkstraInfoList u).cost + e.weight,
              (at_ st.dijkstraInfoList u).path ++ [e.id]⟩
            else at_ st.dijkstraInfoList x :=
      fun x hx => at__set st.dijkstraInfoList e.id x _ hv1 (by rw [B1]; exact hv2) hx
    have hle1 : ∀ x, 1 ≤ x →
        (at_ (st.dijkstraInfoList.set (e.id - 1)
          ⟨(at_ st.dijkstraInfoList u).cost + e.weight,
            (at_ st.dijkstraInfoList u).path ++ [e.id]⟩) x).cost
          ≤ (at_ st.dijkstraInfoList x).cost := by
      intro x hx
      rw [hat x hx]
      split
      · rename_i hxe
        rw [hxe]
        exact le_of_lt hlt
      · exact le_refl _
    have hle : ∀ x,
        (at_ (st.dijkstraInfoList.set (e.id - 1)
          ⟨(at_ st.dijkstraInfoList u).cost + e.weight,
            (at_ st.dijkstraInfoList u).path ++ [e.id]⟩) x).cost
          ≤ (at_ st.dijkstraInfoList x).cost := by
      intro x
      cases x with
      | zero =>
        rw [at__zero, at__zero st.dijkstraInfoList]
        exact hle1 1 (le_refl _)
      | succ x => exact hle1 (x + 1) (by omega)
    have hsame : ∀ x, 1 ≤ x → x ≠ e.id →
        at_ (st.dijkstraInfoList.set (e.id - 1)
          ⟨(at_ st.dijkstraInfoList u).cost + e.weight,
            (at_ st.dijkstraInfoList u).path ++ [e.id]⟩) x = at_ st.dijkstraInfoList x := by
      intro x hx hne
      rw [hat x hx, if_neg hne]
    have hnew : at_ (st.dijkstraInfoList.set (e.id - 1)
          ⟨(at_ st.dijkstraInfoList u).cost + e.weight,
            (at_ st.dijkstraInfoList u).path ++ [e.id]⟩) e.id
          = ⟨(at_ st.dijkstraInfoList u).cost + e.weight,
            (at_ st.dijkstraInfoList u).path ++ [e.id]⟩ := by
      rw [hat e.id hv1, if_pos rfl]
    have hB2v := B2 e.id hv1 hv2
    refine ⟨⟨by simp [B1], ?_, ?_, ?_, ?_, ?_⟩, ⟨hu1, hu2, ?_⟩, ?_, ?_⟩
    · intro x hx1 hx2
      exact le_trans (hle x) (B2 x hx1 hx2)
    · simp only
      rw [hsame start hs1 (Ne.symm hvs)]
      exact B5
    · intro x hx1 hx2
      simp only
      by_cases hx : x = e.id
      · subst hx
        rw [hnew]
        intro _
        refine ⟨(u, (at_ st.dijkstraInfoList u).cost) :: tr, ?_, ?_, ?_, ?_⟩
        · rw [trace_cons]
          exact ⟨⟨e.weight, he, rfl⟩, htr⟩
        · simp only
          rw [hpath]
          simp
        · rw [List.map_cons, List.nodup_cons]
          refine ⟨?_, hnd⟩
          intro hmem
          obtain ⟨q, hq, hqv⟩ := List.mem_map.mp hmem
          have h1 := hpre q hq
          have h2 := hmono q hq
          simp only at hqv
          rw [hqv] at h1
          omega
        · intro q hq
          rcases List.mem_cons.mp hq with hq | hq
          · rw [hq]
            simp only
            rw [hnew]
          · exact le_trans (hle q.1) (hpre q hq)
      · rw [hsame x hx1 hx]
        intro hlab
        obtain ⟨rest, h1, h2, h3, h4⟩ := B3 x hx1 hx2 hlab
        exact ⟨rest, h1, h2, h3, fun q hq => le_trans (hle q.1) (h4 q hq)⟩
    · intro x hx1 hx2
      simp only
      by_cases hx : x = e.id
      · subst hx
        rw [hnew]
        intro hc
        simp only at hc
        omega
      · rw [hsame x hx1 hx]
        exact B4 x hx1 hx2
    · intro q hq
      simp only at hq ⊢
      rcases List.mem_cons.mp hq with hq | hq
      · rw [hq]
        simp only
        rw [hnew]
        exact ⟨hv1, hv2, by simp only; omega⟩
      · obtain ⟨k1, k2, k3⟩ := B6 q hq
        exact ⟨k1, k2, lt_of_le_of_lt (hle q.2) k3⟩
    · simp only
      rw [hsame u hu1 (Ne.symm hvu)]
      exact hu3
    · intro x hx1 hx2 hxu
      simp only
      by_cases hx : x = e.id
      · intro _
        right
        rw [hx]
        simp
      · rw [hsame x hx1 hx]
        intro hlab
        rcases hrel x hx1 hx2 hxu hlab with h | h
        · left
          intro v c hvc
          simp only
          rw [hsame x hx1 hx]
          exact le_trans (hle v) (h v c hvc)
        · right
          rw [List.map_cons]
          exact List.mem_cons_of_mem _ h
    · intro e1 he1
      simp only
      rw [hsame u hu1 (Ne.symm hvu)]
      rcases List.mem_append.mp he1 with h | h
      · exact le_trans (hle e1.id) (hdone e1 h)
      · rw [List.mem_singleton] at h
        rw [h, hnew]
  · rw [if_neg hlt]
    refine ⟨⟨B1, B2, B5, B3, B4, B6⟩, ⟨hu1, hu2, hu3⟩, hrel, ?_⟩
    intro e1 he1
    rcases List.mem_append.mp he1 with h | h
    · exact hdone e1 h
    · rw [List.mem_singleton] at h
      rw [h]
      omega

theorem visitInv_fold (d : Decls) (g : ALGraph) (start : Nat) (u : Nat)
    (hg : g.WellFormed) (hs1 : 1 ≤ start) (hs2 : start ≤ g.size_)
    (hno : NoOverflow d g start) (todo : List AdjInfo) (done : List AdjInfo)
    (st : DijkstraState) (hedges : ∀ e ∈ todo, g.Edge u e.id e.weight)
    (hJ : VisitInv d g start st u done) :
    VisitInv d g start (todo.foldl (visit d u) st) u (done ++ todo) := by
  induction todo generalizing st done with
  | nil =>
    rw [List.append_nil]
    exact hJ
  | cons e todo ih =>
    rw [List.foldl_cons]
    have h1 := visitInv_step d g start st u done e hg hs1 hs2 hno hJ
      (hedges e (List.mem_cons_self _ _))
    have h2 := ih (done ++ [e]) (visit d u st e)
      (fun e1 he1 => hedges e1 (List.mem_cons_of_mem _ he1)) h1
    rw [List.append_assoc, List.singleton_append] at h2
    exact h2

theorem loopInv_pass (d : Decls) (g : ALGraph) (start : Nat) (st : DijkstraState)
    (t : Nat × Nat) (hg : g.WellFormed) (hs1 : 1 ≤ start) (hs2 : start ≤ g.size_)
    (hno : NoOverflow d g start) (hI : LoopInv d g start st) (ht : top st.pq = some t) :
    LoopInv d g start
      ((g.adjList_.getD (t.2 - 1) []).foldl (visit d t.2) { st with pq := st.pq.erase t }) := by
  have hpop := visitInv_pop d g start st t hI ht
  have hu1 := hpop.2.1.1
  have hfold := visitInv_fold d g start t.2 hg hs1 hs2 hno (g.adjList_.getD (t.2 - 1) []) []
    { st with pq := st.pq.erase t } (fun e he => ⟨hu1, he⟩) hpop
  rw [List.nil_append] at hfold
  obtain ⟨hS, ⟨_, hu2, hu3⟩, hrel, hdone⟩ := hfold
  refine ⟨hS, fun x hx1 hx2 hlab => ?_⟩
  by_cases hx : x = t.2
  · left
    rw [hx]
    intro v c hvc
    exact hdone ⟨v, c⟩ hvc.2
  · exact hrel x hx1 hx2 hx hlab

theorem loop_inv (d : Decls) (g : ALGraph) (start : Nat)
    (hg : g.WellFormed) (hs1 : 1 ≤ start) (hs2 : start ≤ g.size_)
    (hno : NoOverflow d g start) (fuel : Nat) (st r : DijkstraState)
    (hI : LoopInv d g start st) (h : loop d g fuel st = some r) :
    LoopInv d g start r ∧ r.pq = [] := by
  induction fuel generalizing st with
  | zero => cases h
  | succ fuel ih =>
    rw [loop] at h
    cases ht : top st.pq with
    | none =>
      rw [ht] at h
      simp only [Option.some.injEq] at h
      rw [← h]
      exact ⟨hI, top_none st.pq ht⟩
    | some t =>
      rw [ht] at h
      exact ih _ (loopInv_pass d g start st t hg hs1 hs2 hno hI ht) h

end DijkstraInvariant

section DijkstraResult

open ALGraph

theorem insertEdge_mem (e x : AdjInfo) (L : List AdjInfo) :
    x ∈ ALGraph.insertEdge e L ↔ x = e ∨ x ∈ L := by
  induction L with
  | nil => simp [ALGraph.insertEdge]
  | cons y ys ih =>
    rw [ALGraph.insertEdge]
    split
    · rw [List.mem_cons, ih, List.mem_cons]
      tauto
    · rw [List.mem_cons, List.mem_cons]

theorem addDEdge_wellFormed (g : ALGraph) (source destination weight : Nat)
    (h : g.WellFormed) : (g.addDEdge source destination weight).WellFormed := by
  unfold ALGraph.addDEdge
  split
  · rename_i hr
    refine ⟨by simp [h.1], ?_⟩
    intro L hL e he
    simp only at hL
    rcases List.mem_or_eq_of_mem_set hL with hL | hL
    · exact h.2 L hL e he
    · rw [hL, insertEdge_mem] at he
      rcases he with he | he
      · rw [he]
        exact ⟨hr.2.1, hr.2.2.2⟩
      · rw [List.getD_eq_getElem?_getD] at he
        cases hg : g.adjList_[source - 1]? with
        | none =>
          rw [hg] at he
          simp at he
        | some M =>
          rw [hg] at he
          exact h.2 M (List.getElem?_mem hg) e he
  · exact h

theorem build_wellFormed (size : Nat) (ops : List GraphOp) :
    (ALGraph.build size ops).WellFormed := by
  have key : ∀ (ops : List GraphOp) (g : ALGraph), g.WellFormed →
      (ops.foldl ALGraph.step g).WellFormed := by
    intro ops
    induction ops with
    | nil => exact fun g h => h
    | cons op ops ih =>
      intro g hg
      rw [List.foldl_cons]
      apply ih
      cases op with
      | addDEdge a b w => exact addDEdge_wellFormed g a b w hg
      | addUEdge a b w =>
        rw [ALGraph.step, ALGraph.addUEdge]
        split
        · exact addDEdge_wellFormed _ b a w (addDEdge_wellFormed g a b w hg)
        · exact hg
  apply key
  refine ⟨by simp [ALGraph.construct], ?_⟩
  intro L hL e he
  rw [ALGraph.construct] at hL
  rw [List.eq_of_mem_replicate hL] at he
  simp at he

/-- The end of a path written last vertex first is its start, with weight 0. -/
theorem trace_getLast (g : ALGraph) (s : Nat) (tr : List (Nat × Nat)) (h : g.Trace s tr) :
    tr.getLast? = some (s, 0) := by
  induction tr with
  | nil => exact absurd h (by simp [ALGraph.Trace])
  | cons a rest ih =>
    obtain ⟨v, W⟩ := a
    cases rest with
    | nil =>
      rw [trace_single] at h
      rw [h.1, h.2]
      rfl
    | cons b rest =>
      obtain ⟨x, Wx⟩ := b
      rw [trace_cons] at h
      rw [List.getLast?_cons_cons]
      exact ih h.2

/-- Once the queue is empty no path reaches a vertex more cheaply than its
cost. -/
theorem final_lower (d : Decls) (g : ALGraph) (start : Nat) (st : DijkstraState)
    (hg : g.WellFormed) (hI : LoopInv d g start st) (hq : st.pq = [])
    (rest : List (Nat × Nat)) (v W : Nat) (h : g.Trace start ((v, W) :: rest)) :
    (at_ st.dijkstraInfoList v).cost ≤ W := by
  obtain ⟨⟨B1, B2, B5, B3, B4, B6⟩, hrel⟩ := hI
  induction rest generalizing v W with
  | nil =>
    rw [trace_single] at h
    rw [h.1, h.2, B5]
  | cons a rest ih =>
    obtain ⟨x, Wx⟩ := a
    rw [trace_cons] at h
    obtain ⟨⟨c, he, hW⟩, ht⟩ := h
    have hx := ih x Wx ht
    obtain ⟨hx1, hx2, hv1, hv2⟩ := edge_range g hg x v c he
    by_cases hlab : (at_ st.dijkstraInfoList x).cost < UINT_MAX d
    · rcases hrel x hx1 hx2 hlab with h1 | h1
      · have := h1 v c he
        omega
      · rw [hq] at h1
        simp at h1
    · have := B2 v hv1 hv2
      omega

/-- The loop of `dijkstra` ends from its first state, and what it leaves
satisfies the loop invariant with an empty queue. -/
theorem dijkstra_runs (d : Decls) (g : ALGraph) (start : Nat)
    (hg : g.WellFormed) (hbits : 0 < d.counterBits) (h1 : 1 ≤ start) (h2 : start ≤ g.size_)
    (hno : NoOverflow d g start) :
    ∃ fuel st, (∀ fuel1, fuel ≤ fuel1 → g.dijkstra d start fuel1 = some st.dijkstraInfoList) ∧
      LoopInv d g start st ∧ st.pq = [] := by
  generalize hst : (⟨(List.replicate g.size_ ⟨UINT_MAX d, []⟩).set (start - 1) ⟨0, [start]⟩,
      [(0, start)]⟩ : DijkstraState) = st0
  have hI0 : LoopInv d g start st0 := by
    rw [← hst]
    exact loopInv_init d g start h1 h2 hbits
  obtain ⟨r, hr⟩ := loop_terminates d g (ALGraph.measure st0 + 1) st0 (Nat.lt_succ_self _)
  have hinv := loop_inv d g start hg h1 h2 hno _ _ r hI0 hr
  refine ⟨ALGraph.measure st0 + 1, r, ?_, hinv.1, hinv.2⟩
  intro fuel1 hf
  obtain ⟨k, hk⟩ := Nat.exists_eq_add_of_le hf
  unfold ALGraph.dijkstra
  simp only
  rw [hst, hk, loop_mono d g _ k _ r hr]
  rfl

/-- A bound that rules overflow out: when every edge weighs at most `m` and
`m` times the number of vertices is at most the maximum unsigned value, no sum
that a path can form overflows. -/
theorem noOverflow_of_bound (d : Decls) (g : ALGraph) (start m : Nat)
    (hg : g.WellFormed) (h1 : 1 ≤ start) (h2 : start ≤ g.size_)
    (hm : ∀ L ∈ g.adjList_, ∀ e ∈ L, e.weight ≤ m) (hb : m * g.size_ ≤ UINT_MAX d) :
    NoOverflow d g start := by
  have hedge : ∀ x v c, g.Edge x v c → c ≤ m := by
    intro x v c ⟨_, hmem⟩
    rw [List.getD_eq_getElem?_getD] at hmem
    cases hL : g.adjList_[x - 1]? with
    | none =>
      rw [hL] at hmem
      simp at hmem
    | some L =>
      rw [hL] at hmem
      exact hm L (List.getElem?_mem hL) ⟨v, c⟩ hmem
  have hweight : ∀ (rest : List (Nat × Nat)) (x W : Nat),
      g.Trace start ((x, W) :: rest) → W ≤ m * rest.length := by
    intro rest
    induction rest with
    | nil =>
      intro x W h
      rw [trace_single] at h
      omega
    | cons a rest ih =>
      intro x W h
      obtain ⟨y, Wy⟩ := a
      rw [trace_cons] at h
      obtain ⟨⟨c, he, hW⟩, ht⟩ := h
      have := ih y Wy ht
      have := hedge y x c he
      rw [List.length_cons, Nat.mul_succ]
      omega
  intro rest x W v c htr hnd he
  have hW := hweight rest x W htr
  have hc := hedge x v c he
  have hrange := trace_range g hg start h1 h2 _ htr
  have hlen : (((x, W) :: rest).map Prod.fst).length ≤ g.size_ := by
    have hsub : (((x, W) :: rest).map Prod.fst).toFinset ⊆ Finset.Icc 1 g.size_ := by
      intro y hy
      rw [List.mem_toFinset] at hy
      obtain ⟨q, hq, hqy⟩ := List.mem_map.mp hy
      rw [Finset.mem_Icc, ← hqy]
      exact hrange q hq
    have hcard := Finset.card_le_card hsub
    rw [List.toFinset_card_of_nodup hnd, Nat.card_Icc] at hcard
    omega
  rw [List.length_map, List.length_cons] at hlen
  calc W + c ≤ m * rest.length + m := by omega
    _ = m * (rest.length + 1) := by rw [Nat.mul_succ]
    _ ≤ m * g.size_ := Nat.mul_le_mul_left m hlen
    _ ≤ UINT_MAX d := hb

end DijkstraResult

/-- C27 (amended): for a graph built by `addDEdge` and `addUEdge` calls, a start
vertex in 1..size and weights with which no sum that the routine forms
overflows (every path from `start` that visits no vertex twice, extended by
one further edge, weighs at most the maximum unsigned value), with an
`unsigned` of at least one bit:
`dijkstra(start)` ends, after a number of passes that does not depend on the
fuel given, and returns one entry per vertex; the cost of `start` is 0; the
cost of a vertex that a path from `start` reaches is the weight of such a
path and no path to it weighs less; the cost of a vertex that no path reaches
is the maximum unsigned value. -/
theorem dijkstra_costs (d : Decls) (size : Nat) (ops : List GraphOp) (start : Nat)
    (hbits : 0 < d.counterBits) (h1 : 1 ≤ start) (h2 : start ≤ size)
    (hno : (ALGraph.build size ops).NoOverflow d start) :
    ∃ fuel r,
      (∀ fuel1, fuel ≤ fuel1 → (ALGraph.build size ops).dijkstra d start fuel1 = some r) ∧
      r.length = size ∧ (ALGraph.at_ r start).cost = 0 ∧
      ∀ v, 1 ≤ v → v ≤ size →
        ((∃ W, (ALGraph.build size ops).Walk start v W) →
          (ALGraph.build size ops).Walk start v (ALGraph.at_ r v).cost ∧
          ∀ W, (ALGraph.build size ops).Walk start v W → (ALGraph.at_ r v).cost ≤ W) ∧
        ((¬ ∃ W, (ALGraph.build size ops).Walk start v W) →
          (ALGraph.at_ r v).cost = ALGraph.UINT_MAX d) := by
  have hg := build_wellFormed size ops
  have hsz : (ALGraph.build size ops).size_ = size := (build_keeps size ops).1
  obtain ⟨fuel, st, hrun, hI, hq⟩ :=
    dijkstra_runs d (ALGraph.build size ops) start hg hbits h1 (by rw [hsz]; exact h2) hno
  have hpos := uint_max_pos d hbits
  obtain ⟨B1, B2, B5, B3, B4, B6⟩ := hI.1
  refine ⟨fuel, st.dijkstraInfoList, hrun, by rw [B1, hsz], B5, fun v hv1 hv2 => ⟨?_, ?_⟩⟩
  · rintro ⟨W0, rest0, htr0⟩
    have hlow : ∀ W, (ALGraph.build size ops).Walk start v W →
        (ALGraph.at_ st.dijkstraInfoList v).cost ≤ W :=
      fun W ⟨rest, htr⟩ => final_lower d _ start st hg hI hq rest v W htr
    refine ⟨?_, hlow⟩
    by_cases hlab : (ALGraph.at_ st.dijkstraInfoList v).cost < ALGraph.UINT_MAX d
    · obtain ⟨rest, htr, _⟩ := B3 v hv1 (by rw [hsz]; exact hv2) hlab
      exact ⟨rest, htr⟩
    · have hmax := B2 v hv1 (by rw [hsz]; exact hv2)
      obtain ⟨rest1, W1, ht1, _, hnd⟩ :=
        trace_simple (ALGraph.build size ops) start rest0 v W0 htr0
      have hge := hlow W1 ⟨rest1, ht1⟩
      cases rest1 with
      | nil =>
        rw [trace_single] at ht1
        omega
      | cons a rest2 =>
        obtain ⟨x, Wx⟩ := a
        have ht2 := ht1
        rw [trace_cons] at ht2
        obtain ⟨⟨c, he, hW⟩, ht3⟩ := ht2
        have hnd2 : (((x, Wx) :: rest2).map Prod.fst).Nodup := by
          rw [List.map_cons, List.nodup_cons] at hnd
          exact hnd.2
        have hle := hno rest2 x Wx v c ht3 hnd2 he
        have heq : (ALGraph.at_ st.dijkstraInfoList v).cost = W1 := by omega
        rw [heq]
        exact ⟨_, ht1⟩
  · intro hnone
    by_contra hc
    have hmax := B2 v hv1 (by rw [hsz]; exact hv2)
    obtain ⟨rest, htr, _⟩ := B3 v hv1 (by rw [hsz]; exact hv2) (by omega)
    exact hnone ⟨_, rest, htr⟩

/-- The sums that paths can form in `sampleGraph` do not overflow 32 bits. -/
theorem sampleGraph_noOverflow : sampleGraph.NoOverflow stdDecls 1 :=
  noOverflow_of_bound stdDecls sampleGraph 1 7 (build_wellFormed _ _) (by decide) (by decide)
    (by decide) (by decide)

/-- Witness for C27 (amended), on `sampleGraph` from vertex 1 with 32-bit
`unsigned`. -/
theorem dijkstra_costs_witness :
    0 < stdDecls.counterBits ∧ 1 ≤ 1 ∧ 1 ≤ 4 ∧ sampleGraph.NoOverflow stdDecls 1 ∧
    ∃ fuel r,
      (∀ fuel1, fuel ≤ fuel1 → sampleGraph.dijkstra stdDecls 1 fuel1 = some r) ∧
      r.length = 4 ∧ (ALGraph.at_ r 1).cost = 0 ∧
      ∀ v, 1 ≤ v → v ≤ 4 →
        ((∃ W, sampleGraph.Walk 1 v W) →
          sampleGraph.Walk 1 v (ALGraph.at_ r v).cost ∧
          ∀ W, sampleGraph.Walk 1 v W → (ALGraph.at_ r v).cost ≤ W) ∧
        ((¬ ∃ W, sampleGraph.Walk 1 v W) →
          (ALGraph.at_ r v).cost = ALGraph.UINT_MAX stdDecls) :=
  ⟨by decide, by decide, by decide, sampleGraph_noOverflow,
    dijkstra_costs stdDecls 4 _ 1 (by decide) (by decide) (by decide) sampleGraph_noOverflow⟩

/-- The only sums that paths can form in `heavyGraph` are 0 and the weight of
its edge, the maximum unsigned value: none overflows. -/
theorem heavyGraph_noOverflow : heavyGraph.NoOverflow stdDecls 1 := by
  have hadj : heavyGraph.adjList_ = [[⟨2, 4294967295⟩], []] := by decide
  have hedge : ∀ x v c, heavyGraph.Edge x v c → x = 1 ∧ v = 2 ∧ c = 4294967295 := by
    intro x v c ⟨hx, hm⟩
    rw [hadj] at hm
    obtain ⟨y, rfl⟩ : ∃ y, x = y + 1 := ⟨x - 1, by omega⟩
    cases y with
    | zero =>
      simp only [zero_add, Nat.sub_self, List.getD_cons_zero, List.mem_singleton,
        AdjInfo.mk.injEq] at hm
      exact ⟨rfl, hm.1, hm.2⟩
    | succ y =>
      cases y with
      | zero => simp at hm
      | succ y => simp at hm
  intro rest x W v c htr hnd he
  obtain ⟨hx, hv, hc⟩ := hedge x v c he
  subst hx hc
  cases rest with
  | nil =>
    rw [trace_single] at htr
    rw [htr.2]
    decide
  | cons a rest =>
    obtain ⟨y, Wy⟩ := a
    rw [trace_cons] at htr
    obtain ⟨⟨c1, he1, _⟩, _⟩ := htr
    have := (hedge y 1 c1 he1).2.1
    omega

section WrapGraph

open ALGraph

theorem wrapGraph_edges (x v c : Nat) (h : wrapGraph.Edge x v c) :
    (x = 1 ∧ v = 2 ∧ c = 2147483648) ∨ (x = 2 ∧ v = 3 ∧ c = 0) ∨
      (x = 3 ∧ v = 2 ∧ c = 2147483648) := by
  have hadj : wrapGraph.adjList_ = [[⟨2, 2147483648⟩], [⟨3, 0⟩], [⟨2, 2147483648⟩]] := by decide
  obtain ⟨hx, hm⟩ := h
  rw [hadj] at hm
  obtain ⟨y, rfl⟩ : ∃ y, x = y + 1 := ⟨x - 1, by omega⟩
  match y with
  | 0 =>
    simp only [zero_add, Nat.sub_self, List.getD_cons_zero, List.mem_singleton,
      AdjInfo.mk.injEq] at hm
    exact Or.inl ⟨rfl, hm.1, hm.2⟩
  | 1 =>
    simp at hm
    exact Or.inr (Or.inl ⟨rfl, hm.1, hm.2⟩)
  | 2 =>
    simp at hm
    exact Or.inr (Or.inr ⟨rfl, hm.1, hm.2⟩)
  | y + 3 => simp at hm

/-- The paths of `wrapGraph` from vertex 1 that visit no vertex twice, last
vertex first with the weights summed up. -/
theorem wrapGraph_simple (tr : List (Nat × Nat)) (h : wrapGraph.Trace 1 tr)
    (hnd : (tr.map Prod.fst).Nodup) :
    tr = [(1, 0)] ∨ tr = [(2, 2147483648), (1, 0)] ∨
      tr = [(3, 2147483648), (2, 2147483648), (1, 0)] := by
  induction tr with
  | nil => exact absurd h (by simp [ALGraph.Trace])
  | cons a t ih =>
    obtain ⟨v, W⟩ := a
    cases t with
    | nil =>
      rw [trace_single] at h
      left
      rw [h.1, h.2]
    | cons b t =>
      obtain ⟨x, Wx⟩ := b
      rw [trace_cons] at h
      obtain ⟨⟨c, he, hW⟩, ht⟩ := h
      rw [List.map_cons, List.nodup_cons] at hnd
      obtain ⟨hv, hnd2⟩ := hnd
      rcases ih ht hnd2 with h1 | h1 | h1
      · injection h1 with h1 h2
        injection h1 with hx hwx
        subst hx hwx h2
        rcases wrapGraph_edges _ v c he with ⟨_, rfl, rfl⟩ | ⟨hc, _⟩ | ⟨hc, _⟩
        · right; left
          rw [hW]
        · omega
        · omega
      · injection h1 with h1 h2
        injection h1 with hx hwx
        subst hx hwx h2
        rcases wrapGraph_edges _ v c he with ⟨hc, _⟩ | ⟨_, rfl, rfl⟩ | ⟨hc, _⟩
        · omega
        · right; right
          rw [hW]
        · omega
      · injection h1 with h1 h2
        injection h1 with hx hwx
        subst hx hwx h2
        rcases wrapGraph_edges _ v c he with ⟨hc, _⟩ | ⟨hc, _⟩ | ⟨_, rfl, rfl⟩
        · omega
        · omega
        · exact absurd (by simp) hv

/-- In `wrapGraph` no path from vertex 1 to vertex 2 or 3 weighs less than
2147483648. -/
theorem wrapGraph_far (v W : Nat) (hv : v = 2 ∨ v = 3) (h : wrapGraph.Walk 1 v W) :
    2147483648 ≤ W := by
  obtain ⟨rest, htr⟩ := h
  have key : ∀ (tr : List (Nat × Nat)), wrapGraph.Trace 1 tr →
      ∀ q ∈ tr.head?, q.1 = 1 ∨ 2147483648 ≤ q.2 := by
    intro tr
    induction tr with
    | nil => intro h; exact absurd h (by simp [ALGraph.Trace])
    | cons a t ih =>
      obtain ⟨u, Wu⟩ := a
      intro h q hq
      simp only [List.head?_cons, Option.mem_def, Option.some.injEq] at hq
      subst hq
      cases t with
      | nil =>
        rw [trace_single] at h
        exact Or.inl h.1
      | cons b t =>
        obtain ⟨x, Wx⟩ := b
        rw [trace_cons] at h
        obtain ⟨⟨c, he, hW⟩, ht⟩ := h
        have hx := ih ht (x, Wx) (by simp)
        right
        rcases wrapGraph_edges _ _ _ he with ⟨_, _, rfl⟩ | ⟨rfl, _, rfl⟩ | ⟨_, _, rfl⟩
        · show 2147483648 ≤ Wu
          omega
        · rcases hx with hx | hx
          · simp at hx
          · show 2147483648 ≤ Wu
            simp only at hx
            omega
        · show 2147483648 ≤ Wu
          omega
  rcases key _ htr (v, W) (by simp) with h1 | h1
  · simp only at h1
    omega
  · exact h1

theorem wrapGraph_result (fuel : Nat) (hf : 100 ≤ fuel) :
    wrapGraph.dijkstra stdDecls 1 fuel
      = some [⟨0, [1]⟩, ⟨0, [1, 2, 3, 2]⟩, ⟨0, [1, 2, 3, 2, 3]⟩] := by
  obtain ⟨k, hk⟩ := Nat.exists_eq_add_of_le hf
  have h2 : ALGraph.loop stdDecls wrapGraph 100
      ⟨(List.replicate wrapGraph.size_ ⟨ALGraph.UINT_MAX stdDecls, []⟩).set (1 - 1) ⟨0, [1]⟩,
        [(0, 1)]⟩
      = some ⟨[⟨0, [1]⟩, ⟨0, [1, 2, 3, 2]⟩, ⟨0, [1, 2, 3, 2, 3]⟩], []⟩ := by decide
  unfold ALGraph.dijkstra
  simp only
  rw [hk, loop_mono stdDecls wrapGraph 100 k _ _ h2]
  rfl

end WrapGraph

/-- C28 (as stated, refuted): in `heavyGraph` the edge 1 → 2 has the maximum
unsigned weight, no sum overflows and vertex 2 is reachable from vertex 1 by a
path of that weight, yet `dijkstra(1)` returns the empty path for vertex 2:
the new cost is not below the initial cost, so the entry is never written.
In `wrapGraph` no sum of a path that visits no vertex twice overflows, yet
`dijkstra(1)` returns for vertex 2 the path 1, 2, 3, 2 with the cost 0: the
weights along that path sum to 4294967296, and no path to vertex 2 weighs 0. -/
theorem dijkstra_heavy_edge :
    heavyGraph.adjList_ = [[⟨2, 4294967295⟩], []] ∧
    ALGraph.UINT_MAX stdDecls = 4294967295 ∧
    heavyGraph.NoOverflow stdDecls 1 ∧
    heavyGraph.Walk 1 2 4294967295 ∧
    heavyGraph.dijkstra stdDecls 1 2 = some [⟨0, [1]⟩, ⟨4294967295, []⟩] ∧
    (∀ fuel, 2 ≤ fuel →
      heavyGraph.dijkstra stdDecls 1 fuel = some [⟨0, [1]⟩, ⟨4294967295, []⟩]) ∧
    (∀ tr, wrapGraph.Trace 1 tr → (tr.map Prod.fst).Nodup →
      ∀ q ∈ tr, q.2 ≤ ALGraph.UINT_MAX stdDecls) ∧
    (∀ fuel, 100 ≤ fuel →
      wrapGraph.dijkstra stdDecls 1 fuel
        = some [⟨0, [1]⟩, ⟨0, [1, 2, 3, 2]⟩, ⟨0, [1, 2, 3, 2, 3]⟩]) ∧
    wrapGraph.Trace 1 [(2, 4294967296), (3, 2147483648), (2, 2147483648), (1, 0)] ∧
    (∀ W, wrapGraph.Walk 1 2 W → W ≠ 0) := by
  refine ⟨by decide, by decide, heavyGraph_noOverflow, ⟨[(1, 0)], ?_⟩, by decide, ?_, ?_,
    wrapGraph_result, ?_, ?_⟩
  · rw [trace_cons]
    exact ⟨⟨4294967295, ⟨by decide, by decide⟩, by decide⟩, rfl, rfl⟩
  · intro fuel hf
    obtain ⟨k, hk⟩ := Nat.exists_eq_add_of_le hf
    have h2 : ALGraph.loop stdDecls heavyGraph 2
        ⟨(List.replicate heavyGraph.size_ ⟨ALGraph.UINT_MAX stdDecls, []⟩).set (1 - 1) ⟨0, [1]⟩,
          [(0, 1)]⟩
        = some ⟨[⟨0, [1]⟩, ⟨4294967295, []⟩], []⟩ := by decide
    unfold ALGraph.dijkstra
    simp only
    rw [hk, loop_mono stdDecls heavyGraph 2 k _ _ h2]
    rfl
  · intro tr htr hnd q hq
    rcases wrapGraph_simple tr htr hnd with h | h | h <;> subst h <;>
      simp only [List.mem_cons, List.mem_singleton, List.not_mem_nil, or_false] at hq <;>
      rcases hq with rfl | rfl | rfl <;> decide
  · have e12 : wrapGraph.Edge 1 2 2147483648 := ⟨by decide, by decide⟩
    have e23 : wrapGraph.Edge 2 3 0 := ⟨by decide, by decide⟩
    have e32 : wrapGraph.Edge 3 2 2147483648 := ⟨by decide, by decide⟩
    exact (trace_cons _ _ _ _ _ _ _).mpr ⟨⟨_, e32, rfl⟩,
      (trace_cons _ _ _ _ _ _ _).mpr ⟨⟨_, e23, rfl⟩,
        (trace_cons _ _ _ _ _ _ _).mpr ⟨⟨_, e12, rfl⟩, rfl, rfl⟩⟩⟩
  · intro W h h0
    have := wrapGraph_far 2 W (Or.inl rfl) h
    omega

/-- C28 (amended): for a graph built by `addDEdge` and `addUEdge` calls, a start
vertex in 1..size and weights with which no sum that the routine forms
overflows (every path from `start` that visits no vertex twice, extended by
one further edge, weighs at most the maximum unsigned value), with an
`unsigned` of at least one bit, for every vertex `v` of the result of
`dijkstra(start)`: if some path from
`start` to `v` weighs less than
the maximum unsigned value, `path[v]` begins with `start`, ends with `v`, and
is a path of the graph, each vertex joined to the next by an edge, along which
weights of edges sum to `cost[v]`; otherwise, when no path reaches `v` or every
path to `v` weighs the maximum or more, `path[v]` is empty. -/
theorem dijkstra_paths (d : Decls) (size : Nat) (ops : List GraphOp) (start : Nat)
    (hbits : 0 < d.counterBits) (h1 : 1 ≤ start) (h2 : start ≤ size)
    (hno : (ALGraph.build size ops).NoOverflow d start) :
    ∃ fuel r,
      (∀ fuel1, fuel ≤ fuel1 → (ALGraph.build size ops).dijkstra d start fuel1 = some r) ∧
      ∀ v, 1 ≤ v → v ≤ size →
        ((∃ W, (ALGraph.build size ops).Walk start v W ∧ W < ALGraph.UINT_MAX d) →
          (ALGraph.at_ r v).path.head? = some start ∧
          (ALGraph.at_ r v).path.getLast? = some v ∧
          ∃ rest, (ALGraph.build size ops).Trace start ((v, (ALGraph.at_ r v).cost) :: rest) ∧
            (ALGraph.at_ r v).path
              = (((v, (ALGraph.at_ r v).cost) :: rest).map Prod.fst).reverse) ∧
        ((¬ ∃ W, (ALGraph.build size ops).Walk start v W ∧ W < ALGraph.UINT_MAX d) →
          (ALGraph.at_ r v).path = []) := by
  have hg := build_wellFormed size ops
  have hsz : (ALGraph.build size ops).size_ = size := (build_keeps size ops).1
  obtain ⟨fuel, st, hrun, hI, hq⟩ :=
    dijkstra_runs d (ALGraph.build size ops) start hg hbits h1 (by rw [hsz]; exact h2) hno
  obtain ⟨B1, B2, B5, B3, B4, B6⟩ := hI.1
  refine ⟨fuel, st.dijkstraInfoList, hrun, fun v hv1 hv2 => ⟨?_, ?_⟩⟩
  · rintro ⟨W, ⟨rest0, htr0⟩, hW⟩
    have hlow := final_lower d _ start st hg hI hq rest0 v W htr0
    obtain ⟨rest, htr, hpath, _, _⟩ := B3 v hv1 (by rw [hsz]; exact hv2) (by omega)
    refine ⟨?_, ?_, rest, htr, hpath⟩
    · rw [hpath, List.head?_reverse, List.getLast?_map, trace_getLast _ _ _ htr]
      rfl
    · rw [hpath, List.getLast?_reverse]
      rfl
  · intro hnone
    apply B4 v hv1 (by rw [hsz]; exact hv2)
    by_contra hc
    have hmax := B2 v hv1 (by rw [hsz]; exact hv2)
    obtain ⟨rest, htr, _⟩ := B3 v hv1 (by rw [hsz]; exact hv2) (by omega)
    exact hnone ⟨_, ⟨rest, htr⟩, by omega⟩

/-- C28 (amended), on `sampleGraph` from vertex 1 with 32-bit `unsigned`. -/
theorem dijkstra_paths_witness :
    0 < stdDecls.counterBits ∧ 1 ≤ 1 ∧ 1 ≤ 4 ∧ sampleGraph.NoOverflow stdDecls 1 ∧
    ∃ fuel r,
      (∀ fuel1, fuel ≤ fuel1 → sampleGraph.dijkstra stdDecls 1 fuel1 = some r) ∧
      ∀ v, 1 ≤ v → v ≤ 4 →
        ((∃ W, sampleGraph.Walk 1 v W ∧ W < ALGraph.UINT_MAX stdDecls) →
          (ALGraph.at_ r v).path.head? = some 1 ∧
          (ALGraph.at_ r v).path.getLast? = some v ∧
          ∃ rest, sampleGraph.Trace 1 ((v, (ALGraph.at_ r v).cost) :: rest) ∧
            (ALGraph.at_ r v).path
              = (((v, (ALGraph.at_ r v).cost) :: rest).map Prod.fst).reverse) ∧
        ((¬ ∃ W, sampleGraph.Walk 1 v W ∧ W < ALGraph.UINT_MAX stdDecls) →
          (ALGraph.at_ r v).path = []) :=
  ⟨by decide, by decide, by decide, sampleGraph_noOverflow,
    dijkstra_paths stdDecls 4 _ 1 (by decide) (by decide) (by decide) sampleGraph_noOverflow⟩

/-- Why the bound on sums covers a path extended by one more edge: in
`wrapGraph` the paths from vertex 1 that visit no vertex twice weigh 0 and
2147483648, but the relaxation of the edge 3 → 2 adds 2147483648 to the cost
2147483648 of vertex 3, the 32-bit sum wraps to 0, and `dijkstra(1)` returns the
cost 0 for the vertices 2 and 3. -/
theorem wrapGraph_wraps :
    wrapGraph.adjList_ = [[⟨2, 2147483648⟩], [⟨3, 0⟩], [⟨2, 2147483648⟩]] ∧
    wrapGraph.dijkstra stdDecls 1 100
      = some [⟨0, [1]⟩, ⟨0, [1, 2, 3, 2]⟩, ⟨0, [1, 2, 3, 2, 3]⟩] := by
  constructor <;> decide

/-- The bound on sums follows from a bound on the weight of every path from
`start`, with or without repeated vertices. -/
theorem noOverflow_of_walks (d : Decls) (g : ALGraph) (start : Nat)
    (h : ∀ v W, g.Walk start v W → W ≤ ALGraph.UINT_MAX d) : g.NoOverflow d start := by
  intro rest x W v c htr _ he
  exact h v (W + c) ⟨(x, W) :: rest, (trace_cons g start v (W + c) x W rest).mpr
    ⟨⟨c, he, rfl⟩, htr⟩⟩

/-- The child that `balance` dereferences is not null: a balance factor above 1
means that the left subtree has a node, a factor below -1 that the right
subtree has one. -/
theorem balanceTop_child {T : Type} (l r : BinTree T) :
    (AVL.BST.treeHeight l - AVL.BST.treeHeight r > 1 → l ≠ .nil) ∧
    (AVL.BST.treeHeight l - AVL.BST.treeHeight r < -1 → r ≠ .nil) := by
  have gl := treeHeight_ge l
  have gr := treeHeight_ge r
  constructor
  · intro h hc
    rw [hc] at h
    simp only [AVL.BST.treeHeight] at h
    omega
  · intro h hc
    rw [hc] at h
    simp only [AVL.BST.treeHeight] at h
    omega

/-- C33 (as stated, refuted): with `maxPages = 2` and no object per page the
constructor returns an allocator with one page in use and no free object whose
free list is empty: the seeding loop makes no pass and the head is the null
pointer.  The first `allocate` acquires the second page, as empty as the first,
and dereferences the null head. -/
theorem construct_no_objects :
    construct stdDecls stdBackend zeroMem 16 noObjectConfig = .ok noObjectStart ∧
    1 ≤ noObjectConfig.maxPages ∧ noObjectConfig.objectsPerPage = 0 ∧
    noObjectStart.stats_.pagesInUse = 1 ∧ noObjectStart.stats_.freeObjects = 0 ∧
    noObjectStart.pFreeList_ = 0 ∧
    freeListFrom noObjectStart.mem 1 noObjectStart.pFreeList_ = [] ∧
    (allocate stdDecls noObjectStart none).1 = .error .undefined ∧
    (allocate stdDecls noObjectStart none).2.stats_.pagesInUse = 2 :=
  ⟨rfl, by decide, rfl, rfl, rfl, rfl, rfl, rfl, rfl⟩

/-- C33 (amended): construction acquires the first page at once.  With
`maxPages` at least 1 and a backend that hands out the page, the constructor
returns; the object it returns has `pagesInUse = 1` (counters of at least one
bit), `freeObjects = objectsPerPage` (a count that fits the counter),
`allocations`, `deallocations`, `objectsInUse` and `mostObjects` all 0, and its
free list is not empty when the configuration has at least one object per page
and empty when it has none.  With `maxPages = 0` the constructor throws
`E_NO_PAGE`, whatever the backend. -/
theorem construct_first_page (d : Decls) (b : Backend) (m : Mem) (objectSize : Nat)
    (config : SimpleAllocatorConfig) :
    (1 ≤ config.maxPages → b.rawPage 0 ≠ 0 →
      ∃ s, construct d b m objectSize config = .ok s) ∧
    (∀ s, construct d b m objectSize config = .ok s →
      1 ≤ config.maxPages ∧
      (0 < d.counterBits → s.stats_.pagesInUse = 1) ∧
      (config.objectsPerPage < 2 ^ d.counterBits →
        s.stats_.freeObjects = config.objectsPerPage) ∧
      s.stats_.allocations = 0 ∧ s.stats_.deallocations = 0 ∧
      s.stats_.objectsInUse = 0 ∧ s.stats_.mostObjects = 0 ∧
      (1 ≤ config.objectsPerPage → s.pFreeList_ ≠ 0) ∧
      (config.objectsPerPage = 0 → s.pFreeList_ = 0)) ∧
    (config.maxPages = 0 → construct d b m objectSize config = .error .E_NO_PAGE) := by
  refine ⟨?_, ?_, ?_⟩
  · intro hmax hpage
    refine ⟨(allocateNewPage d (init d b m objectSize config)).2, ?_⟩
    have hlim : ¬ (init d b m objectSize config).stats_.pagesInUse
        ≥ (init d b m objectSize config).config_.maxPages := by
      show ¬ (0 ≥ config.maxPages)
      omega
    have h0 : ¬ (init d b m objectSize config).backend.rawPage
        (init d b m objectSize config).pageReqs = 0 := hpage
    unfold construct allocateNewPage
    rw [if_neg hlim]
    dsimp only
    rw [if_neg h0]
  · intro s hs
    obtain ⟨rfl, hok⟩ := construct_ok d b m objectSize config _ hs
    have hmax : 1 ≤ config.maxPages := by
      by_contra hcon
      have hlim : (init d b m objectSize config).stats_.pagesInUse
          ≥ (init d b m objectSize config).config_.maxPages := by
        show 0 ≥ config.maxPages
        omega
      unfold allocateNewPage at hok
      rw [if_pos hlim] at hok
      cases hok
    obtain ⟨hpage, _, hF⟩ := allocateNewPage_ok_form d _ hok
    have hst : (allocateNewPage d (init d b m objectSize config)).2.stats_
        = { (init d b m objectSize config).stats_ with
            pagesInUse := d.incr (init d b m objectSize config).stats_.pagesInUse
            freeObjects := d.plus (init d b m objectSize config).stats_.freeObjects
              (init d b m objectSize config).config_.objectsPerPage } := by
      rcases allocateNewPage_stats d (init d b m objectSize config) with ⟨⟨e, he⟩, _⟩ | ⟨_, h⟩
      · rw [hok] at he
        cases he
      · exact h
    refine ⟨hmax, ?_, ?_, ?_, ?_, ?_, ?_, ?_, ?_⟩
    · intro hbits
      rw [hst]
      show (0 + 1) % 2 ^ d.counterBits = 1
      exact Nat.mod_eq_of_lt (Nat.one_lt_two_pow (by omega))
    · intro hfit
      rw [hst]
      show (0 + config.objectsPerPage) % 2 ^ d.counterBits = config.objectsPerPage
      rw [Nat.zero_add]
      exact Nat.mod_eq_of_lt hfit
    · rw [hst]; rfl
    · rw [hst]; rfl
    · rw [hst]; rfl
    · rw [hst]; rfl
    · intro hN
      rw [hF]
      obtain ⟨n, hn⟩ : ∃ n, (init d b m objectSize config).config_.objectsPerPage = n + 1 :=
        ⟨config.objectsPerPage - 1, by show config.objectsPerPage = _; omega⟩
      rw [hn, seedLoop_head]
      have : PTR_BYTES = 8 := rfl
      omega
    · intro hN
      rw [hF]
      have hn : (init d b m objectSize config).config_.objectsPerPage = 0 := hN
      rw [hn]
      rfl
  · intro hmax
    have hlim : (init d b m objectSize config).stats_.pagesInUse
        ≥ (init d b m objectSize config).config_.maxPages := by
      show 0 ≥ config.maxPages
      omega
    unfold construct allocateNewPage
    rw [if_pos hlim]

/-- Witness for C33 (amended): the padded configuration (four objects per page, two
pages) is constructed with one page in use and four free objects, and its free
list starts at a block; with `maxPages` set to 0 the constructor throws
`E_NO_PAGE`. -/
theorem construct_first_page_witness :
    (∃ s, construct stdDecls stdBackend zeroMem 16 paddedConfig = .ok s) ∧
    construct stdDecls stdBackend zeroMem 16 paddedConfig = .ok paddedStart ∧
    paddedStart.stats_.pagesInUse = 1 ∧
    paddedStart.stats_.freeObjects = 4 ∧
    paddedStart.pFreeList_ ≠ 0 ∧
    construct stdDecls stdBackend zeroMem 16 { paddedConfig with maxPages := 0 }
      = .error .E_NO_PAGE :=
  ⟨(construct_first_page stdDecls stdBackend zeroMem 16 paddedConfig).1 (by decide) (by decide),
    rfl,
    ((construct_first_page stdDecls stdBackend zeroMem 16 paddedConfig).2.1 paddedStart rfl).2.1
      (by decide),
    ((construct_first_page stdDecls stdBackend zeroMem 16 paddedConfig).2.1 paddedStart
      rfl).2.2.1 (by decide),
    ((construct_first_page stdDecls stdBackend zeroMem 16 paddedConfig).2.1 paddedStart
      rfl).2.2.2.2.2.2.2.1 (by decide),
    (construct_first_page stdDecls stdBackend zeroMem 16 { paddedConfig with maxPages := 0 }).2.2
      rfl⟩
/-- Where the seeding of a page stays inside the page: when the last block,
with its post-pad bytes and its link word, ends at an offset of at most
`pageSize`, a successful page acquisition changes no byte outside the
`pageSize` bytes of the new page. -/
theorem allocateNewPage_inside (d : Decls) (s : SimpleAllocator)
    (hok : (allocateNewPage d s).1 = .ok ())
    (hfit : s.config_.interAlignBytesSize + s.config_.headerSize + s.config_.padBytesSize
        + PTR_BYTES + (s.config_.objectsPerPage - 1) * s.stats_.blockSize
        + max (s.stats_.objectSize + s.config_.padBytesSize) 8 ≤ s.stats_.pageSize)
    (x : Nat)
    (hx : x < s.backend.rawPage s.pageReqs
      ∨ s.backend.rawPage s.pageReqs + s.stats_.pageSize ≤ x) :
    (allocateNewPage d s).2.mem x = s.mem x := by
  obtain ⟨_, hmem, _⟩ := allocateNewPage_ok_form d s hok
  have h8 : PTR_BYTES = 8 := rfl
  have hmax : 8 ≤ max (s.stats_.objectSize + s.config_.padBytesSize) 8 := le_max_right _ _
  rw [hmem]
  rcases hx with hx | hx
  · rw [seedLoop_frame d s _ _ _ _ _ _ x (by omega),
      writePtr_away _ _ _ _ (Or.inl hx), writePtr_away _ _ _ _ (Or.inl hx)]
  · rw [seedLoop_above d s _ _ _ _ _ _ x (by omega) (Or.inr (by omega)),
      writePtr_away _ _ _ _ (Or.inr (by omega)), writePtr_away _ _ _ _ (Or.inr (by omega))]

theorem construct_inside (d : Decls) (b : Backend) (m : Mem) (objectSize : Nat)
    (config : SimpleAllocatorConfig) (hN : 2 ≤ config.objectsPerPage)
    (hos : 8 ≤ objectSize + config.padBytesSize) (hfit : NoWrap d objectSize config)
    (s : SimpleAllocator)
    (h : construct d b m objectSize config = .ok s) (x : Nat)
    (hx : x < b.rawPage 0 ∨ b.rawPage 0 + s.stats_.pageSize ≤ x) : s.mem x = m x := by
  obtain ⟨rfl, hok⟩ := construct_ok d b m objectSize config _ h
  have hps := (allocateNewPage_sizes d (init d b m objectSize config)).2.2
  obtain ⟨e1, e2⟩ := init_sizes d b m objectSize config (by omega) hfit
  rw [hps] at hx
  refine allocateNewPage_inside d (init d b m objectSize config) hok ?_ x hx
  rw [e1, e2]
  show config.interAlignBytesSize + config.headerSize + config.padBytesSize + PTR_BYTES
      + (config.objectsPerPage - 1)
        * (objectSize + config.padBytesSize * 2 + config.headerSize)
      + max (objectSize + config.padBytesSize) 8
    ≤ 8 + config.leftAlignBytesSize
      + (objectSize + config.padBytesSize * 2 + config.headerSize) * config.objectsPerPage
      + config.interAlignBytesSize * (config.objectsPerPage - 1)
      + config.padBytesSize * config.maxPages
  obtain ⟨n, hn⟩ : ∃ n, config.objectsPerPage = n + 2 := ⟨config.objectsPerPage - 2, by omega⟩
  have h8 : PTR_BYTES = 8 := rfl
  rw [hn, h8, max_eq_left hos]
  have e1 : n + 2 - 1 = n + 1 := rfl
  rw [e1]
  have e2 : (objectSize + config.padBytesSize * 2 + config.headerSize) * (n + 2)
      = (n + 1) * (objectSize + config.padBytesSize * 2 + config.headerSize)
        + (objectSize + config.padBytesSize * 2 + config.headerSize) := by ring
  have e3 : config.interAlignBytesSize * (n + 1)
      = config.interAlignBytesSize * n + config.interAlignBytesSize := by ring
  rw [e2, e3]
  omega

/-- C34 (the code at the failing inputs): with at least two objects per page,
at least eight bytes of object and pad and sizes that fit the types they are
computed in, construction changes no byte outside the `pageSize` bytes of the
page.  With one object per page and four
inter-block alignment bytes the constructor asks for a page of 35 bytes, at
4096, and seeds the block 4115, whose two post-pad bytes lie at the offsets 35
and 36: they held 0 and hold the guard pattern after the seeding.  With three
4-byte objects per page and nothing around them the page has 20 bytes and the
link of the last block, 4112, is stored in the offsets 16 to 23: the bytes at
the offsets 20 to 23 held 0xFF and hold 0 after the seeding.  With two
objects per page and 2147483648 pad bytes the product `padBytesSize * 2`
wraps to 0 in the 32-bit `unsigned`: the blocks have 16 bytes, the page
2147483688, and the byte at that offset, behind the page, held 0 and holds
the guard pattern after the seeding. -/
theorem page_seeding_overrun :
    (∀ (d : Decls) (b : Backend) (m : Mem) (objectSize : Nat) (config : SimpleAllocatorConfig),
      2 ≤ config.objectsPerPage → 8 ≤ objectSize + config.padBytesSize →
      NoWrap d objectSize config →
      ∀ s, construct d b m objectSize config = .ok s →
        ∀ x, x < b.rawPage 0 ∨ b.rawPage 0 + s.stats_.pageSize ≤ x → s.mem x = m x) ∧
    construct stdDecls stdBackend zeroMem 16 loneConfig = .ok loneStart ∧
    loneStart.stats_.pageSize = 35 ∧
    loneStart.pPageList_ = 4096 ∧
    blockAt loneStart 4096 0 = 4096 + 19 ∧
    loneStart.pFreeList_ = 4096 + 19 ∧
    4096 + 19 + loneStart.stats_.objectSize = 4096 + 35 ∧
    (zeroMem (4096 + 35) = 0 ∧ zeroMem (4096 + 36) = 0) ∧
    (loneStart.mem (4096 + 35) = stdDecls.PAD_PATTERN ∧
      loneStart.mem (4096 + 36) = stdDecls.PAD_PATTERN) ∧
    construct stdDecls stdBackend onesMem 4 tinyConfig = .ok tinyStart ∧
    tinyStart.stats_.pageSize = 20 ∧
    tinyStart.pPageList_ = 4096 ∧
    tinyStart.pFreeList_ = 4096 + 16 ∧
    (List.range 4).map (fun k => onesMem (4096 + 20 + k)) = [0xFF, 0xFF, 0xFF, 0xFF] ∧
    (List.range 4).map (fun k => tinyStart.mem (4096 + 20 + k)) = [0, 0, 0, 0] ∧
    construct stdDecls stdBackend zeroMem 16 hugePadConfig = .ok hugePadStart ∧
    ¬ NoWrap stdDecls 16 hugePadConfig ∧
    hugePadStart.stats_.blockSize = 16 ∧
    hugePadStart.stats_.pageSize = 2147483688 ∧
    hugePadStart.pPageList_ = 4096 ∧
    zeroMem (4096 + 2147483688) = 0 ∧
    hugePadStart.mem (4096 + 2147483688) = stdDecls.PAD_PATTERN :=
  ⟨construct_inside, rfl, rfl, rfl, rfl, rfl, rfl, ⟨rfl, rfl⟩, ⟨rfl, rfl⟩, rfl, rfl, rfl, rfl, rfl, rfl,
    rfl, by unfold NoWrap; decide!, by decide!, by decide!, by decide!, rfl, by decide!⟩
/-- C35 (the code at the failing input): with one pad byte on each side and an
empty header, `allocate` on the fresh allocator returns block 4115 and stores
the allocation number 1 at 4115 - 1 - 0 = 4114, the pre-pad byte of that block,
and the flag 1 at 4115 - 1 - 1 = 4113, the post-pad byte of block 4105; both
held the guard pattern.  The `free` of the pointer just returned, with no store
in between, throws `E_CORRUPTED_BLOCK`. -/
theorem allocate_damages_guard :
    guardedStart.config_.padBytesSize = 1 ∧ guardedStart.config_.headerSize = 0 ∧
    (allocate stdDecls guardedStart none).1 = .ok 4115 ∧
    guardedStart.mem (4115 - 1) = stdDecls.PAD_PATTERN ∧
    (allocate stdDecls guardedStart none).2.mem (4115 - 1) = 1 ∧
    guardedStart.mem (4105 + 8) = stdDecls.PAD_PATTERN ∧
    (allocate stdDecls guardedStart none).2.mem (4105 + 8) = 1 ∧
    (free stdDecls (allocate stdDecls guardedStart none).2 4115).1
      = .error (.E_CORRUPTED_BLOCK .before) :=
  ⟨rfl, rfl, rfl, rfl, rfl, rfl, rfl, rfl⟩
theorem top_greatest (pq : List (Nat × Nat)) (t : Nat × Nat) (h : ALGraph.top pq = some t) :
    ∀ x ∈ pq, x.1 ≤ t.1 := by
  induction pq generalizing t with
  | nil => intro x hx; cases hx
  | cons y ys ih =>
    rw [ALGraph.top] at h
    cases hys : ALGraph.top ys with
    | none =>
      rw [hys] at h
      have hnil := top_none ys hys
      subst hnil
      injection h with h
      subst h
      intro x hx
      simp at hx
      rw [hx]
    | some z =>
      rw [hys] at h
      dsimp only at h
      have ihz := ih z hys
      by_cases hl : ALGraph.pairLess y z = true
      · rw [if_pos hl] at h
        injection h with h
        subst h
        intro x hx
        rcases List.mem_cons.mp hx with rfl | hx
        · simp [ALGraph.pairLess] at hl
          omega
        · exact ihz x hx
      · rw [if_neg hl] at h
        injection h with h
        subst h
        intro x hx
        rcases List.mem_cons.mp hx with rfl | hx
        · exact Nat.le_refl _
        · have := ihz x hx
          simp [ALGraph.pairLess] at hl
          omega

theorem loop_pass (d : Decls) (g : ALGraph) (fuel : Nat) (st : DijkstraState) :
    ALGraph.loop d g (fuel + 1) st
      = match ALGraph.pass d g st with
        | none => some st
        | some st1 => ALGraph.loop d g fuel st1 := by
  rw [ALGraph.loop, ALGraph.pass]
  cases ALGraph.top st.pq <;> rfl

/-- C32 (the code at the failing input): `dijkstra` runs its loop from the
initial variables, pass by pass, and the queue is a `std::priority_queue` with
the default order, whose `top()` is a greatest pair: the pair a pass removes
has the highest cost of all queued pairs, not the lowest.  On the sample graph
from vertex 1 the first pass leaves the pairs (7, 2) and (2, 3) queued; the
second pass removes (7, 2), not (2, 3), and leaves (8, 4) and (2, 3). -/
theorem dijkstra_pops_greatest :
    (∀ (d : Decls) (g : ALGraph) (start fuel : Nat),
      ALGraph.dijkstra d g start fuel
        = (ALGraph.loop d g fuel (ALGraph.initial d g start)).map
            (fun st => st.dijkstraInfoList)) ∧
    (∀ (d : Decls) (g : ALGraph) (fuel : Nat) (st : DijkstraState),
      ALGraph.loop d g (fuel + 1) st
        = match ALGraph.pass d g st with
          | none => some st
          | some st1 => ALGraph.loop d g fuel st1) ∧
    (∀ (d : Decls) (g : ALGraph) (st : DijkstraState) (t : Nat × Nat),
      ALGraph.top st.pq = some t →
        t ∈ st.pq ∧ (∀ x ∈ st.pq, x.1 ≤ t.1) ∧
        ALGraph.pass d g st = some ((g.adjList_.getD (t.2 - 1) []).foldl (ALGraph.visit d t.2)
          { st with pq := st.pq.erase t })) ∧
    (ALGraph.passes stdDecls sampleGraph 1 (ALGraph.initial stdDecls sampleGraph 1)).pq
      = [(7, 2), (2, 3)] ∧
    ALGraph.top [(7, 2), (2, 3)] = some (7, 2) ∧
    (ALGraph.passes stdDecls sampleGraph 2 (ALGraph.initial stdDecls sampleGraph 1)).pq
      = [(8, 4), (2, 3)] := by
  refine ⟨fun _ _ _ _ => rfl, loop_pass, ?_, by decide, by decide, by decide⟩
  intro d g st t ht
  refine ⟨top_mem st.pq t ht, top_greatest st.pq t ht, ?_⟩
  rw [ALGraph.pass, ht]
/-- C36 (the code at the failing input): a tree of `src/BST/BST.cpp` that is
given no allocator makes its own, with no header and no padding for
`stdTreeDecls`, and 32-byte nodes.  The eight calls `add(40)`, `add(30)`,
`add(20)`, `add(10)`, `remove(20)`, `remove(30)`, `add(35)`, `add(36)` all
return.  The first four put the nodes of 10, 20, 30 and 40 at 7176, 7208, 7240
and 7272.  The `free` of `remove(20)` stores the flag byte 0 at 7207, the last
byte of the node of 10; the `free` of `remove(30)` writes the link 7208 into
the block 7240 and then, through the header store of the empty header, a zero
over its lowest byte, which leaves 7168.  `add(35)` takes the block 7240, and
`add(36)` is then given 7168 for its node, whose 32 bytes reach to 7200 and
include the first 24 bytes of the node of 10 at 7176, a node of the tree: the
construction of the new node overwrites them.  The tree value, which keeps
the fields of nodes outside the memory of the allocator, does not show the
damage. -/
theorem bst_counts_overlap :
    (BST.construct stdDecls stdTreeDecls stdBackend zeroMem none
      : Except TreeExn (BST Nat)) = .ok ownTree ∧
    stdTreeDecls.nodeSize = 32 ∧
    BST.outcomes stdDecls stdTreeDecls ownTree (overlapOps ++ [.add 36])
      = List.replicate 8 (.ok ()) ∧
    (BST.after stdDecls stdTreeDecls ownTree (overlapOps.take 4)).root_
      = .node (.node (.node (.node .nil 10 .nil 1 0 7176) 20 .nil 2 0 7208) 30 .nil 3 0 7240)
          40 .nil 4 0 7272 ∧
    (BST.after stdDecls stdTreeDecls ownTree (overlapOps.take 4)).allocator_.map
      (fun s => s.mem 7207) = some 0xBB ∧
    (BST.after stdDecls stdTreeDecls ownTree (overlapOps.take 5)).allocator_.map
      (fun s => s.mem 7207) = some 0 ∧
    (BST.after stdDecls stdTreeDecls ownTree (overlapOps.take 6)).allocator_.map
      (fun s => (s.pFreeList_, readPtr s.mem 7240)) = some (7240, 7168) ∧
    (BST.after stdDecls stdTreeDecls ownTree overlapOps).root_
      = .node (.node .nil 10 (.node .nil 35 .nil 1 0 7240) 2 0 7176) 40 .nil 3 0 7272 ∧
    (BST.after stdDecls stdTreeDecls ownTree (overlapOps ++ [.add 36])).root_
      = .node (.node .nil 10 (.node .nil 35 (.node .nil 36 .nil 1 0 7168) 2 0 7240) 3 0 7176)
          40 .nil 4 0 7272 :=
  ⟨rfl, rfl, by decide!, by decide!, by decide!, by decide!, by decide!, by decide!,
    by decide!⟩

section HeightLemmas

variable {T : Type}

theorem isNull_nil : (BinTree.nil : BinTree T).isNull = true := rfl

theorem isNull_node (l r : BinTree T) (x : T) (c : Nat) (b : Int) (p : Nat) :
    (BinTree.node l x r c b p).isNull = false := rfl

theorem avl_treeHeight_nonneg (t : BinTree T) (h : t.isNull = false) :
    0 ≤ AVL.BST.treeHeight t := by
  cases t with
  | nil => cases h
  | node l x r c b p =>
    have h1 := treeHeight_ge l
    have h2 := treeHeight_ge r
    rw [treeHeight_node]
    omega

theorem avl_treeHeight_null (t : BinTree T) (h : t.isNull = true) :
    AVL.BST.treeHeight t = -1 := by
  cases t with
  | nil => rfl
  | node l x r c b p => cases h

theorem bst_treeHeight_nil (root : BinTree T) (hroot : root.isNull = false) :
    BST.treeHeight root .nil = 0 := by
  rw [BST.treeHeight, hroot]
  rfl

theorem bst_treeHeight_node (root : BinTree T) (hroot : root.isNull = false)
    (l r : BinTree T) (x : T) (c : Nat) (b : Int) (p : Nat) :
    BST.treeHeight root (.node l x r c b p)
      = if (l.isNull && r.isNull) = true then 0
        else 1 + (if BST.treeHeight root l > BST.treeHeight root r then BST.treeHeight root l
          else BST.treeHeight root r) := by
  rw [BST.treeHeight, hroot]
  rfl

theorem bst_treeHeight_eq (root : BinTree T) (hroot : root.isNull = false) (t : BinTree T) :
    BST.treeHeight root t = if t.isNull = true then 0 else AVL.BST.treeHeight t := by
  induction t with
  | nil => rw [bst_treeHeight_nil root hroot, isNull_nil, if_pos rfl]
  | node l x r c b p ihl ihr =>
    rw [bst_treeHeight_node root hroot, treeHeight_node, isNull_node, ihl, ihr]
    simp only [Bool.false_eq_true, if_false]
    cases hl : l.isNull <;> cases hr : r.isNull
    · have h1 := avl_treeHeight_nonneg l hl
      have h2 := avl_treeHeight_nonneg r hr
      simp only [Bool.false_and, Bool.false_eq_true, if_false]
      split <;> omega
    · have h1 := avl_treeHeight_nonneg l hl
      have h2 := avl_treeHeight_null r hr
      simp only [Bool.false_and, Bool.false_eq_true, if_false, if_true]
      split <;> omega
    · have h1 := avl_treeHeight_null l hl
      have h2 := avl_treeHeight_nonneg r hr
      simp only [Bool.true_and, Bool.false_eq_true, if_false, if_true]
      split <;> omega
    · have h1 := avl_treeHeight_null l hl
      have h2 := avl_treeHeight_null r hr
      simp only [Bool.and_self, if_true]
      omega

theorem foldr_max_append (f : List Nat → Nat) (A B : List (List Nat)) :
    ((A ++ B).map f).foldr max 0 = max ((A.map f).foldr max 0) ((B.map f).foldr max 0) := by
  induction A with
  | nil => simp
  | cons a A ih =>
    simp only [List.cons_append, List.map_cons, List.foldr_cons, ih]
    omega

theorem foldr_max_le (L : List Nat) : ∀ n ∈ L, n ≤ L.foldr max 0 := by
  induction L with
  | nil => intro n hn; cases hn
  | cons a L ih =>
    intro n hn
    rw [List.foldr_cons]
    rcases List.mem_cons.mp hn with rfl | hn
    · exact le_max_left _ _
    · exact le_trans (ih n hn) (le_max_right _ _)

theorem foldr_max_mem (L : List Nat) (h : L ≠ []) : L.foldr max 0 ∈ L := by
  induction L with
  | nil => exact absurd rfl h
  | cons a L ih =>
    rw [List.foldr_cons]
    by_cases hL : L = []
    · subst hL
      simp
    · rcases max_choice a (L.foldr max 0) with h1 | h1
      · rw [h1]
        exact List.mem_cons_self _ _
      · rw [h1]
        exact List.mem_cons_of_mem _ (ih hL)

theorem rootToLeaf_node (l r : BinTree T) (x : T) (c : Nat) (b : Int) (p : Nat) :
    (BinTree.node l x r c b p).rootToLeaf
      = if (l.isNull && r.isNull) = true then [[p]]
        else (l.rootToLeaf ++ r.rootToLeaf).map (fun q => p :: q) := rfl

theorem rootToLeaf_null (t : BinTree T) (h : t.isNull = true) : t.rootToLeaf = [] := by
  cases t with
  | nil => rfl
  | node l x r c b p => cases h

theorem rootToLeaf_ne_nil (t : BinTree T) (h : t.isNull = false) : t.rootToLeaf ≠ [] := by
  induction t with
  | nil => cases h
  | node l x r c b p ihl ihr =>
    rw [rootToLeaf_node]
    cases hl : l.isNull
    · have := ihl hl
      simp only [Bool.false_and, Bool.false_eq_true, if_false, ne_eq, List.map_eq_nil_iff,
        List.append_eq_nil, not_and]
      intro h1
      exact absurd h1 this
    · cases hr : r.isNull
      · have := ihr hr
        simp only [Bool.true_and, Bool.false_eq_true, if_false, ne_eq, List.map_eq_nil_iff,
          List.append_eq_nil, not_and]
        intro _
        exact this
      · simp

theorem rootToLeaf_length (t : BinTree T) : ∀ q ∈ t.rootToLeaf, 1 ≤ q.length := by
  cases t with
  | nil => intro q hq; cases hq
  | node l x r c b p =>
    intro q hq
    rw [rootToLeaf_node] at hq
    split at hq
    · simp at hq
      rw [hq]
      simp
    · obtain ⟨q1, _, rfl⟩ := List.mem_map.mp hq
      simp

theorem foldr_max_succ (L : List (List Nat)) (p : Nat) (hL : L ≠ [])
    (hlen : ∀ q ∈ L, 1 ≤ q.length) :
    ((L.map (fun q => p :: q)).map (fun q => q.length - 1)).foldr max 0
      = (L.map (fun q => q.length - 1)).foldr max 0 + 1 := by
  induction L with
  | nil => exact absurd rfl hL
  | cons a L ih =>
    have ha := hlen a (List.mem_cons_self _ _)
    by_cases hL2 : L = []
    · subst hL2
      simp only [List.map_cons, List.map_nil, List.foldr_cons, List.foldr_nil, List.length_cons]
      omega
    · have := ih hL2 (fun q hq => hlen q (List.mem_cons_of_mem _ hq))
      simp only [List.map_cons, List.foldr_cons, List.length_cons] at this ⊢
      rw [this]
      omega

/-- The longest root-to-leaf path of a tree that is not empty has
`treeHeight` edges. -/
theorem longest_path_eq (t : BinTree T) (h : t.isNull = false) :
    (((t.rootToLeaf.map (fun q => q.length - 1)).foldr max 0 : Nat) : Int)
      = AVL.BST.treeHeight t := by
  induction t with
  | nil => cases h
  | node l x r c b p ihl ihr =>
    rw [rootToLeaf_node, treeHeight_node]
    cases hl : l.isNull <;> cases hr : r.isNull
    · have h1 := avl_treeHeight_nonneg l hl
      have h2 := avl_treeHeight_nonneg r hr
      have i1 := ihl hl
      have i2 := ihr hr
      simp only [Bool.false_and, Bool.false_eq_true, if_false]
      rw [foldr_max_succ _ p (by simp [rootToLeaf_ne_nil l hl])
        (fun q hq => by
          rcases List.mem_append.mp hq with h | h
          · exact rootToLeaf_length _ q h
          · exact rootToLeaf_length _ q h), foldr_max_append]
      omega
    · have h1 := avl_treeHeight_nonneg l hl
      have h2 := avl_treeHeight_null r hr
      have i1 := ihl hl
      simp only [Bool.false_and, Bool.false_eq_true, if_false]
      rw [rootToLeaf_null r hr, List.append_nil,
        foldr_max_succ _ p (rootToLeaf_ne_nil l hl) (rootToLeaf_length l)]
      omega
    · have h1 := avl_treeHeight_null l hl
      have h2 := avl_treeHeight_nonneg r hr
      have i2 := ihr hr
      simp only [Bool.true_and, Bool.false_eq_true, if_false]
      rw [rootToLeaf_null l hl, List.nil_append,
        foldr_max_succ _ p (rootToLeaf_ne_nil r hr) (rootToLeaf_length r)]
      omega
    · have h1 := avl_treeHeight_null l hl
      have h2 := avl_treeHeight_null r hr
      simp only [Bool.and_self, if_true, List.map_cons, List.map_nil, List.foldr_cons,
        List.foldr_nil, List.length_cons, List.length_nil]
      omega

theorem edgeHeight_eq (t : BinTree T) : t.edgeHeight = AVL.BST.treeHeight t := by
  rw [BinTree.edgeHeight]
  cases h : t.isNull
  · rw [if_neg (by decide)]
    exact longest_path_eq t h
  · rw [if_pos rfl, avl_treeHeight_null t h]

end HeightLemmas

/-- C37: the two height implementations agree.  For every tree object,
`height()` of `src/BST/BST.cpp`, where a null subtree and a leaf both count 0
and an empty tree gives -1, equals `height()` of `src/AVL/BST.cpp`, where a
null subtree counts -1; the common value is -1 for the empty tree and
otherwise the number of edges of a longest root-to-leaf path: no root-to-leaf
path has more edges and one has that many. -/
theorem heights_agree {T : Type} (t : BST T) :
    BST.height t = AVL.BST.height t ∧
    AVL.BST.height t = t.root_.edgeHeight ∧
    (t.root_ = .nil → BST.height t = -1 ∧ AVL.BST.height t = -1) ∧
    (t.root_ ≠ .nil →
      (∀ q ∈ t.root_.rootToLeaf, ((q.length - 1 : Nat) : Int) ≤ BST.height t) ∧
      ∃ q ∈ t.root_.rootToLeaf, ((q.length - 1 : Nat) : Int) = BST.height t) := by
  have key : BST.height t = AVL.BST.height t := by
    show BST.treeHeight t.root_ t.root_ = AVL.BST.treeHeight t.root_
    cases h : t.root_.isNull
    · rw [bst_treeHeight_eq _ h, h, if_neg (by decide)]
    · cases hr : t.root_ with
      | nil => rfl
      | node l x r c b p => rw [hr] at h; cases h
  refine ⟨key, (edgeHeight_eq t.root_).symm, ?_, ?_⟩
  · intro h
    rw [key]
    refine ⟨?_, ?_⟩ <;>
    · show AVL.BST.treeHeight t.root_ = -1
      rw [h]
      rfl
  · intro h
    have hn : t.root_.isNull = false := by
      cases hr : t.root_ with
      | nil => exact absurd hr h
      | node l x r c b p => rfl
    have hlong := longest_path_eq t.root_ hn
    rw [key]
    refine ⟨?_, ?_⟩
    · intro q hq
      show _ ≤ AVL.BST.treeHeight t.root_
      rw [← hlong]
      exact_mod_cast foldr_max_le (t.root_.rootToLeaf.map (fun q => q.length - 1))
        (q.length - 1) (List.mem_map.mpr ⟨q, hq, rfl⟩)
    · have hmem := foldr_max_mem (t.root_.rootToLeaf.map (fun q => q.length - 1))
        (by simp [rootToLeaf_ne_nil t.root_ hn])
      obtain ⟨q, hq, hqe⟩ := List.mem_map.mp hmem
      refine ⟨q, hq, ?_⟩
      show _ = AVL.BST.treeHeight t.root_
      rw [← hlong, ← hqe]

/-- Witness for C37: the tree with the root 5, its children 3 and 8 and the
right child 4 of 3 has the root-to-leaf paths 5, 3, 4 and 5, 8, and both
implementations give the height 2. -/
theorem heights_agree_witness :
    tallTree.root_.rootToLeaf = [[4100, 4200, 4300], [4100, 4400]] ∧
    BST.height tallTree = 2 ∧ AVL.BST.height tallTree = 2 ∧
    BST.height tallTree = AVL.BST.height tallTree :=
  ⟨by decide, by decide, by decide, (heights_agree tallTree).1⟩
theorem seedLoop_fill (d : Decls) (s : SimpleAllocator)
    (hbs : s.stats_.objectSize + 2 * s.config_.padBytesSize ≤ s.stats_.blockSize) (n : Nat) :
    ∀ (i cur prev c : Nat) (m : Mem) (k : Nat), k < n → s.config_.padBytesSize ≤ cur →
      (8 ≤ s.stats_.objectSize → ∀ j, j < s.config_.padBytesSize →
        (seedLoop d s n i cur prev c m).1
            (cur + k * s.stats_.blockSize - s.config_.padBytesSize + j) = d.PAD_PATTERN % 256 ∧
        (seedLoop d s n i cur prev c m).1
            (cur + k * s.stats_.blockSize + s.stats_.objectSize + j) = d.PAD_PATTERN % 256) ∧
      (∀ j, 8 ≤ j → j < s.stats_.objectSize →
        (seedLoop d s n i cur prev c m).1 (cur + k * s.stats_.blockSize + j)
          = d.UNALLOCATED_PATTERN % 256) := by
  induction n with
  | zero => intro i cur prev c m k hk; omega
  | succ n ih =>
    intro i cur prev c m k hk hcur
    rw [seedLoop]
    cases k with
    | zero =>
      rw [Nat.zero_mul, Nat.add_zero]
      refine ⟨fun hos j hj => ⟨?_, ?_⟩, fun j h8 hj => ?_⟩
      · rw [seedLoop_frame d s n _ _ _ _ _ _ (by omega),
          writePtr_away _ _ _ _ (Or.inl (by omega)),
          memset_away _ _ _ _ _ (Or.inl (by omega)), if_pos (by omega),
          memset_away _ _ _ _ _ (Or.inl (by omega)), memset_at _ _ _ _ _ (by omega)]
      · rw [seedLoop_frame d s n _ _ _ _ _ _ (by omega),
          writePtr_away _ _ _ _ (Or.inr (by omega)),
          memset_away _ _ _ _ _ (Or.inr (by omega)), if_pos (by omega),
          memset_at _ _ _ _ _ (by omega)]
      · rw [seedLoop_frame d s n _ _ _ _ _ _ (by omega),
          writePtr_away _ _ _ _ (Or.inr (by omega)),
          memset_at _ _ _ _ _ (by omega)]
    | succ k =>
      have h := ih (i + 1) (cur + s.stats_.blockSize) cur cur
        (writePtr (memset (if s.config_.padBytesSize > 0 then
          memset (memset m (cur - s.config_.padBytesSize) d.PAD_PATTERN s.config_.padBytesSize)
            (cur + s.stats_.objectSize) d.PAD_PATTERN s.config_.padBytesSize else m)
          cur d.UNALLOCATED_PATTERN s.stats_.objectSize) cur
          (if i = 0 then s.pFreeList_ else prev)) k (by omega) (by omega)
      have e : cur + (k + 1) * s.stats_.blockSize
          = cur + s.stats_.blockSize + k * s.stats_.blockSize := by ring
      rw [e]
      exact h

theorem fill_ok_page (d : Decls) (s : SimpleAllocator)
    (hok : (allocateNewPage d s).1 = .ok ())
    (hbs : s.stats_.objectSize + 2 * s.config_.padBytesSize ≤ s.stats_.blockSize)
    (k : Nat) (hk : k < s.config_.objectsPerPage) :
    (8 ≤ s.stats_.objectSize → ∀ j, j < s.config_.padBytesSize →
      (allocateNewPage d s).2.mem
          (blockAt s (s.backend.rawPage s.pageReqs) k - s.config_.padBytesSize + j)
        = d.PAD_PATTERN % 256 ∧
      (allocateNewPage d s).2.mem
          (blockAt s (s.backend.rawPage s.pageReqs) k + s.stats_.objectSize + j)
        = d.PAD_PATTERN % 256) ∧
    (∀ j, 8 ≤ j → j < s.stats_.objectSize →
      (allocateNewPage d s).2.mem (blockAt s (s.backend.rawPage s.pageReqs) k + j)
        = d.UNALLOCATED_PATTERN % 256) := by
  obtain ⟨_, hmem, _⟩ := allocateNewPage_ok_form d s hok
  rw [hmem]
  exact seedLoop_fill d s hbs _ 0 _ 0 0 _ k hk (by omega)

theorem fill_ok_allocate (d : Decls) (s : SimpleAllocator) (pLabel : Option String) (B : Nat)
    (hok : (allocate d s pLabel).1 = .ok B)
    (hB : s.config_.padBytesSize + s.config_.headerSize ≤ B) (hroom : HeaderRoom s.config_)
    (j : Nat) (hj : j < s.stats_.objectSize) :
    (allocate d s pLabel).2.mem (B + j) = d.ALLOCATED_PATTERN % 256 := by
  have hc := beforePop_config d s
  have hos := beforePop_objectSize d s
  obtain ⟨h1, h4, h8⟩ := hroom
  obtain ⟨_, hB0, _, hform⟩ := allocate_ok_form d s pLabel B hok
  rw [hform] at hok ⊢
  by_cases hE : s.config_.headerType = .EXTENDED_HEADER
  · have := h4 hE
    rw [stamp_mem_extended d _ B pLabel (by rw [← hc] at hE; exact hE)]
    dsimp only
    rw [hc, hos, writeByte_away _ _ _ _ (by omega), writeU16_away _ _ _ _ (by omega),
      writeByte_away _ _ _ _ (by omega), memset_at _ _ _ _ _ (by omega)]
  · by_cases hX : s.config_.headerType = .EXTERNAL_HEADER
    · have := h8 hX
      obtain ⟨_, _, _, _, hmem, _, _⟩ :=
        stamp_external_ok d _ B B pLabel (by rw [← hc] at hX; exact hX) hok
      rw [hmem]
      dsimp only
      rw [hc, hos]
      split
      · rw [writePtr_away _ _ _ _ (Or.inr (by omega)), memset_at _ _ _ _ _ (by omega)]
      · rw [memset_at _ _ _ _ _ (by omega)]
    · rw [stamp_mem_plain d _ B pLabel (by rw [← hc] at hE; exact hE)
        (by rw [← hc] at hX; exact hX)]
      dsimp only
      rw [hc, hos, writeByte_away _ _ _ _ (by omega), writeByte_away _ _ _ _ (by omega),
        memset_at _ _ _ _ _ (by omega)]

theorem fill_ok_free (d : Decls) (s : SimpleAllocator) (B : Nat)
    (hok : (free d s B).1 = .ok ()) :
    (∀ j, 8 ≤ j → j < s.stats_.objectSize →
      (free d s B).2.mem (B + j) = d.FREED_PATTERN % 256) ∧
    (s.config_.padBytesSize + s.config_.headerSize ≤ B → HeaderRoom s.config_ →
      s.pFreeList_ < 2 ^ 64 → readPtr (free d s B).2.mem B = s.pFreeList_) := by
  obtain ⟨hB0, _, _⟩ := free_ok_form d s B hok
  by_cases hE : s.config_.headerType = .EXTENDED_HEADER
  · rw [free_mem_extended d s B hok hE]
    refine ⟨fun j h8 hj => ?_, fun hB hroom hF => ?_⟩
    · rw [writeByte_away _ _ _ _ (by split <;> omega), writeU16_away _ _ _ _ (by omega),
        writePtr_away _ _ _ _ (Or.inr (by omega)), memset_at _ _ _ _ _ (by omega)]
    · have := hroom.2.1 hE
      rw [← readPtr_writePtr (memset s.mem B d.FREED_PATTERN s.stats_.objectSize) B
        s.pFreeList_ hF]
      apply readPtr_congr
      intro k hk
      rw [readPtr_writePtr _ _ _ hF]
      rw [writeByte_away _ _ _ _ (by split <;> omega), writeU16_away _ _ _ _ (by omega)]
  · by_cases hX : s.config_.headerType = .EXTERNAL_HEADER
    · obtain ⟨_, _, hmem, _, _⟩ := free_external_ok d s B hX hok
      rw [hmem]
      refine ⟨fun j h8 hj => ?_, fun hB hroom hF => readPtr_writePtr _ _ _ hF⟩
      rw [writePtr_away _ _ _ _ (Or.inr (by omega)), memset_at _ _ _ _ _ (by omega)]
    · rw [free_mem_plain d s B hok hE hX]
      refine ⟨fun j h8 hj => ?_, fun hB hroom hF => ?_⟩
      · rw [writeByte_away _ _ _ _ (by split <;> omega), writeByte_away _ _ _ _ (by omega),
          writePtr_away _ _ _ _ (Or.inr (by omega)), memset_at _ _ _ _ _ (by omega)]
      · have := hroom.1
        rw [← readPtr_writePtr (memset s.mem B d.FREED_PATTERN s.stats_.objectSize) B
          s.pFreeList_ hF]
        apply readPtr_congr
        intro k hk
        rw [readPtr_writePtr _ _ _ hF]
        rw [writeByte_away _ _ _ _ (by split <;> omega), writeByte_away _ _ _ _ (by omega)]
/-- C31 (as stated, refuted): with 4-byte objects and two pad bytes the page
acquisition stores the 8-byte link of each block over its post-pad bytes, which
hold 0 and not the guard pattern afterwards.  With no header and no pad bytes
the first `allocate` returns block 4128 and stores the allocation number 1 in
its first byte, which does not hold the allocated pattern, and the `free` of
that block stores 0 in the same byte, the low byte of the link: the link word
reads 4096 and not the previous free-list head 4120. -/
theorem fill_patterns_degenerate :
    construct stdDecls stdBackend zeroMem 4 smallPaddedConfig = .ok smallPaddedStart ∧
    (List.range 2).map (blockAt smallPaddedStart 4096) = [4111, 4124] ∧
    stdDecls.PAD_PATTERN = 0xDD ∧
    [smallPaddedStart.mem (4111 + 4), smallPaddedStart.mem (4111 + 5),
      smallPaddedStart.mem (4124 + 4), smallPaddedStart.mem (4124 + 5)] = [0, 0, 0, 0] ∧
    (allocate stdDecls scenarioStart none).1 = .ok 4128 ∧
    stdDecls.ALLOCATED_PATTERN = 0xBB ∧
    (allocate stdDecls scenarioStart none).2.mem 4128 = 1 ∧
    (allocate stdDecls scenarioStart none).2.pFreeList_ = 4120 ∧
    (free stdDecls (allocate stdDecls scenarioStart none).2 4128).1 = .ok () ∧
    readPtr (free stdDecls (allocate stdDecls scenarioStart none).2 4128).2.mem 4128 = 4096 :=
  ⟨rfl, rfl, rfl, rfl, rfl, rfl, rfl, rfl, rfl, rfl⟩

/-- C31 (amended): the fill patterns, as bytes.  After a successful page
acquisition, in blocks at least as large as the object and its two pad
regions, every object byte beyond the 8-byte link word of every block of the
new page holds the unallocated pattern and, when the object has at least the
8 bytes of the link, every pad byte of every block holds the guard pattern.
After a successful `allocate` of a block that has its header and pad bytes
below it, when these are enough for the header bytes that `allocate` writes,
all `objectSize` bytes of the object hold the allocated pattern.  After a
successful `free` every object byte of the block beyond the link word holds
the freed pattern and, under the same two conditions, the link word holds the
free-list head from before the call. -/
theorem fill_patterns (d : Decls) (s : SimpleAllocator) :
    ((allocateNewPage d s).1 = .ok () →
      s.stats_.objectSize + 2 * s.config_.padBytesSize ≤ s.stats_.blockSize →
      ∀ k, k < s.config_.objectsPerPage →
        (8 ≤ s.stats_.objectSize → ∀ j, j < s.config_.padBytesSize →
          (allocateNewPage d s).2.mem
              (blockAt s (s.backend.rawPage s.pageReqs) k - s.config_.padBytesSize + j)
            = d.PAD_PATTERN % 256 ∧
          (allocateNewPage d s).2.mem
              (blockAt s (s.backend.rawPage s.pageReqs) k + s.stats_.objectSize + j)
            = d.PAD_PATTERN % 256) ∧
        (∀ j, 8 ≤ j → j < s.stats_.objectSize →
          (allocateNewPage d s).2.mem (blockAt s (s.backend.rawPage s.pageReqs) k + j)
            = d.UNALLOCATED_PATTERN % 256)) ∧
    (∀ pLabel B, (allocate d s pLabel).1 = .ok B →
      s.config_.padBytesSize + s.config_.headerSize ≤ B → HeaderRoom s.config_ →
      ∀ j, j < s.stats_.objectSize →
        (allocate d s pLabel).2.mem (B + j) = d.ALLOCATED_PATTERN % 256) ∧
    (∀ B, (free d s B).1 = .ok () →
      (∀ j, 8 ≤ j → j < s.stats_.objectSize →
        (free d s B).2.mem (B + j) = d.FREED_PATTERN % 256) ∧
      (s.config_.padBytesSize + s.config_.headerSize ≤ B → HeaderRoom s.config_ →
        s.pFreeList_ < 2 ^ 64 → readPtr (free d s B).2.mem B = s.pFreeList_)) :=
  ⟨fun hok hbs k hk => fill_ok_page d s hok hbs k hk,
    fun pLabel B hok hB hroom j hj => fill_ok_allocate d s pLabel B hok hB hroom j hj,
    fun B hok => fill_ok_free d s B hok⟩

/-- Witness for C31, with the five-byte basic header, two pad bytes and 16-byte
objects: the page acquisition leaves the guard pattern in the pad bytes around
block 4136 and the unallocated pattern in its byte 8; `allocate` returns block
4186 and leaves the allocated pattern in its byte 3; `free(4186)` leaves the
freed pattern in its byte 9 and the previous head 4161 in its link word. -/
theorem fill_patterns_witness :
    (allocateNewPage stdDecls basicInit).2 = basicStart ∧
    blockAt basicInit 4096 1 = 4136 ∧
    (basicStart.mem (4136 - 2 + 1) = 0xDD ∧ basicStart.mem (4136 + 16 + 1) = 0xDD) ∧
    basicStart.mem (4136 + 8) = 0xAA ∧
    (allocate stdDecls basicStart none).1 = .ok 4186 ∧
    (allocate stdDecls basicStart none).2.mem (4186 + 3) = 0xBB ∧
    (allocate stdDecls basicStart none).2.pFreeList_ = 4161 ∧
    (free stdDecls (allocate stdDecls basicStart none).2 4186).2.mem (4186 + 9) = 0xCC ∧
    readPtr (free stdDecls (allocate stdDecls basicStart none).2 4186).2.mem 4186 = 4161 :=
  ⟨rfl, rfl,
    ((fill_patterns stdDecls basicInit).1 rfl (by decide) 1 (by decide)).1 (by decide) 1
      (by decide),
    ((fill_patterns stdDecls basicInit).1 rfl (by decide) 1 (by decide)).2 8 (by decide)
      (by decide),
    rfl,
    (fill_patterns stdDecls basicStart).2.1 none 4186 rfl (by decide)
      ⟨by decide, by decide, by decide⟩ 3 (by decide),
    rfl,
    ((fill_patterns stdDecls (allocate stdDecls basicStart none).2).2.2 4186 rfl).1 9
      (by decide) (by decide),
    ((fill_patterns stdDecls (allocate stdDecls basicStart none).2).2.2 4186 rfl).2
      (by decide) ⟨by decide, by decide, by decide⟩ (by decide)⟩

/-- C27 (as stated, refuted): `wrapGraph` is built by three `addDEdge` calls;
its paths from vertex 1 that visit no vertex twice are 1, 1 → 2 and
1 → 2 → 3, of the weights 0, 2147483648 and 2147483648, so no path sum
overflows the 32-bit `unsigned`; the cheapest path to vertex 2, and to vertex
3, weighs 2147483648.  `dijkstra(1)` ends and returns the cost 0 for both: the
relaxation of the edge 3 → 2 adds 2147483648 to the cost 2147483648 of
vertex 3 and the sum wraps to 0. -/
theorem dijkstra_wrapped_sum :
    wrapGraph = ALGraph.build 3
      [.addDEdge 1 2 2147483648, .addDEdge 2 3 0, .addDEdge 3 2 2147483648] ∧
    ALGraph.UINT_MAX stdDecls = 4294967295 ∧
    (∀ tr, wrapGraph.Trace 1 tr → (tr.map Prod.fst).Nodup →
      ∀ q ∈ tr, q.2 ≤ ALGraph.UINT_MAX stdDecls) ∧
    wrapGraph.Walk 1 2 2147483648 ∧ wrapGraph.Walk 1 3 2147483648 ∧
    (∀ W, wrapGraph.Walk 1 2 W → 2147483648 ≤ W) ∧
    (∀ W, wrapGraph.Walk 1 3 W → 2147483648 ≤ W) ∧
    (∀ fuel, 100 ≤ fuel →
      wrapGraph.dijkstra stdDecls 1 fuel
        = some [⟨0, [1]⟩, ⟨0, [1, 2, 3, 2]⟩, ⟨0, [1, 2, 3, 2, 3]⟩]) := by
  have e12 : wrapGraph.Edge 1 2 2147483648 := ⟨by decide, by decide⟩
  have e23 : wrapGraph.Edge 2 3 0 := ⟨by decide, by decide⟩
  have w2 : wrapGraph.Trace 1 [(2, 2147483648), (1, 0)] :=
    (trace_cons _ _ _ _ _ _ _).mpr ⟨⟨_, e12, rfl⟩, rfl, rfl⟩
  refine ⟨rfl, by decide, ?_, ⟨_, w2⟩,
    ⟨_, (trace_cons _ _ _ _ _ _ _).mpr ⟨⟨_, e23, rfl⟩, w2⟩⟩,
    fun W h => wrapGraph_far 2 W (Or.inl rfl) h,
    fun W h => wrapGraph_far 3 W (Or.inr rfl) h, wrapGraph_result⟩
  intro tr htr hnd q hq
  rcases wrapGraph_simple tr htr hnd with h | h | h <;> subst h <;>
    simp only [List.mem_cons, List.mem_singleton, List.not_mem_nil, or_false] at hq <;>
    rcases hq with rfl | rfl | rfl <;> decide
